import Mathlib

/-!
M17 web client gateway: wire codec and stream handler.

A shallow embedding of the Go packages `internal/m17` (callsign codec, CRC-16,
stream packets, stream handler) together with the properties proved about them.

Conventions of the embedding:

* a Go `byte` is a `Nat` below 256, a `uint16` a `Nat` below 65536, a `uint64`
  a `Nat` below `2^64`; every operation that can overflow reduces explicitly;
* a Go `string` and a `[]byte` are the `List Nat` of their bytes, a fixed array
  `[n]byte` is a `List Nat` whose length is stated where it matters;
* a Go `error` result is an `Except` over a small error type per function.
-/

namespace M17

/-! ## Bytes, slices and big-endian helpers -/

/-- Every element of the list is a byte. -/
def AllBytes (l : List Nat) : Prop := ∀ b ∈ l, b < 256

instance (l : List Nat) : Decidable (AllBytes l) := by
  unfold AllBytes; infer_instance

/-- The Go slice expression `s[lo:hi]`. -/
def slice (s : List α) (lo hi : Nat) : List α := (s.drop lo).take (hi - lo)

/-- The Go statement `copy(buf[lo:hi], src)`: overwrites
`min (hi - lo) (len src)` elements of `buf` starting at `lo`. -/
def copyAt (buf : List α) (lo hi : Nat) (src : List α) : List α :=
  buf.take lo ++ src.take (hi - lo) ++ buf.drop (lo + (src.take (hi - lo)).length)

/-- The Go call `binary.BigEndian.PutUint16(buf[off:off+2], v)`. -/
def putUint16 (buf : List Nat) (off : Nat) (v : Nat) : List Nat :=
  copyAt buf off (off + 2) [v / 256 % 256, v % 256]

/-- The Go call `binary.BigEndian.Uint16(b)` on a two byte slice. -/
def beUint16 (b : List Nat) : Nat :=
  (b.getD 0 0 * 256 + b.getD 1 0) % 65536

/-! ## Callsign codec (`control.go`) -/

/-- The constant `base40Chars`. -/
def base40Chars : List Nat :=
  " ABCDEFGHIJKLMNOPQRSTUVWXYZ0123456789-/.".toList.map Char.toNat

/-- The byte-wise upper-casing `strings.ToUpper` applies to an ASCII string. -/
def upperByte (c : Nat) : Nat := if 97 ≤ c ∧ c ≤ 122 then c - 32 else c

/-- The Go function `strings.ToUpper`. On a string of ASCII bytes it maps `a..z` to
`A..Z` byte by byte; on any other string it maps the runes through
`unicode.ToUpper`, which is the parameter `mapUpper`. -/
def ToUpper (mapUpper : List Nat → List Nat) (s : List Nat) : List Nat :=
  if s.all (fun c => decide (c < 128)) then s.map upperByte else mapUpper s

/-- The ASCII white space characters: space, tab, line feed, vertical tab, form feed
and carriage return. -/
def isSpace (c : Nat) : Bool := c == 32 || (9 ≤ c && c ≤ 13)

/-- The Go function `strings.TrimSpace` on a string of ASCII bytes: leading and trailing
white space removed. -/
def TrimSpace (s : List Nat) : List Nat := (s.rdropWhile isSpace).dropWhile isSpace

/-- Errors of the callsign functions. -/
inductive CallsignError where
  | tooLong
  | invalidChar (c : Nat)
deriving DecidableEq, Repr

/-- The `switch` of `EncodeCallsign`: the base-40 value of a character, if any. -/
def charVal (c : Nat) : Option Nat :=
  if c = 32 then some 0
  else if 65 ≤ c ∧ c ≤ 90 then some (c - 65 + 1)
  else if 48 ≤ c ∧ c ≤ 57 then some (c - 48 + 27)
  else if c = 45 then some 37
  else if c = 47 then some 38
  else if c = 46 then some 39
  else none

/-- The first loop of `EncodeCallsign`; the characters are given in the order the loop
visits them (last character first) and `address` is a `uint64`. -/
def encodeLoop : List Nat → Nat → Except CallsignError Nat
  | [], address => .ok address
  | c :: rest, address =>
    match charVal c with
    | none => .error (.invalidChar c)
    | some val => encodeLoop rest ((address * 40 + val) % 2 ^ 64)

/-- The second loop of `EncodeCallsign`: `n` more bytes are written in front of `acc`,
least significant first. -/
def fillBytes : Nat → Nat → List Nat → List Nat
  | 0, _, acc => acc
  | n + 1, address, acc => fillBytes n (address / 256) (address % 256 :: acc)

/-- The two loops of `EncodeCallsign`, on the padded callsign. -/
def encodePadded (callsign : List Nat) : Except CallsignError (List Nat) :=
  match encodeLoop callsign.reverse 0 with
  | .error e => .error e
  | .ok address => .ok (fillBytes 6 address [])

/-- The Go function `EncodeCallsign`. -/
def EncodeCallsign (mapUpper : List Nat → List Nat) (callsign : List Nat) :
    Except CallsignError (List Nat) :=
  let callsign := ToUpper mapUpper callsign
  if callsign.length < 9 then
    encodePadded (callsign ++ List.replicate (9 - callsign.length) 32)
  else if callsign.length > 9 then .error .tooLong
  else encodePadded callsign

/-- The second loop of `DecodeCallsign`, `for address > 0`; every iteration makes
`address` smaller, so `fuel = address` iterations are always enough. -/
def decodeLoop : Nat → Nat → List Nat → List Nat
  | 0, _, chars => chars
  | fuel + 1, address, chars =>
    if address > 0 then
      decodeLoop fuel (address / 40) (chars ++ [base40Chars.getD (address % 40) 0])
    else chars

/-- The Go function `DecodeCallsign`. -/
def DecodeCallsign (encoded : List Nat) : List Nat :=
  if encoded.length ≠ 6 then []
  else
    let address := encoded.foldl (fun address b => (address * 256 + b) % 2 ^ 64) 0
    TrimSpace (decodeLoop address address [])

/-! ## CRC-16 (`crc.go`) -/

/-- One pass of the inner loop of `CRC16` on the `uint16` register. -/
def crcShift (crc : Nat) : Nat :=
  if crc &&& 0x8000 ≠ 0 then ((crc <<< 1) % 65536) ^^^ 0x5935
  else (crc <<< 1) % 65536

/-- The body of the outer loop of `CRC16` for one byte. -/
def crcByte (crc b : Nat) : Nat :=
  crcShift^[8] (crc ^^^ ((b <<< 8) % 65536))

/-- The Go function `CRC16`. -/
def CRC16 (data : List Nat) : Nat := data.foldl crcByte 0xFFFF

/-! ## Stream packets (`stream.go`) -/

/-- The Go struct `StreamPacket`. -/
structure StreamPacket where
  StreamID : Nat
  LSD : List Nat
  FrameNum : Nat
  Payload : List Nat
deriving DecidableEq, Repr

/-- The Go method `IsLast`. -/
def StreamPacket.IsLast (sp : StreamPacket) : Bool := sp.FrameNum &&& 0x8000 != 0

/-- Errors of `ParseStreamPacket`. -/
inductive StreamError where
  | invalidLength
  | invalidMagic
  | crcMismatch
deriving DecidableEq, Repr

/-- The four bytes `'M', '1', '7', ' '`. -/
def streamMagic : List Nat := [77, 49, 55, 32]

/-- The Go function `BuildStreamPacket`; its error result is always `nil`, so the
embedding returns the buffer inside `Except.ok`. -/
def BuildStreamPacket (streamID : Nat) (lsd : List Nat) (frameNum : Nat) (isLast : Bool)
    (payload : List Nat) : Except StreamError (List Nat) :=
  let frameNum := if isLast then frameNum ||| 0x8000 else frameNum
  let buf := List.replicate 54 0
  let buf := copyAt buf 0 4 streamMagic
  let buf := putUint16 buf 4 streamID
  let buf := copyAt buf 6 34 lsd
  let buf := putUint16 buf 34 frameNum
  let buf := copyAt buf 36 52 payload
  let crc := CRC16 (slice buf 0 52)
  let buf := putUint16 buf 52 crc
  .ok buf

/-- The Go function `ParseStreamPacket`. -/
def ParseStreamPacket (data : List Nat) : Except StreamError StreamPacket :=
  if data.length < 54 then .error .invalidLength
  else if slice data 0 4 ≠ streamMagic then .error .invalidMagic
  else
    let streamID := beUint16 (slice data 4 6)
    let lsd := copyAt (List.replicate 28 0) 0 28 (slice data 6 34)
    let frameNum := beUint16 (slice data 34 36)
    let payload := slice data 36 52
    let crcExpected := beUint16 (slice data 52 54)
    if CRC16 (slice data 0 52) ≠ crcExpected then .error .crcMismatch
    else
      let payloadArr := copyAt (List.replicate 16 0) 0 16 payload
      .ok { StreamID := streamID, LSD := lsd, FrameNum := frameNum, Payload := payloadArr }

/-! ## Codec2 binding (`codec2.go`) -/

/-- The codec2 C library as `codec2.go` uses it on the encoder side, over the state `σ`
behind a handle: `codec2_samples_per_frame`, `codec2_bits_per_frame`, and
`codec2_encode`, which returns the bytes it writes and the next state. -/
structure Codec2Lib (σ : Type) where
  samples_per_frame : σ → Nat
  bits_per_frame : σ → Nat
  encode : σ → List Int → List Nat × σ

/-- Errors of the stream handler's sending path. -/
inductive SendError where
  | invalidPCMLength
  | build (e : StreamError)
  | udpWrite
  | streamID
deriving DecidableEq, Repr

/-- The Go method `Codec2.Encode`: the result and the codec state afterwards. -/
def Codec2Encode (lib : Codec2Lib σ) (c : σ) (pcm : List Int) :
    Except SendError (List Nat) × σ :=
  let nsam := lib.samples_per_frame c
  let nbit := lib.bits_per_frame c
  if pcm.length ≠ nsam then (.error .invalidPCMLength, c)
  else
    let bits := List.replicate (nbit / 8) 0
    let out := lib.encode c pcm
    (.ok (copyAt bits 0 (nbit / 8) (out.1.map (fun b => b % 256))), out.2)

/-! ## Stream handler (`stream_handler.go`) -/

/-- The surroundings of a stream handler: the codec2 library, and the UDP socket over
its state `ν`, where `WriteToUDP` (towards the handler's reflector address) gives the next
socket state, or `none` when the write returns an error. -/
structure Env (σ ν : Type) where
  codec : Codec2Lib σ
  WriteToUDP : ν → List Nat → Option ν

/-- The Go struct `StreamHandler`; the reflector address is part of `Env.WriteToUDP`. -/
structure StreamHandler (σ ν : Type) where
  udpConn : ν
  codec2Inst : σ
  streamID : Nat
  lsd : List Nat
  frameNum : Nat
  pcmBuffer : List Int
  muBuf : List Nat

/-- One successful `WriteToUDP` of `SendPCMFrame`: the packet written, and the arguments
it was built from (frame number, `isLast` flag, and the 320 samples of its payload). -/
structure Sent where
  pkt : List Nat
  frameNum : Nat
  builtLast : Bool
  block : List Int
deriving DecidableEq, Repr

/-- What a call of `SendPCMFrame` leaves behind: its error result, the handler state, and
the packets it wrote, in order. -/
structure SendResult (σ ν : Type) where
  err : Option SendError
  sh : StreamHandler σ ν
  sent : List Sent

/-- The Go method `StartNewStream`; `rnd` is the result of `generateStreamID`, `none`
when reading the random source fails. -/
def StartNewStream (sh : StreamHandler σ ν) (rnd : Option Nat) :
    Option SendError × StreamHandler σ ν :=
  match rnd with
  | none => (some .streamID, sh)
  | some sid => (none, { sh with streamID := sid % 65536, frameNum := 0, pcmBuffer := [] })

/-- The Go method `buildPayload`: the payload and the codec state afterwards. -/
def buildPayload (env : Env σ ν) (c : σ) (pcm : List Int) :
    Except SendError (List Nat) × σ :=
  match Codec2Encode env.codec c (slice pcm 0 160) with
  | (.error e, c1) => (.error e, c1)
  | (.ok part1, c1) =>
    match Codec2Encode env.codec c1 (pcm.drop 160) with
    | (.error e, c2) => (.error e, c2)
    | (.ok part2, c2) =>
      let payload := List.replicate 16 0
      let payload := copyAt payload 0 8 part1
      let payload := copyAt payload 8 16 part2
      (.ok payload, c2)

/-- Encode `block`, build the stream packet and write it: the part that the loop of
`SendPCMFrame` and its final padded frame have in common. On success the frame counter
is incremented (a `uint16`); the staging buffer is left to the caller. -/
def emitBlock (env : Env σ ν) (sh : StreamHandler σ ν) (block : List Int) (markLast : Bool) :
    Except SendError Sent × StreamHandler σ ν :=
  match buildPayload env sh.codec2Inst block with
  | (.error e, c) => (.error e, { sh with codec2Inst := c })
  | (.ok payload, c) =>
    let sh := { sh with codec2Inst := c }
    match BuildStreamPacket sh.streamID sh.lsd sh.frameNum markLast payload with
    | .error e => (.error (.build e), sh)
    | .ok pkt =>
      match env.WriteToUDP sh.udpConn pkt with
      | none => (.error .udpWrite, sh)
      | some conn =>
        (.ok { pkt := pkt, frameNum := sh.frameNum, builtLast := markLast, block := block },
         { sh with udpConn := conn, frameNum := (sh.frameNum + 1) % 65536 })

/-- The loop `for len(sh.pcmBuffer) >= 320` of `SendPCMFrame`; every iteration removes
320 samples, so `fuel = len(sh.pcmBuffer)` iterations are always enough. -/
def sendLoop (env : Env σ ν) (isLast : Bool) :
    Nat → StreamHandler σ ν → List Sent → SendResult σ ν
  | 0, sh, sent => ⟨none, sh, sent⟩
  | fuel + 1, sh, sent =>
    if sh.pcmBuffer.length ≥ 320 then
      let markLast := isLast && sh.pcmBuffer.length == 320
      match emitBlock env sh (slice sh.pcmBuffer 0 320) markLast with
      | (.error e, sh) => ⟨some e, sh, sent⟩
      | (.ok s, sh) =>
        sendLoop env isLast fuel { sh with pcmBuffer := sh.pcmBuffer.drop 320 } (sent ++ [s])
    else ⟨none, sh, sent⟩

/-- The Go method `SendPCMFrame`. -/
def SendPCMFrame (env : Env σ ν) (sh : StreamHandler σ ν) (pcm : List Int) (isLast : Bool) :
    SendResult σ ν :=
  let sh := { sh with pcmBuffer := sh.pcmBuffer ++ pcm }
  match sendLoop env isLast sh.pcmBuffer.length sh [] with
  | ⟨some e, sh, sent⟩ => ⟨some e, sh, sent⟩
  | ⟨none, sh, sent⟩ =>
    if isLast && decide (sh.pcmBuffer.length > 0) then
      let padded := copyAt (List.replicate 320 0) 0 320 sh.pcmBuffer
      match emitBlock env sh padded true with
      | (.error e, sh) => ⟨some e, sh, sent⟩
      | (.ok s, sh) => ⟨none, { sh with pcmBuffer := [] }, sent ++ [s]⟩
    else ⟨none, sh, sent⟩

/-- The Go method `Finalize`. -/
def Finalize (env : Env σ ν) (sh : StreamHandler σ ν) : SendResult σ ν :=
  SendPCMFrame env sh [] true

/-- The audio frames of a key-down, forwarded one after the other the way
`HandlePCMFrame` and `HandleG711Frame` do, as `SendPCMFrame(pcm, false)`; an error is
reported to the browser and the next frame is handled all the same. -/
def sendFrames (env : Env σ ν) :
    StreamHandler σ ν → List (List Int) → List Sent → StreamHandler σ ν × List Sent
  | sh, [], sent => (sh, sent)
  | sh, pcm :: rest, sent =>
    let r := SendPCMFrame env sh pcm false
    sendFrames env r.sh rest (sent ++ r.sent)

/-- A key-down as `handlePTT` and `handleAudio` drive the stream handler:
`StartNewStream` on `ptt` active, the audio frames, `Finalize` on `ptt` inactive. The
result is the handler state and all the packets written. -/
def keyDown (env : Env σ ν) (sh : StreamHandler σ ν) (rnd : Option Nat)
    (frames : List (List Int)) : StreamHandler σ ν × List Sent :=
  let sh := (StartNewStream sh rnd).2
  let r := sendFrames env sh frames []
  let f := Finalize env r.1
  (f.sh, r.2 ++ f.sent)

/-- A codec2 stand-in for evaluating the handler: 160 samples and 64 bits per frame, as
in mode 3200, and eight zero bytes for every frame. -/
def zeroCodec : Codec2Lib Unit :=
  { samples_per_frame := fun _ => 160
    bits_per_frame := fun _ => 64
    encode := fun c _ => (List.replicate 8 0, c) }

/-- A stand-in for the surroundings: the zero codec and a socket that records what is
written to it. -/
def recordingEnv : Env Unit (List (List Nat)) :=
  { codec := zeroCodec
    WriteToUDP := fun conn pkt => some (conn ++ [pkt]) }

/-- A handler as `NewStreamHandler` leaves it, over the recording socket. -/
def freshHandler (sid : Nat) (lsd : List Nat) : StreamHandler Unit (List (List Nat)) :=
  { udpConn := [], codec2Inst := (), streamID := sid, lsd := lsd, frameNum := 0,
    pcmBuffer := [], muBuf := [] }

/-- A codec2 stand-in with a state, for evaluating the handler: 160 samples and 64 bits per
frame, the state counts the frames encoded, and the eight bytes of a frame are the count
before it, the first sample of the frame, and six zero bytes. -/
def countingCodec : Codec2Lib Nat :=
  { samples_per_frame := fun _ => 160
    bits_per_frame := fun _ => 64
    encode := fun c pcm => ([c, (pcm.headD 0).toNat] ++ List.replicate 6 0, c + 1) }

/-- A stand-in for the surroundings: the counting codec and a socket that records what is
written to it. -/
def countingEnv : Env Nat (List (List Nat)) :=
  { codec := countingCodec
    WriteToUDP := fun conn pkt => some (conn ++ [pkt]) }

/-- A handler as `NewStreamHandler` leaves it, over the counting codec and the recording
socket. -/
def countingHandler : StreamHandler Nat (List (List Nat)) :=
  { udpConn := [], codec2Inst := 0, streamID := 7, lsd := List.replicate 28 0, frameNum := 0,
    pcmBuffer := [], muBuf := [] }

/-! ## Control packets (`control.go`) -/

/-- An ASCII string literal of the source as the list of its bytes. -/
def str (s : String) : List Nat := s.toList.map Char.toNat

/-- The constant `MagicCONN`. -/
def MagicCONN : List Nat := str "CONN"

/-- The constant `MagicACKN`. -/
def MagicACKN : List Nat := str "ACKN"

/-- The constant `MagicNACK`. -/
def MagicNACK : List Nat := str "NACK"

/-- The constant `MagicPING`. -/
def MagicPING : List Nat := str "PING"

/-- The constant `MagicPONG`. -/
def MagicPONG : List Nat := str "PONG"

/-- The constant `MagicDISC`. -/
def MagicDISC : List Nat := str "DISC"

/-- The Go type `ControlType`. -/
inductive ControlType where
  | CtrlUnknown
  | CtrlCONN
  | CtrlACKN
  | CtrlNACK
  | CtrlPING
  | CtrlPONG
  | CtrlDISC
deriving DecidableEq, Repr

/-- Errors of `ParseControlPacket`: `"packet too short"`, `"invalid ... length"` for the
magic named, and `"unknown control magic"`. -/
inductive ControlError where
  | tooShort
  | invalidLength (t : ControlType)
  | unknownMagic
deriving DecidableEq, Repr

/-- The result of a successful `ParseControlPacket`: type, callsign and module. -/
structure ControlPacket where
  ctrlType : ControlType
  callsign : List Nat
  module : Nat
deriving DecidableEq, Repr

/-- The Go function `ParseControlPacket`. -/
def ParseControlPacket (data : List Nat) : Except ControlError ControlPacket :=
  if data.length < 4 then .error .tooShort
  else
    let magic := slice data 0 4
    if magic = MagicCONN then
      if data.length < 11 then .error (.invalidLength .CtrlCONN)
      else
        let cs := DecodeCallsign (slice data 4 10)
        let module := data.getD 10 0
        .ok ⟨.CtrlCONN, cs, module⟩
    else if magic = MagicACKN then
      if data.length < 4 then .error (.invalidLength .CtrlACKN)
      else .ok ⟨.CtrlACKN, [], 0⟩
    else if magic = MagicNACK then
      if data.length < 4 then .error (.invalidLength .CtrlNACK)
      else .ok ⟨.CtrlNACK, [], 0⟩
    else if magic = MagicPING then
      if data.length < 10 then .error (.invalidLength .CtrlPING)
      else .ok ⟨.CtrlPING, DecodeCallsign (slice data 4 10), 0⟩
    else if magic = MagicPONG then
      if data.length < 10 then .error (.invalidLength .CtrlPONG)
      else .ok ⟨.CtrlPONG, DecodeCallsign (slice data 4 10), 0⟩
    else if magic = MagicDISC then
      if data.length = 4 then .ok ⟨.CtrlDISC, [], 0⟩
      else if data.length < 10 then .error (.invalidLength .CtrlDISC)
      else .ok ⟨.CtrlDISC, DecodeCallsign (slice data 4 10), 0⟩
    else .error .unknownMagic

/-- The Go function `buildControlPacket`. -/
def buildControlPacket (mapUpper : List Nat → List Nat) (magic callsign : List Nat) :
    Except CallsignError (List Nat) :=
  match EncodeCallsign mapUpper callsign with
  | .error e => .error e
  | .ok encoded => .ok (magic ++ encoded)

/-- The Go function `BuildCONN`. -/
def BuildCONN (mapUpper : List Nat → List Nat) (callsign : List Nat) (module : Nat) :
    Except CallsignError (List Nat) :=
  match buildControlPacket mapUpper MagicCONN callsign with
  | .error e => .error e
  | .ok pkt => .ok (pkt ++ [module])

/-- The Go function `BuildPONG`. -/
def BuildPONG (mapUpper : List Nat → List Nat) (callsign : List Nat) :
    Except CallsignError (List Nat) :=
  buildControlPacket mapUpper MagicPONG callsign

/-- The Go function `BuildDISC`. -/
def BuildDISC (mapUpper : List Nat → List Nat) (callsign : List Nat) :
    Except CallsignError (List Nat) :=
  buildControlPacket mapUpper MagicDISC callsign

/-- The `switch` of `ValidateCallsign`: whether the byte is one of the accepted
characters. -/
def validChar (c : Nat) : Bool :=
  if c = 32 then true
  else if 65 ≤ c ∧ c ≤ 90 then true
  else if 48 ≤ c ∧ c ≤ 57 then true
  else if c = 45 then true
  else if c = 47 then true
  else if c = 46 then true
  else false

/-- The loop of `ValidateCallsign`, from the first character on. -/
def validateLoop : List Nat → Except CallsignError Unit
  | [] => .ok ()
  | c :: rest => if validChar c then validateLoop rest else .error (.invalidChar c)

/-- The Go function `ValidateCallsign`. -/
def ValidateCallsign (mapUpper : List Nat → List Nat) (callsign : List Nat) :
    Except CallsignError (List Nat) :=
  let callsign := ToUpper mapUpper callsign
  if callsign.length > 9 then .error .tooLong
  else
    match validateLoop callsign with
    | .error e => .error e
    | .ok _ => .ok callsign

/-! ## Link setup frames (`stream.go`) -/

/-- The Go struct `LSF`; the field `Type` of the source is `Typ` here. -/
structure LSF where
  Source : List Nat
  Destination : List Nat
  Typ : Nat
  Meta : List Nat
deriving DecidableEq, Repr

/-- Errors of `ParseLSF`. -/
inductive LSFError where
  | invalidLength (n : Nat)
  | crcMismatch
deriving DecidableEq, Repr

/-- The Go function `BuildLSF`; `meta` is a `[14]byte` and the result a `[30]byte`. -/
def BuildLSF (mapUpper : List Nat → List Nat) (dst src meta : List Nat) :
    Except CallsignError (List Nat) :=
  let lsf := List.replicate 30 0
  match EncodeCallsign mapUpper dst with
  | .error e => .error e
  | .ok dstEnc =>
    match EncodeCallsign mapUpper src with
    | .error e => .error e
    | .ok srcEnc =>
      let lsf := copyAt lsf 0 6 dstEnc
      let lsf := copyAt lsf 6 12 srcEnc
      let lsf := putUint16 lsf 12 0x0005
      let lsf := copyAt lsf 14 28 meta
      let crc := CRC16 (slice lsf 0 28)
      let lsf := putUint16 lsf 28 crc
      .ok lsf

/-- The second half of `ParseLSF`: the fields of the 28 bytes. -/
def parseLSFFields (data : List Nat) : LSF :=
  let dstEnc := copyAt (List.replicate 6 0) 0 6 (slice data 0 6)
  let dstCall := DecodeCallsign dstEnc
  let srcEnc := copyAt (List.replicate 6 0) 0 6 (slice data 6 12)
  let srcCall := DecodeCallsign srcEnc
  let typ := beUint16 (slice data 12 14)
  let meta := copyAt (List.replicate 14 0) 0 14 (slice data 14 28)
  { Destination := dstCall, Source := srcCall, Typ := typ, Meta := meta }

/-- The Go function `ParseLSF`. -/
def ParseLSF (data : List Nat) : Except LSFError LSF :=
  if data.length ≠ 28 ∧ data.length ≠ 30 then .error (.invalidLength data.length)
  else if data.length = 30 then
    let crcExpected := beUint16 (slice data 28 30)
    if CRC16 (slice data 0 28) ≠ crcExpected then .error .crcMismatch
    else .ok (parseLSFFields (slice data 0 28))
  else .ok (parseLSFFields data)

/-- The Go function `LSFToLSD`. -/
def LSFToLSD (lsf : List Nat) : List Nat :=
  copyAt (List.replicate 28 0) 0 28 (slice lsf 0 28)

/-- The Go function `ParseStreamPacketWithLSF`: the packet, and the LSF or the error of
`ParseLSF`. -/
def ParseStreamPacketWithLSF (data : List Nat) :
    Except StreamError (StreamPacket × Except LSFError LSF) :=
  match ParseStreamPacket data with
  | .error e => .error e
  | .ok pkt => .ok (pkt, ParseLSF pkt.LSD)

/-! ## Stream handler construction (`stream_handler.go`) -/

/-- Errors of `NewStreamHandler`. -/
inductive NewHandlerError where
  | buildLSF (e : CallsignError)
  | codec2Init
  | streamID
deriving DecidableEq, Repr

/-- The Go function `NewStreamHandler`. `newCodec` is the result of `New(MODE_3200)`,
`none` when `codec2_create` returns no handle, and `rnd` the result of
`generateStreamID`, `none` when reading the random source fails. -/
def NewStreamHandler (mapUpper : List Nat → List Nat) (conn : ν) (newCodec : Option σ)
    (rnd : Option Nat) (src dst : List Nat) : Except NewHandlerError (StreamHandler σ ν) :=
  let dst := if dst.length > 9 ∨ 58 ∈ dst then src else dst
  let meta := List.replicate 14 0
  match BuildLSF mapUpper dst src meta with
  | .error e => .error (.buildLSF e)
  | .ok lsf =>
    let lsd := LSFToLSD lsf
    match newCodec with
    | none => .error .codec2Init
    | some c2 =>
      match rnd with
      | none => .error .streamID
      | some sid =>
        .ok { udpConn := conn, codec2Inst := c2, streamID := sid % 65536, lsd := lsd,
              frameNum := 0, pcmBuffer := [], muBuf := [] }

/-- A call of one of the sending methods of a stream handler. -/
inductive HandlerCall where
  | StartNewStream (rnd : Option Nat)
  | SendPCMFrame (pcm : List Int) (isLast : Bool)
  | Finalize

/-- A sequence of calls on a stream handler, errors ignored: the handler state and all
the packets written. -/
def runCalls (env : Env σ ν) :
    StreamHandler σ ν → List HandlerCall → List Sent → StreamHandler σ ν × List Sent
  | sh, [], sent => (sh, sent)
  | sh, .StartNewStream rnd :: rest, sent => runCalls env (StartNewStream sh rnd).2 rest sent
  | sh, .SendPCMFrame pcm isLast :: rest, sent =>
    let r := SendPCMFrame env sh pcm isLast
    runCalls env r.sh rest (sent ++ r.sent)
  | sh, .Finalize :: rest, sent =>
    let r := Finalize env sh
    runCalls env r.sh rest (sent ++ r.sent)

/-! ## G.711 µ-law (`audio/g711.go`) -/

/-- The constant `muLawBias`. -/
def muLawBias : Nat := 0x84

/-- The constant `muLawClip`. -/
def muLawClip : Nat := 32635

/-- The loop of `linearToMuLaw` that looks for the exponent, at most 7 iterations. -/
def muLawExponent (s : Nat) : Nat → Nat → Nat → Nat
  | 0, exponent, _ => exponent
  | fuel + 1, exponent, mask =>
    if exponent > 0 ∧ s &&& mask = 0 then muLawExponent s fuel (exponent - 1) (mask >>> 1)
    else exponent

/-- The Go function `linearToMuLaw` on an `int16` sample. The sign byte
`byte((s >> 8) & 0x80)` is bit 7 of the two's complement of `s >> 8`, which is bit 7 of
`(s >> 8) mod 256`; from there on `s` is not negative and the bytes are natural numbers. -/
def linearToMuLaw (sample : Int) : Nat :=
  let s := sample
  let sign := ((s / 256) % 256).toNat &&& 0x80
  let s := if sign ≠ 0 then -s else s
  let s := if s > muLawClip then (muLawClip : Int) else s
  let s := (s + muLawBias).toNat
  let exponent := muLawExponent s 7 7 0x4000
  let mantissa := (s >>> (exponent + 3)) &&& 0x0F
  (sign ||| ((exponent <<< 4) % 256) ||| mantissa) ^^^ 0xFF

/-- The Go function `muLawToLinear`; the last line is the conversion `int16(t)`. -/
def muLawToLinear (mu : Nat) : Int :=
  let mu := mu ^^^ 0xFF
  let sign := mu &&& 0x80
  let exponent := (mu >>> 4) &&& 0x07
  let mantissa := mu &&& 0x0F
  let t : Int := ((mantissa <<< 3) + muLawBias : Nat)
  let t := t * 2 ^ exponent
  let t := if sign ≠ 0 then (muLawBias : Int) - t else t - muLawBias
  (t + 32768) % 65536 - 32768

/-- The Go function `MuLawEncode`; `dst` only decides whether the result is allocated. -/
def MuLawEncode (_dst : List Nat) (pcm : List Int) : List Nat := pcm.map linearToMuLaw

/-- The Go function `MuLawDecode`; `dst` only decides whether the result is allocated. -/
def MuLawDecode (_dst : List Int) (mu : List Nat) : List Int := mu.map muLawToLinear

/-! ## Session: audio frames (`transport/session.go`, `transport/websocket_audio.go`) -/

/-- The decimal digits `%d` prints. -/
def decimal (n : Nat) : List Nat := str (toString n)

/-- The bytes `%c` prints for a `byte`: the UTF-8 encoding of the code point. -/
def fmtChar (c : Nat) : List Nat := if c < 128 then [c] else [192 + c / 64, 128 + c % 64]

/-- The text of an error of the callsign functions. -/
def CallsignError.Error : CallsignError → List Nat
  | .tooLong => str "callsign too long: max 9 characters"
  | .invalidChar c => str "invalid character in callsign: " ++ fmtChar c

/-- The text of an error of `SendPCMFrame`; `ioText` is the text of the error that the
socket or the random source returned. `BuildStreamPacket` has no error, so `build` never
occurs and has no text. -/
def SendError.Error (ioText : List Nat) : SendError → List Nat
  | .invalidPCMLength => str "invalid PCM length"
  | .build _ => []
  | .udpWrite => ioText
  | .streamID => str "failed to generate stream ID: " ++ ioText

/-- The messages the session writes to the browser. -/
inductive ServerMessage where
  | welcome (sessionID server : List Nat)
  | joined (reflector module callsign : List Nat)
  | pong
  | ptt (active : Bool)
  | format (audio : List Nat)
  | rx (active : Bool) (src : List Nat)
  | nack
  | disconnected
  | error (message : List Nat)
deriving DecidableEq, Repr

/-- The Go struct `Session`, without its channels and goroutine bookkeeping; `ρ` is the
reflector client. -/
structure Session (σ ν ρ : Type) where
  ID : List Nat
  Callsign : List Nat
  Reflector : Option ρ
  Stream : Option (StreamHandler σ ν)
  UsePCM : Bool
  pcmBuf : List Int

/-- Errors of the audio path of the session. -/
inductive AudioError where
  | noStream
  | invalidPCMLength (n : Nat)
  | send (e : SendError)
deriving DecidableEq, Repr

/-- The text of an error of the audio path. -/
def AudioError.Error (ioText : List Nat) : AudioError → List Nat
  | .noStream => str "no active stream handler"
  | .invalidPCMLength n => str "Invalid PCM frame length: " ++ decimal n
  | .send e => e.Error ioText

/-- What handling an audio frame leaves behind: the error returned, the session, the
messages given to `sendError`, the packets written, and the call of `SendPCMFrame` made,
if any, with its samples and its `isLast` flag. -/
structure AudioResult (σ ν ρ : Type) where
  err : Option AudioError
  s : Session σ ν ρ
  errors : List (List Nat)
  sent : List Sent
  forwarded : Option (List Int × Bool)

/-- The Go method `Session.HandlePCMFrame`. -/
def HandlePCMFrame (env : Env σ ν) (s : Session σ ν ρ) (frame : List Int) (isLast : Bool) :
    AudioResult σ ν ρ :=
  match s.Stream with
  | none => ⟨some .noStream, s, [], [], none⟩
  | some sh =>
    let r := SendPCMFrame env sh frame isLast
    ⟨r.err.map .send, { s with Stream := some r.sh }, [], r.sent, some (frame, isLast)⟩

/-- The Go method `Session.HandleG711Frame`. -/
def HandleG711Frame (env : Env σ ν) (s : Session σ ν ρ) (frame : List Nat) (isLast : Bool) :
    AudioResult σ ν ρ :=
  match s.Stream with
  | none => ⟨some .noStream, s, [], [], none⟩
  | some sh =>
    let s := { s with pcmBuf := MuLawDecode s.pcmBuf frame }
    let r := SendPCMFrame env sh s.pcmBuf isLast
    ⟨r.err.map .send, { s with Stream := some r.sh }, [], r.sent, some (s.pcmBuf, isLast)⟩

/-- The constant `maxPCMFrameSize`. -/
def maxPCMFrameSize : Nat := 640

/-- The constant `maxG711FrameSize`. -/
def maxG711FrameSize : Nat := 320

/-- The Go method `Session.processAudioFrame`. -/
def processAudioFrame (ioText : List Nat) (s : Session σ ν ρ) (msg : List Nat)
    (maxSize : Nat) (name : List Nat) (decode : List Nat → AudioResult σ ν ρ) :
    AudioResult σ ν ρ :=
  if msg.length > maxSize then
    ⟨none, s, [name ++ str " frame too large: " ++ decimal msg.length], [], none⟩
  else
    let r := decode msg
    match r.err with
    | some e =>
      { r with
        err := none
        errors := r.errors ++ [str "Error handling " ++ name ++ str " frame: " ++ e.Error ioText] }
    | none => r

/-- The conversion `int16(binary.LittleEndian.Uint16(b))` of two bytes. -/
def leInt16 (lo hi : Nat) : Int :=
  let v := (lo + hi * 256) % 65536
  if v ≥ 32768 then (v : Int) - 65536 else v

/-- The loop of `handlePCM` that fills `pcm` from the bytes of the frame. -/
def decodePCM (b : List Nat) : List Int :=
  (List.range (b.length / 2)).map fun i => leInt16 (b.getD (i * 2) 0) (b.getD (i * 2 + 1) 0)

/-- The Go method `Session.handlePCM`. -/
def handlePCM (env : Env σ ν) (ioText : List Nat) (s : Session σ ν ρ) (msg : List Nat) :
    AudioResult σ ν ρ :=
  processAudioFrame ioText s msg maxPCMFrameSize (str "PCM") fun b =>
    if b.length % 2 ≠ 0 then ⟨some (.invalidPCMLength b.length), s, [], [], none⟩
    else HandlePCMFrame env s (decodePCM b) false

/-- The Go method `Session.handleG711`. -/
def handleG711 (env : Env σ ν) (ioText : List Nat) (s : Session σ ν ρ) (msg : List Nat) :
    AudioResult σ ν ρ :=
  processAudioFrame ioText s msg maxG711FrameSize (str "G711") fun b =>
    HandleG711Frame env s b false

/-- The Go method `Session.handleAudio`. -/
def handleAudio (env : Env σ ν) (ioText : List Nat) (s : Session σ ν ρ) (msg : List Nat) :
    AudioResult σ ν ρ :=
  match s.Stream with
  | some _ => if s.UsePCM then handlePCM env ioText s msg else handleG711 env ioText s msg
  | none =>
    ⟨none, s,
      [str "Received audio but no active stream handler (session " ++ s.ID ++ str ")"], [],
      none⟩

/-! ## Session: join (`transport/session.go`, `transport/websocket_messages.go`) -/

/-- What the session uses of a reflector client: its socket, its designator and its
module. -/
structure ReflectorView (ν ρ : Type) where
  Conn : ρ → ν
  Designator : ρ → List Nat
  Module : ρ → Nat

/-- The surroundings of a join: the factory `newReflectorClient`, which gives a client or
the text of its error, the view of a client, and what constructing a stream handler meets:
the result of `New(MODE_3200)`, the result of `generateStreamID` and the text of the
error of the random source. -/
structure JoinEnv (σ ν ρ : Type) where
  mapUpper : List Nat → List Nat
  newReflectorClient : List Nat → List Nat → Nat → Except (List Nat) ρ
  view : ReflectorView ν ρ
  newCodec : Option σ
  rnd : Option Nat
  ioText : List Nat

/-- The text of an error of `NewStreamHandler`. -/
def NewHandlerError.Error (ioText : List Nat) : NewHandlerError → List Nat
  | .buildLSF e => str "BuildLSF failed: " ++ e.Error
  | .codec2Init => str "Codec2 init failed: failed to create codec2"
  | .streamID => str "failed to generate stream ID: " ++ ioText

/-- The Go method `Session.StopStreamHandler`, without the goroutine it joins. -/
def StopStreamHandler (s : Session σ ν ρ) : Session σ ν ρ := { s with Stream := none }

/-- The Go method `Session.StartStreamHandler`, without the goroutine it starts: the
text of the error returned, if any, and the session. -/
def StartStreamHandler (jenv : JoinEnv σ ν ρ) (s : Session σ ν ρ) :
    Option (List Nat) × Session σ ν ρ :=
  let s := if s.Stream.isSome then StopStreamHandler s else s
  match s.Reflector with
  | none => (some (str "no reflector connected"), s)
  | some rc =>
    let udpConn := jenv.view.Conn rc
    let dstID := jenv.view.Designator rc ++ str " " ++ fmtChar (jenv.view.Module rc)
    match NewStreamHandler jenv.mapUpper udpConn jenv.newCodec jenv.rnd s.Callsign dstID with
    | .error e => (some (e.Error jenv.ioText), s)
    | .ok handler => (none, { s with Stream := some handler })

/-- The payload of a `join` message. -/
structure JoinPayload where
  Callsign : List Nat
  Reflector : List Nat
  Module : List Nat
deriving DecidableEq, Repr

/-- What handling a `join` leaves behind: the session, the messages written to the
browser, and the calls of the factory `newReflectorClient` with address, callsign and
module. -/
structure JoinResult (σ ν ρ : Type) where
  s : Session σ ν ρ
  replies : List ServerMessage
  factoryCalls : List (List Nat × List Nat × Nat)

/-- The Go method `Session.handleJoin`, without the two watcher goroutines it starts;
`data` is the result of `json.Unmarshal`: the payload, or the text of the error. -/
def handleJoin (jenv : JoinEnv σ ν ρ) (s : Session σ ν ρ)
    (data : Except (List Nat) JoinPayload) : JoinResult σ ν ρ :=
  match data with
  | .error err => ⟨s, [.error (str "Invalid join payload: " ++ err)], []⟩
  | .ok payload =>
    match ValidateCallsign jenv.mapUpper payload.Callsign with
    | .error e => ⟨s, [.error (str "Invalid callsign: " ++ e.Error)], []⟩
    | .ok callsign =>
      let s := { s with Callsign := callsign }
      let moduleByte := if payload.Module.length > 0 then payload.Module.getD 0 0 else 65
      if payload.Module.length > 1 ∨ moduleByte < 65 ∨ moduleByte > 90 then
        ⟨s, [.error (str "Invalid module: " ++ payload.Module)], []⟩
      else
        let call := (payload.Reflector, s.Callsign, moduleByte)
        match jenv.newReflectorClient payload.Reflector s.Callsign moduleByte with
        | .error err => ⟨s, [.error (str "Failed to connect to reflector: " ++ err)], [call]⟩
        | .ok rc =>
          let s := { s with Reflector := some rc }
          match StartStreamHandler jenv s with
          | (some err, s) =>
            ⟨s, [.error (str "Failed to start stream handler: " ++ err)], [call]⟩
          | (none, s) =>
            ⟨s, [.joined payload.Reflector (fmtChar moduleByte) s.Callsign], [call]⟩

/-- A stand-in for the surroundings of a join: a factory that gives a client holding the
callsign and the module it was called with, over the recording socket and the zero codec. -/
def recordingJoinEnv : JoinEnv Unit (List (List Nat)) (List Nat × Nat) :=
  { mapUpper := id
    newReflectorClient := fun _ callsign module => .ok (callsign, module)
    view := { Conn := fun _ => [], Designator := fun _ => [], Module := fun rc => rc.2 }
    newCodec := some ()
    rnd := some 7
    ioText := [] }

/-- A session as `AddSession` leaves it, with the identifier `test`. -/
def freshSession : Session Unit (List (List Nat)) (List Nat × Nat) :=
  { ID := str "test", Callsign := [], Reflector := none, Stream := none, UsePCM := false,
    pcmBuf := [] }

/-! ## Session manager (`transport/session.go`) -/

/-- The Go function `cleanupSession`, without the closing of the two outgoing channels and
without the recovery from panics: the session afterwards, and the reflector client on
which `Disconnect` is called, if any. -/
def cleanupSession (s : Session σ ν ρ) : Session σ ν ρ × List ρ :=
  let s := if s.Stream.isSome then StopStreamHandler s else s
  match s.Reflector with
  | some rc => (s, [rc])
  | none => (s, [])

/-- The Go statement `m[k] = v` on a map with string keys, held as the list of its
entries. -/
def mapSet (m : List (List Nat × α)) (k : List Nat) (v : α) : List (List Nat × α) :=
  m.filter (fun e => e.1 != k) ++ [(k, v)]

/-- The Go statement `delete(m, k)`. -/
def mapDelete (m : List (List Nat × α)) (k : List Nat) : List (List Nat × α) :=
  m.filter (fun e => e.1 != k)

/-- The Go expression `m[k]` with its `ok` flag. -/
def mapGet (m : List (List Nat × α)) (k : List Nat) : Option α :=
  (m.find? (fun e => e.1 == k)).map (fun e => e.2)

/-- The Go struct `SessionManager`, without its mutex: the map `sessions` and the cap
`MaxSessions`, an `int`. -/
structure SessionManager (σ ν ρ : Type) where
  sessions : List (List Nat × Session σ ν ρ)
  MaxSessions : Int

/-- The Go function `NewSessionManager`. -/
def NewSessionManager : SessionManager σ ν ρ := { sessions := [], MaxSessions := 0 }

/-- The error of `AddSession`. -/
inductive ManagerError where
  | maxSessions
deriving DecidableEq, Repr

/-- The text of the error of `AddSession`. -/
def ManagerError.Error : ManagerError → List Nat
  | .maxSessions => str "maximum sessions reached"

/-- The Go method `AddSession`; `id` is the string of the UUID that `uuid.New` draws. -/
def AddSession (sm : SessionManager σ ν ρ) (id : List Nat) :
    Except ManagerError (Session σ ν ρ) × SessionManager σ ν ρ :=
  if sm.MaxSessions > 0 ∧ (sm.sessions.length : Int) ≥ sm.MaxSessions then
    (.error .maxSessions, sm)
  else
    let s : Session σ ν ρ :=
      { ID := id, Callsign := [], Reflector := none, Stream := none, UsePCM := false,
        pcmBuf := [] }
    (.ok s, { sm with sessions := mapSet sm.sessions id s })

/-- The Go method `RemoveSession`: the manager afterwards, and what `cleanupSession`
makes of the session removed, if there was one. -/
def RemoveSession (sm : SessionManager σ ν ρ) (id : List Nat) :
    SessionManager σ ν ρ × Option (Session σ ν ρ × List ρ) :=
  match mapGet sm.sessions id with
  | some s => ({ sm with sessions := mapDelete sm.sessions id }, some (cleanupSession s))
  | none => (sm, none)

/-- The Go method `GetSession`. -/
def GetSession (sm : SessionManager σ ν ρ) (id : List Nat) : Option (Session σ ν ρ) :=
  mapGet sm.sessions id

/-- The Go method `Count`. -/
def Count (sm : SessionManager σ ν ρ) : Nat := sm.sessions.length

/-- A call of the session manager. -/
inductive ManagerCall where
  | add (id : List Nat)
  | remove (id : List Nat)
deriving DecidableEq, Repr

/-- A sequence of calls of the session manager, in order. -/
def runManager (sm : SessionManager σ ν ρ) : List ManagerCall → SessionManager σ ν ρ
  | [] => sm
  | .add id :: rest => runManager (AddSession sm id).2 rest
  | .remove id :: rest => runManager (RemoveSession sm id).1 rest

/-! ## Origin rules (`cors/rules.go`) -/

/-- The Go struct `OriginRule`. -/
structure OriginRule where
  AllowAll : Bool
  Prefix : List Nat
  Suffix : List Nat
  Exact : List Nat
deriving DecidableEq, Repr

/-- The Go call `strings.Split(s, sep)` for a separator of one byte: the pieces between
the separators, one more than there are separators. -/
def splitByte (sep : Nat) : List Nat → List (List Nat)
  | [] => [[]]
  | c :: rest =>
    if c = sep then [] :: splitByte sep rest
    else
      match splitByte sep rest with
      | [] => [[c]]
      | p :: ps => (c :: p) :: ps

/-- The Go function `strings.TrimSpace` on any string: on a string of ASCII bytes it is
`TrimSpace`; on any other string it also knows the white space of Unicode, which is the
parameter `trimU`. -/
def trimSpace (trimU : List Nat → List Nat) (s : List Nat) : List Nat :=
  if s.all (fun c => decide (c < 128)) then TrimSpace s else trimU s

/-- The body of the loop of `ParseOriginRules` for a trimmed, non-empty entry `o`;
`strings.SplitN(o, "*", 2)` gives the text before the first `*` and the text after it. -/
def originRule (o : List Nat) : OriginRule :=
  if o = [42] then { AllowAll := true, Prefix := [], Suffix := [], Exact := [] }
  else if 42 ∈ o then
    { AllowAll := false, Prefix := o.takeWhile (fun c => c != 42),
      Suffix := (o.dropWhile (fun c => c != 42)).drop 1, Exact := [] }
  else { AllowAll := false, Prefix := [], Suffix := [], Exact := o }

/-- The loop of `ParseOriginRules` over the pieces of the string. -/
def parseOriginLoop (trimU : List Nat → List Nat) : List (List Nat) → List OriginRule
  | [] => []
  | o :: rest =>
    let o := trimSpace trimU o
    if o ≠ [] then originRule o :: parseOriginLoop trimU rest
    else parseOriginLoop trimU rest

/-- The Go function `ParseOriginRules`. -/
def ParseOriginRules (trimU : List Nat → List Nat) (env : List Nat) : List OriginRule :=
  if env = [] then [] else parseOriginLoop trimU (splitByte 44 env)

/-- The Go function `NewOriginValidator`: the validator it returns, applied to `origin`. -/
def NewOriginValidator : List OriginRule → List Nat → Bool
  | [], _ => false
  | rule :: rest, origin =>
    if rule.AllowAll then true
    else if rule.Exact ≠ [] ∧ origin = rule.Exact then true
    else if (rule.Prefix ≠ [] ∨ rule.Suffix ≠ []) ∧ rule.Prefix.isPrefixOf origin ∧
        rule.Suffix.isSuffixOf origin then true
    else NewOriginValidator rest origin

/-! ## Session: the messages of the browser (`websocket_messages.go`, `websocket_handler.go`) -/

/-- What handling a `ptt` leaves behind: the session, the messages written to the browser
and the packets written to the reflector. -/
structure PTTResult (σ ν ρ : Type) where
  s : Session σ ν ρ
  replies : List ServerMessage
  sent : List Sent

/-- The Go method `Session.handlePTT`; `data` is the result of `json.Unmarshal`, the
field `active` or the text of the error, and `rnd` the result of `generateStreamID` in
`StartNewStream`. The errors of `StartNewStream` and `Finalize` are only logged. -/
def handlePTT (env : Env σ ν) (rnd : Option Nat) (s : Session σ ν ρ)
    (data : Except (List Nat) Bool) : PTTResult σ ν ρ :=
  match data with
  | .error err => ⟨s, [.error (str "Invalid PTT payload: " ++ err)], []⟩
  | .ok active =>
    let s :=
      match s.Stream with
      | some sh => if active then { s with Stream := some (StartNewStream sh rnd).2 } else s
      | none => s
    match s.Stream with
    | some sh =>
      if !active then
        let r := Finalize env sh
        ⟨{ s with Stream := some r.sh }, [.ptt active], r.sent⟩
      else ⟨s, [.ptt active], []⟩
    | none => ⟨s, [.ptt active], []⟩

/-- The Go method `Session.handleDisconnect`, without the call of `sendDisconnected`: the
session, and the reflector client on which `Disconnect` is called, if any. -/
def handleDisconnect (s : Session σ ν ρ) : Session σ ν ρ × List ρ :=
  match s.Reflector with
  | some rc => ({ s with Reflector := none }, [rc])
  | none => (s, [])

/-- The byte-wise lower-casing `strings.ToLower` applies to an ASCII string. -/
def lowerByte (c : Nat) : Nat := if 65 ≤ c ∧ c ≤ 90 then c + 32 else c

/-- The Go function `strings.ToLower`. On a string of ASCII bytes it maps `A..Z` to
`a..z` byte by byte; on any other string it maps the runes through `unicode.ToLower`,
which is the parameter `mapLower`. -/
def ToLower (mapLower : List Nat → List Nat) (s : List Nat) : List Nat :=
  if s.all (fun c => decide (c < 128)) then s.map lowerByte else mapLower s

/-- The Go method `Session.handleFormat`; `data` is the result of `json.Unmarshal`, the
field `audio` or the text of the error. -/
def handleFormat (mapLower : List Nat → List Nat) (s : Session σ ν ρ)
    (data : Except (List Nat) (List Nat)) : Session σ ν ρ × List ServerMessage :=
  match data with
  | .error err => (s, [.error (str "Invalid format payload: " ++ err)])
  | .ok audio =>
    let format := ToLower mapLower audio
    if format = str "pcm" then ({ s with UsePCM := true }, [.format format])
    else if format = str "g711" then ({ s with UsePCM := false }, [.format format])
    else (s, [.error (str "Unknown audio format: " ++ audio)])

/-- What `serveClient` reads from the browser: a binary message, a text message that is
not JSON, or a JSON message by its type; a `ptt` carries what `generateStreamID` gives
while it is handled. -/
inductive ClientEvent where
  | binary (msg : List Nat)
  | invalidJSON (err : List Nat)
  | ping
  | join (data : Except (List Nat) JoinPayload)
  | ptt (data : Except (List Nat) Bool) (rnd : Option Nat)
  | disconnect
  | format (data : Except (List Nat) (List Nat))
  | unknown (msgType : List Nat)

/-- The surroundings of `serveClient`: those of the stream handler, those of a join, and
`unicode.ToLower`. -/
structure ServeEnv (σ ν ρ : Type) where
  env : Env σ ν
  jenv : JoinEnv σ ν ρ
  mapLower : List Nat → List Nat

/-- The state of one browser connection: the session, the messages written to the
browser, the packets written to the reflector, the reflector clients the factory has
given, the clients on which `Disconnect` has been called, and the once-latch of
`sendDisconnected`. -/
structure ConnState (σ ν ρ : Type) where
  s : Session σ ν ρ
  replies : List ServerMessage
  sent : List Sent
  created : List ρ
  disconnected : List ρ
  disconnectedSent : Bool

/-- The clients the factory gave for the calls made. -/
def clientsOf (jenv : JoinEnv σ ν ρ) (calls : List (List Nat × List Nat × Nat)) : List ρ :=
  calls.filterMap fun c =>
    match jenv.newReflectorClient c.1 c.2.1 c.2.2 with
    | .ok rc => some rc
    | .error _ => none

/-- One pass of the loop of `serveClient`: the message read is handled by its kind. -/
def serveStep (e : ServeEnv σ ν ρ) (st : ConnState σ ν ρ) : ClientEvent → ConnState σ ν ρ
  | .binary msg =>
    let r := handleAudio e.env e.jenv.ioText st.s msg
    { st with s := r.s, replies := st.replies ++ r.errors.map .error, sent := st.sent ++ r.sent }
  | .invalidJSON err => { st with replies := st.replies ++ [.error (str "Invalid JSON: " ++ err)] }
  | .ping => { st with replies := st.replies ++ [.pong] }
  | .join data =>
    let r := handleJoin e.jenv st.s data
    { st with s := r.s, replies := st.replies ++ r.replies,
              created := st.created ++ clientsOf e.jenv r.factoryCalls }
  | .ptt data rnd =>
    let r := handlePTT e.env rnd st.s data
    { st with s := r.s, replies := st.replies ++ r.replies, sent := st.sent ++ r.sent }
  | .disconnect =>
    let r := handleDisconnect st.s
    { st with s := r.1, disconnected := st.disconnected ++ r.2,
              replies := if st.disconnectedSent then st.replies else st.replies ++ [.disconnected],
              disconnectedSent := true }
  | .format data =>
    let r := handleFormat e.mapLower st.s data
    { st with s := r.1, replies := st.replies ++ r.2 }
  | .unknown msgType =>
    { st with replies := st.replies ++ [.error (str "Unknown message type: " ++ msgType)] }

/-- The loop of `serveClient` over the messages read, in order. -/
def serveClient (e : ServeEnv σ ν ρ) (st : ConnState σ ν ρ) (events : List ClientEvent) :
    ConnState σ ν ρ :=
  events.foldl (serveStep e) st

/-- The state of a connection when `serveClient` starts, after `AddSession`. -/
def newConn (s : Session σ ν ρ) : ConnState σ ν ρ :=
  { s := s, replies := [], sent := [], created := [], disconnected := [],
    disconnectedSent := false }

/-- A stand-in for the surroundings of `serveClient`: the recording socket, the zero codec
and the recording factory. -/
def recordingServeEnv : ServeEnv Unit (List (List Nat)) (List Nat × Nat) :=
  { env := recordingEnv, jenv := recordingJoinEnv, mapLower := id }

/-- A session with a stream handler attached, over the recording socket. -/
def attachedSession : Session Unit (List (List Nat)) (List Nat × Nat) :=
  { freshSession with Stream := some (freshHandler 7 (List.replicate 28 0)) }

/-! ## Receiving (`codec2.go`, `stream_handler.go`, `transport/session.go`) -/

/-- The codec2 C library on the decoder side: `codec2_decode`, which returns the samples
it writes and the next state. -/
structure Codec2Dec (σ : Type) where
  decode : σ → List Nat → List Int × σ

/-- Errors of the receiving path of the stream handler. -/
inductive RecvError where
  | parse (e : StreamError)
  | lsf (e : LSFError)
  | invalidBitLength
deriving DecidableEq, Repr

/-- The conversion of an integer to `int16`. -/
def toInt16 (x : Int) : Int := (x + 32768) % 65536 - 32768

/-- The Go method `Codec2.Decode`: the samples or the error, and the codec state. -/
def Codec2Decode (lib : Codec2Lib σ) (dec : Codec2Dec σ) (c : σ) (bits : List Nat) :
    Except RecvError (List Int) × σ :=
  let nsam := lib.samples_per_frame c
  let nbit := lib.bits_per_frame c
  if bits.length ≠ nbit / 8 then (.error .invalidBitLength, c)
  else
    let audio := List.replicate nsam (0 : Int)
    let out := dec.decode c bits
    (.ok (copyAt audio 0 nsam (out.1.map toInt16)), out.2)

/-- The bytes `binary.LittleEndian.PutUint16` writes for `uint16(s)`. -/
def leBytes (s : Int) : List Nat := [(s % 65536).toNat % 256, (s % 65536).toNat / 256]

/-- The Go method `HandleIncomingPacket`: the audio frame or the error, and the handler
afterwards. -/
def HandleIncomingPacket (env : Env σ ν) (dec : Codec2Dec σ) (sh : StreamHandler σ ν)
    (data : List Nat) (wantPCM : Bool) : Except RecvError (List Nat) × StreamHandler σ ν :=
  match ParseStreamPacketWithLSF data with
  | .error e => (.error (.parse e), sh)
  | .ok (_, .error e) => (.error (.lsf e), sh)
  | .ok (pkt, .ok _) =>
    match Codec2Decode env.codec dec sh.codec2Inst (slice pkt.Payload 0 8) with
    | (.error e, c) => (.error e, { sh with codec2Inst := c })
    | (.ok part1, c) =>
      match Codec2Decode env.codec dec c (slice pkt.Payload 8 16) with
      | (.error e, c) => (.error e, { sh with codec2Inst := c })
      | (.ok part2, c) =>
        let sh := { sh with codec2Inst := c }
        let pcm8k := part1 ++ part2
        if wantPCM then (.ok (pcm8k.map leBytes).flatten, sh)
        else
          let sh := { sh with muBuf := MuLawEncode sh.muBuf pcm8k }
          (.ok sh.muBuf, sh)

/-- A buffered Go channel: its capacity and what it holds. -/
structure Chan (α : Type) where
  cap : Nat
  buf : List α
deriving DecidableEq, Repr

/-- The Go statement `select { case ch <- v: default: }`: the value is placed on the
channel if there is room and dropped if not. -/
def Chan.trySend (ch : Chan α) (v : α) : Chan α :=
  if ch.buf.length < ch.cap then { ch with buf := ch.buf ++ [v] } else ch

/-- What `processPacket` reads and writes: the flag `rxActive` of the receive loop, the
stream handler of the session, which is not nil while the loop runs, and the two outgoing
channels of the session. -/
structure RxState (σ ν : Type) where
  rxActive : Bool
  sh : StreamHandler σ ν
  OutgoingMessages : Chan ServerMessage
  OutgoingAudio : Chan (List Nat)

/-- The Go method `Session.processPacket`; `usePCM` is the field `UsePCM` of the
session. -/
def processPacket (env : Env σ ν) (dec : Codec2Dec σ) (usePCM : Bool) (st : RxState σ ν)
    (pkt : List Nat) : RxState σ ν :=
  if pkt.length < 4 ∨ slice pkt 0 4 ≠ streamMagic then st
  else
    match ParseStreamPacketWithLSF pkt with
    | .error _ => st
    | .ok (_, .error _) => st
    | .ok (spkt, .ok lsf) =>
      let st :=
        if !st.rxActive then
          { st with
            rxActive := true
            OutgoingMessages := st.OutgoingMessages.trySend (.rx true lsf.Source) }
        else st
      match HandleIncomingPacket env dec st.sh pkt usePCM with
      | (.error _, sh) => { st with sh := sh }
      | (.ok audioFrame, sh) =>
        let st := { st with sh := sh }
        let st :=
          if audioFrame.length ≠ 0 then
            { st with OutgoingAudio := st.OutgoingAudio.trySend audioFrame }
          else st
        if spkt.IsLast ∧ st.rxActive then
          { st with
            rxActive := false
            OutgoingMessages := st.OutgoingMessages.trySend (.rx false []) }
        else st

/-! ## Reflector client (`reflector/client.go`) -/

/-- The Go type `Event`. -/
inductive Event where
  | EventNACK
deriving DecidableEq, Repr

/-- The UDP socket of a reflector client over its state `ν`: `WriteToUDP` towards the
reflector, which gives the next state or `none` when it returns an error, and `Close`. -/
structure UDPSocket (ν : Type) where
  WriteToUDP : ν → List Nat → Option ν
  Close : ν → ν

/-- The Go struct `ReflectorClient`, without its `Packets` channel. `lastPing` is a time
in any unit; `closed` is set once `closeOnce` has run, which cancels the context, closes
the socket and closes `Events`; `written` holds the packets handed to `WriteToUDP`. -/
structure ReflectorClient (ν : Type) where
  UDPConn : ν
  Callsign : List Nat
  Module : Nat
  Designator : List Nat
  connected : Bool
  lastPing : Nat
  closed : Bool
  Events : Chan Event
  written : List (List Nat)

/-- The Go method `sendControl`, whose error is only logged by its callers here: a
packet that cannot be built is not written. -/
def sendControl (sock : UDPSocket ν) (c : ReflectorClient ν)
    (build : Except CallsignError (List Nat)) : ReflectorClient ν :=
  match build with
  | .error _ => c
  | .ok pkt =>
    match sock.WriteToUDP c.UDPConn pkt with
    | some conn => { c with UDPConn := conn, written := c.written ++ [pkt] }
    | none => { c with written := c.written ++ [pkt] }

/-- The Go method `Close`: once only, cancel, send `DISC`, close the socket and close
`Events`. -/
def ReflectorClient.Close (mapUpper : List Nat → List Nat) (sock : UDPSocket ν)
    (c : ReflectorClient ν) : ReflectorClient ν :=
  if c.closed then c
  else
    let c := { c with closed := true }
    let c := sendControl sock c (BuildDISC mapUpper c.Callsign)
    { c with UDPConn := sock.Close c.UDPConn }

/-- The Go method `handleControlPacket`; `now` is `time.Now()`. The result is `none` when
the goroutine panics, which a send on the closed channel `Events` does. -/
def handleControlPacket (mapUpper : List Nat → List Nat) (sock : UDPSocket ν) (now : Nat)
    (c : ReflectorClient ν) (data : List Nat) : Option (ReflectorClient ν) :=
  match ParseControlPacket data with
  | .error _ => some c
  | .ok p =>
    match p.ctrlType with
    | .CtrlACKN => some { c with connected := true, lastPing := now }
    | .CtrlNACK =>
      if c.closed then none
      else
        some (ReflectorClient.Close mapUpper sock
          { c with Events := c.Events.trySend .EventNACK })
    | .CtrlPING =>
      let c := { c with lastPing := now }
      some (sendControl sock c (BuildPONG mapUpper c.Callsign))
    | .CtrlDISC => some (ReflectorClient.Close mapUpper sock c)
    | _ => some c

/-- A stand-in for the decoder: 160 samples of silence for every frame. -/
def zeroDec : Codec2Dec Unit := { decode := fun c _ => (List.replicate 160 0, c) }

/-- The packets of the unit test `TestProcessPacket`: Stream-ID `0x1234`, the LSD of
`BuildLSF("DST", "SRC", meta)`, an all-zero payload, and the frame number and last flag
given. -/
def testPacket (frameNum : Nat) (isLast : Bool) : List Nat :=
  match BuildStreamPacket 0x1234
      ([0, 0, 0, 0, 127, 252, 0, 0, 0, 0, 21, 163, 0, 5] ++ List.replicate 14 0) frameNum isLast
      (List.replicate 16 0) with
  | .ok pkt => pkt
  | .error _ => []

/-- The receive state at the start of the unit test `TestProcessPacket`. -/
def testRxState : RxState Unit (List (List Nat)) :=
  { rxActive := false, sh := freshHandler 7 (List.replicate 28 0),
    OutgoingMessages := { cap := 2, buf := [] }, OutgoingAudio := { cap := 1, buf := [] } }

/-! ## Reference notions of the specification -/

/-- The 40-symbol alphabet of the data model: space, `A-Z`, `0-9`, `-`, `/`, `.`. -/
def InAlphabet (c : Nat) : Prop :=
  c = 32 ∨ (65 ≤ c ∧ c ≤ 90) ∨ (48 ≤ c ∧ c ≤ 57) ∨ c = 45 ∨ c = 47 ∨ c = 46

instance : DecidablePred InAlphabet := fun c => by unfold InAlphabet; infer_instance

/-- A callsign of the data model: 1 to 9 characters of the alphabet. -/
def ValidCallsign (c : List Nat) : Prop :=
  1 ≤ c.length ∧ c.length ≤ 9 ∧ ∀ x ∈ c, InAlphabet x

instance (c : List Nat) : Decidable (ValidCallsign c) := by
  unfold ValidCallsign; infer_instance

/-- A string of at most 9 characters right-padded with spaces to 9 characters. -/
def padCallsign (callsign : List Nat) : List Nat :=
  if callsign.length < 9 then callsign ++ List.replicate (9 - callsign.length) 32
  else callsign

/-- The value map `v` of the specification: space to 0, `A..Z` to 1..26, `0..9` to
27..36, `-` to 37, `/` to 38, `.` to 39 (and 0 outside the alphabet). -/
def specVal (c : Nat) : Nat :=
  if c = 32 then 0
  else if 65 ≤ c ∧ c ≤ 90 then c - 65 + 1
  else if 48 ≤ c ∧ c ≤ 57 then c - 48 + 27
  else if c = 45 then 37
  else if c = 47 then 38
  else if c = 46 then 39
  else 0

/-- The address of the specification: `u` right-padded with spaces to 9 characters,
then the sum over `i = 0..8` of `v(u_i) * 40^i`, index 0 leftmost. -/
def specAddress (u : List Nat) : Nat :=
  ∑ i in Finset.range 9, specVal ((u ++ List.replicate (9 - u.length) 32).getD i 32) * 40 ^ i

/-- Reference: one message bit enters a 16-bit CRC register with generator `poly`, without
reflection: the register moves up by one bit, and the generator is added when the bit that
leaves the register differs from the message bit. -/
def crcFeedBit (poly reg : Nat) (bit : Bool) : Nat :=
  if (reg.testBit 15 != bit) = true then (reg * 2 % 65536) ^^^ poly else reg * 2 % 65536

/-- Reference: the bits of a byte enter the register most significant bit first. -/
def crcFeedByte (poly reg b : Nat) : Nat :=
  (List.range 8).foldl (fun r j => crcFeedBit poly r (b.testBit (7 - j))) reg

/-- Reference: the bit-serial CRC with generator `poly`, initial value `init` and final
XOR `xorOut`, over the bytes of `data` in order. -/
def crcBitSerial (poly init xorOut : Nat) (data : List Nat) : Nat :=
  (data.foldl (crcFeedByte poly) init) ^^^ xorOut

/-- A byte sequence read as a big-endian integer. -/
def beValue (bs : List Nat) : Nat := bs.foldl (fun a b => a * 256 + b) 0

/-- The surroundings in which sending cannot fail: the codec takes 160 samples per frame,
as in mode 3200, so that `Encode` accepts both halves of a 320-sample block, and every
`WriteToUDP` succeeds. -/
def EnvOK (env : Env σ ν) : Prop :=
  (∀ c, env.codec.samples_per_frame c = 160) ∧ (∀ conn pkt, env.WriteToUDP conn pkt ≠ none)

/-- The typing of the handler's fields: `streamID` and `frameNum` are `uint16`, `lsd` is a
`[28]byte`. -/
def StreamHandler.WellTyped (sh : StreamHandler σ ν) : Prop :=
  sh.streamID < 65536 ∧ sh.frameNum < 65536 ∧ sh.lsd.length = 28

/-- The last-of-stream bit of a packet on the wire: bit 15 of the big-endian frame number at
offset 34, which is bit 7 of the byte at offset 34. -/
def wireLastBit (pkt : List Nat) : Bool := decide (128 ≤ pkt.getD 34 0)

/-- The packet of `s` was built by `BuildStreamPacket` with the LSD `lsd`, from the frame
number and the `isLast` flag recorded in `s` and from the payload that `buildPayload` gave
for the block recorded in `s`. -/
def EmittedBy (env : Env σ ν) (lsd : List Nat) (s : Sent) : Prop :=
  ∃ sid c payload c1, buildPayload env c s.block = (.ok payload, c1) ∧
    BuildStreamPacket sid lsd s.frameNum s.builtLast payload = .ok s.pkt

/-- Reference: the byte sequence `d` with bit `j` of the byte at offset `i` flipped. -/
def flipBit (d : List Nat) (i j : Nat) : List Nat := d.set i (d.getD i 0 ^^^ 2 ^ j)

/-- Reference: the entries of an `ALLOWED_ORIGINS` string: its comma-separated pieces,
trimmed, the empty ones left out. -/
def originEntries (trimU : List Nat → List Nat) (env : List Nat) : List (List Nat) :=
  ((splitByte 44 env).map (trimSpace trimU)).filter (fun e => e != [])

/-- Reference: the text of an entry before its first `*`. -/
def beforeStar (e : List Nat) : List Nat := e.takeWhile (fun c => c != 42)

/-- Reference: the text of an entry after its first `*`. -/
def afterStar (e : List Nat) : List Nat := (e.dropWhile (fun c => c != 42)).drop 1

/-- Reference: the reflector clients of a connection that are still open: those the
factory gave on which `Disconnect` has not been called. -/
def liveClients [DecidableEq ρ] (st : ConnState σ ν ρ) : List ρ :=
  st.created.filter (fun rc => decide (rc ∉ st.disconnected))

/-- Reference: the samples `xs` followed by zeros up to the next multiple of 320. -/
def padTo320 (xs : List Int) : List Int :=
  xs ++ List.replicate ((320 - xs.length % 320) % 320) 0

/-- Reference: the samples of a sequence of `SendPCMFrame` calls, each given as its samples
and its `isLast` flag, with zeros inserted after every call with `isLast = true`, up to the
next multiple of 320 of the number of samples given since the previous such call; `acc`
holds the samples given since then. The samples after the last call with `isLast = true`
are left out. -/
def paddedStream : List Int → List (List Int × Bool) → List Int
  | _, [] => []
  | acc, (pcm, false) :: rest => paddedStream (acc ++ pcm) rest
  | acc, (pcm, true) :: rest => padTo320 (acc ++ pcm) ++ paddedStream [] rest

/-- Reference: the samples given after the last call with `isLast = true`. -/
def openSegment : List Int → List (List Int × Bool) → List Int
  | acc, [] => acc
  | acc, (pcm, false) :: rest => openSegment (acc ++ pcm) rest
  | _, (_, true) :: rest => openSegment [] rest

/-- Reference: the packets `sent` carry, in order, the encodings of their blocks by one
codec that is in state `c` before the first and in state `c1` after the last: the payload
of each packet (offsets 36 to 51) is the encoding of the first 160 samples of its block
followed by the encoding of the last 160, and every encoding starts from the state the
one before it left. -/
def EncodedInOrder (lib : Codec2Lib σ) : σ → List Sent → σ → Prop
  | c, [], c1 => c1 = c
  | c, s :: rest, c1 =>
    ∃ part1 cm part2 c2, Codec2Encode lib c (slice s.block 0 160) = (.ok part1, cm) ∧
      Codec2Encode lib cm (slice s.block 160 320) = (.ok part2, c2) ∧
      slice s.pkt 36 52 = part1 ++ part2 ∧ EncodedInOrder lib c2 rest c1

/-! ## Callsign codec: lemmas -/

theorem charVal_eq_some {c v : Nat} (h : charVal c = some v) :
    InAlphabet c ∧ v = specVal c ∧ v < 40 ∧ base40Chars.getD v 0 = c ∧
      (isSpace c = true ↔ v = 0) := by
  unfold charVal at h
  unfold InAlphabet specVal
  split_ifs at h with h1 h2 h3 h4 h5 h6 <;> simp only [Option.some.injEq] at h <;> subst h
  · subst h1; decide
  · obtain ⟨ha, hb⟩ := h2
    interval_cases c <;> decide
  · obtain ⟨ha, hb⟩ := h3
    interval_cases c <;> decide
  · subst h4; decide
  · subst h5; decide
  · subst h6; decide

theorem charVal_eq_none {c : Nat} (h : charVal c = none) : ¬ InAlphabet c := by
  unfold charVal at h
  unfold InAlphabet
  split_ifs at h
  omega

theorem charVal_of_inAlphabet {c : Nat} (h : InAlphabet c) : charVal c = some (specVal c) := by
  cases hc : charVal c with
  | none => exact absurd h (charVal_eq_none hc)
  | some v => rw [(charVal_eq_some hc).2.1]

theorem encodeLoop_append (xs : List Nat) (c a : Nat) :
    encodeLoop (xs ++ [c]) a =
      match encodeLoop xs a with
      | .error e => .error e
      | .ok a1 =>
        match charVal c with
        | none => .error (.invalidChar c)
        | some v => .ok ((a1 * 40 + v) % 2 ^ 64) := by
  induction xs generalizing a with
  | nil =>
    simp only [List.nil_append, encodeLoop]
  | cons x xs ih =>
    simp only [List.cons_append, encodeLoop]
    cases charVal x with
    | none => rfl
    | some v => exact ih _

theorem specVal_lt (c : Nat) : specVal c < 40 := by
  unfold specVal
  split_ifs <;> omega

theorem ofDigits_specVal_lt (l : List Nat) :
    Nat.ofDigits 40 (l.map specVal) < 40 ^ l.length := by
  have h := Nat.ofDigits_lt_base_pow_length (b := 40) (l := l.map specVal) (by norm_num)
    (by
      intro x hx
      obtain ⟨c, _, rfl⟩ := List.mem_map.1 hx
      exact specVal_lt c)
  simpa using h

theorem encodeLoop_reverse_ok (l : List Nat) (hl : ∀ x ∈ l, InAlphabet x)
    (hlen : l.length ≤ 9) :
    encodeLoop l.reverse 0 = .ok (Nat.ofDigits 40 (l.map specVal)) := by
  induction l with
  | nil => rfl
  | cons c l ih =>
    have hl1 : ∀ x ∈ l, InAlphabet x := fun x hx => hl x (List.mem_cons_of_mem _ hx)
    have hlen1 : l.length ≤ 8 := by simpa using hlen
    have hc := charVal_of_inAlphabet (hl c (List.mem_cons_self _ _))
    rw [List.reverse_cons, encodeLoop_append, ih hl1 (by omega)]
    simp only [hc, List.map_cons, Nat.ofDigits_cons]
    have h1 := ofDigits_specVal_lt l
    have h2 : 40 ^ l.length ≤ 40 ^ 8 := Nat.pow_le_pow_right (by norm_num) hlen1
    have h3 := specVal_lt c
    congr 1
    norm_num at h2 ⊢
    omega

theorem encodeLoop_error_of_mem (xs : List Nat) (a : Nat)
    (h : ∃ x ∈ xs, ¬ InAlphabet x) : ∃ e, encodeLoop xs a = .error e := by
  induction xs generalizing a with
  | nil => simp at h
  | cons x xs ih =>
    simp only [encodeLoop]
    cases hx : charVal x with
    | none => exact ⟨_, rfl⟩
    | some v =>
      obtain ⟨y, hy, hny⟩ := h
      rcases List.mem_cons.1 hy with rfl | hy
      · exact absurd (charVal_eq_some hx).1 hny
      · exact ih _ ⟨y, hy, hny⟩

theorem padCallsign_length {u : List Nat} (h : u.length ≤ 9) : (padCallsign u).length = 9 := by
  unfold padCallsign
  split_ifs with h1
  · simp; omega
  · omega

theorem padCallsign_eq {u : List Nat} (h : u.length ≤ 9) :
    padCallsign u = u ++ List.replicate (9 - u.length) 32 := by
  unfold padCallsign
  split_ifs with h1
  · rfl
  · have : 9 - u.length = 0 := by omega
    simp [this]

theorem padCallsign_inAlphabet {u : List Nat} (h : ∀ x ∈ u, InAlphabet x) :
    ∀ x ∈ padCallsign u, InAlphabet x := by
  intro x hx
  unfold padCallsign at hx
  split_ifs at hx
  · rcases List.mem_append.1 hx with hx | hx
    · exact h x hx
    · rw [(List.mem_replicate.1 hx).2]; exact Or.inl rfl
  · exact h x hx

theorem ofDigits_eq_sum (f : Nat → Nat) (d : Nat) (l : List Nat) :
    Nat.ofDigits 40 (l.map f) = ∑ i in Finset.range l.length, f (l.getD i d) * 40 ^ i := by
  induction l with
  | nil => simp
  | cons a l ih =>
    rw [List.map_cons, Nat.ofDigits_cons, List.length_cons, Finset.sum_range_succ', ih,
      Finset.mul_sum]
    simp only [List.getD_cons_succ, List.getD_cons_zero, pow_zero, mul_one, pow_succ]
    rw [add_comm]
    congr 1
    apply Finset.sum_congr rfl
    intro i _
    ring

theorem fillBytes_six (a : Nat) :
    fillBytes 6 a [] =
      [a / 256 / 256 / 256 / 256 / 256 % 256, a / 256 / 256 / 256 / 256 % 256,
        a / 256 / 256 / 256 % 256, a / 256 / 256 % 256, a / 256 % 256, a % 256] := rfl

theorem fillBytes_six_facts (a : Nat) (h : a < 2 ^ 48) :
    (fillBytes 6 a []).length = 6 ∧ AllBytes (fillBytes 6 a []) ∧
      beValue (fillBytes 6 a []) = a ∧
      (fillBytes 6 a []).foldl (fun address b => (address * 256 + b) % 2 ^ 64) 0 = a := by
  rw [fillBytes_six]
  norm_num at h
  refine ⟨rfl, ?_, ?_, ?_⟩
  · intro b hb
    simp only [List.mem_cons, List.mem_singleton, List.not_mem_nil, or_false] at hb
    omega
  · simp only [beValue, List.foldl_cons, List.foldl_nil]
    omega
  · simp only [List.foldl_cons, List.foldl_nil]
    norm_num
    omega

theorem EncodeCallsign_eq (mapUpper : List Nat → List Nat) (s : List Nat) :
    EncodeCallsign mapUpper s =
      if (ToUpper mapUpper s).length > 9 then .error .tooLong
      else
        match encodeLoop (padCallsign (ToUpper mapUpper s)).reverse 0 with
        | .error e => .error e
        | .ok address => .ok (fillBytes 6 address []) := by
  unfold EncodeCallsign padCallsign encodePadded
  by_cases h1 : (ToUpper mapUpper s).length < 9
  · have h2 : ¬ (ToUpper mapUpper s).length > 9 := by omega
    simp only [h1, h2, if_true, if_false]
  · by_cases h2 : (ToUpper mapUpper s).length > 9
    · simp only [h1, h2, if_true, if_false]
    · simp only [h1, h2, if_false]

theorem specAddress_eq (u : List Nat) (hlen : u.length ≤ 9) :
    specAddress u = Nat.ofDigits 40 ((padCallsign u).map specVal) := by
  rw [ofDigits_eq_sum specVal 32, padCallsign_length hlen, padCallsign_eq hlen]
  rfl

theorem specAddress_lt (u : List Nat) (hlen : u.length ≤ 9) : specAddress u < 2 ^ 48 := by
  rw [specAddress_eq u hlen]
  have h := ofDigits_specVal_lt (padCallsign u)
  rw [padCallsign_length hlen] at h
  norm_num at h ⊢
  omega

theorem EncodeCallsign_ok (mapUpper : List Nat → List Nat) (s : List Nat)
    (hlen : (ToUpper mapUpper s).length ≤ 9)
    (hval : ∀ x ∈ ToUpper mapUpper s, InAlphabet x) :
    EncodeCallsign mapUpper s = .ok (fillBytes 6 (specAddress (ToUpper mapUpper s)) []) := by
  rw [EncodeCallsign_eq]
  simp only [gt_iff_lt, Nat.not_lt.2 hlen, if_false]
  rw [encodeLoop_reverse_ok _ (padCallsign_inAlphabet hval)
    (le_of_eq (padCallsign_length hlen)), specAddress_eq _ hlen]

theorem EncodeCallsign_error (mapUpper : List Nat → List Nat) (s : List Nat)
    (h : 9 < (ToUpper mapUpper s).length ∨ ∃ c ∈ ToUpper mapUpper s, ¬ InAlphabet c) :
    ∃ e, EncodeCallsign mapUpper s = .error e := by
  rw [EncodeCallsign_eq]
  by_cases hlen : 9 < (ToUpper mapUpper s).length
  · exact ⟨.tooLong, by simp [hlen]⟩
  · rcases h with h | ⟨c, hc, hnc⟩
    · exact absurd h hlen
    · have hmem : ∃ x ∈ (padCallsign (ToUpper mapUpper s)).reverse, ¬ InAlphabet x := by
        refine ⟨c, ?_, hnc⟩
        rw [List.mem_reverse, padCallsign_eq (Nat.not_lt.1 hlen)]
        exact List.mem_append_left _ hc
      obtain ⟨e, he⟩ := encodeLoop_error_of_mem _ 0 hmem
      exact ⟨e, by simp [hlen, he]⟩

theorem rdropWhile_cons_of_not_all (p : Nat → Bool) (c : Nat) (l : List Nat)
    (h : ¬ ∀ x ∈ c :: l, p x = true) :
    (c :: l).rdropWhile p = c :: l.rdropWhile p := by
  simp only [List.rdropWhile, List.reverse_cons, List.dropWhile_append]
  split_ifs with h1
  · have hall : ∀ x ∈ l, p x = true := by
      have := List.rdropWhile_eq_nil_iff (p := p) (l := l)
      simp only [List.rdropWhile, List.reverse_eq_nil_iff] at this
      exact this.1 (List.isEmpty_iff.1 h1)
    have hc : ¬ p c = true := fun hc => h (by
      intro x hx
      rcases List.mem_cons.1 hx with rfl | hx
      · exact hc
      · exact hall x hx)
    rw [List.isEmpty_iff.1 h1]
    simp [List.dropWhile, hc]
  · simp

theorem ofDigits_specVal_eq_zero (l : List Nat) (hl : ∀ x ∈ l, InAlphabet x) :
    Nat.ofDigits 40 (l.map specVal) = 0 ↔ ∀ x ∈ l, isSpace x = true := by
  induction l with
  | nil => simp
  | cons c l ih =>
    have hc := charVal_eq_some (charVal_of_inAlphabet (hl c (List.mem_cons_self _ _)))
    have ih1 := ih (fun x hx => hl x (List.mem_cons_of_mem _ hx))
    rw [List.map_cons, Nat.ofDigits_cons, List.forall_mem_cons, hc.2.2.2.2, ← ih1]
    omega

theorem decodeLoop_zero (fuel : Nat) (chars : List Nat) : decodeLoop fuel 0 chars = chars := by
  cases fuel <;> simp [decodeLoop]

theorem decodeLoop_ofDigits (l : List Nat) (hl : ∀ x ∈ l, InAlphabet x) (fuel : Nat)
    (chars : List Nat) (hf : Nat.ofDigits 40 (l.map specVal) ≤ fuel) :
    decodeLoop fuel (Nat.ofDigits 40 (l.map specVal)) chars =
      chars ++ l.rdropWhile isSpace := by
  induction l generalizing fuel chars with
  | nil => simp [decodeLoop_zero]
  | cons c l ih =>
    have hl1 : ∀ x ∈ l, InAlphabet x := fun x hx => hl x (List.mem_cons_of_mem _ hx)
    have hc := charVal_eq_some (charVal_of_inAlphabet (hl c (List.mem_cons_self _ _)))
    by_cases hz : Nat.ofDigits 40 ((c :: l).map specVal) = 0
    · rw [hz, decodeLoop_zero, List.rdropWhile_eq_nil_iff.2 ((ofDigits_specVal_eq_zero _ hl).1 hz)]
      simp
    · have hnot : ¬ ∀ x ∈ c :: l, isSpace x = true :=
        fun hall => hz ((ofDigits_specVal_eq_zero _ hl).2 hall)
      rw [rdropWhile_cons_of_not_all _ _ _ hnot]
      rw [List.map_cons, Nat.ofDigits_cons] at hz hf ⊢
      have hv := hc.2.2.1
      obtain ⟨f, rfl⟩ : ∃ f, fuel = f + 1 := ⟨fuel - 1, by omega⟩
      have hdiv : (specVal c + 40 * Nat.ofDigits 40 (l.map specVal)) / 40 =
          Nat.ofDigits 40 (l.map specVal) := by omega
      have hmod : (specVal c + 40 * Nat.ofDigits 40 (l.map specVal)) % 40 = specVal c := by
        omega
      rw [decodeLoop, if_pos (by omega), hdiv, hmod, hc.2.2.2.1, ih hl1 f _ (by omega)]
      simp

theorem rdropWhile_append_replicate (u : List Nat) (k : Nat) :
    (u ++ List.replicate k 32).rdropWhile isSpace = u.rdropWhile isSpace := by
  induction k with
  | zero => simp
  | succ k ih =>
    rw [List.replicate_succ', ← List.append_assoc, List.rdropWhile_concat_pos _ _ _ (by decide), ih]

/-- Decoding what `EncodeCallsign` returns gives the upper-cased input without its leading
and trailing spaces. -/
theorem DecodeCallsign_EncodeCallsign (mapUpper : List Nat → List Nat) (s bs : List Nat)
    (h : EncodeCallsign mapUpper s = .ok bs) :
    DecodeCallsign bs = TrimSpace (ToUpper mapUpper s) := by
  by_cases hbad : 9 < (ToUpper mapUpper s).length ∨ ∃ c ∈ ToUpper mapUpper s, ¬ InAlphabet c
  · obtain ⟨e, he⟩ := EncodeCallsign_error mapUpper s hbad
    rw [he] at h
    cases h
  · simp only [not_or, not_lt, not_exists, not_and, not_not] at hbad
    obtain ⟨hlen, hval⟩ := hbad
    rw [EncodeCallsign_ok mapUpper s hlen hval] at h
    cases h
    obtain ⟨h6, _, _, hfold⟩ := fillBytes_six_facts _ (specAddress_lt _ hlen)
    unfold DecodeCallsign
    simp only [h6, ne_eq, not_true_eq_false, if_false, hfold]
    rw [specAddress_eq _ hlen, decodeLoop_ofDigits _ (padCallsign_inAlphabet hval) _ _ le_rfl,
      padCallsign_eq hlen, List.nil_append, rdropWhile_append_replicate]
    unfold TrimSpace
    rw [List.rdropWhile_idempotent]

theorem inAlphabet_facts {x : Nat} (h : InAlphabet x) :
    x < 128 ∧ upperByte x = x ∧ (isSpace x = true ↔ x = 32) := by
  unfold InAlphabet at h
  refine ⟨by omega, ?_, ?_⟩
  · unfold upperByte
    rw [if_neg (by omega)]
  · unfold isSpace
    simp only [Bool.or_eq_true, beq_iff_eq, Bool.and_eq_true, decide_eq_true_eq]
    omega

theorem ToUpper_of_inAlphabet (mapUpper : List Nat → List Nat) (c : List Nat)
    (hc : ∀ x ∈ c, InAlphabet x) : ToUpper mapUpper c = c := by
  unfold ToUpper
  rw [if_pos (List.all_eq_true.2 fun x hx => decide_eq_true (inAlphabet_facts (hc x hx)).1)]
  exact (List.map_congr_left fun x hx => (inAlphabet_facts (hc x hx)).2.1).trans (List.map_id c)

theorem TrimSpace_eq_self (c : List Nat) (hc : ∀ x ∈ c, InAlphabet x)
    (hhead : c.head? ≠ some 32) (hlast : c.getLast? ≠ some 32) : TrimSpace c = c := by
  have h1 : c.rdropWhile isSpace = c := by
    rw [List.rdropWhile_eq_self_iff]
    intro hne hsp
    apply hlast
    rw [List.getLast?_eq_getLast _ hne,
      (inAlphabet_facts (hc _ (List.getLast_mem hne))).2.2.1 hsp]
  unfold TrimSpace
  rw [h1]
  cases c with
  | nil => rfl
  | cons a l =>
    have ha : ¬ isSpace a = true := fun hsp => hhead (by
      rw [List.head?_cons, (inAlphabet_facts (hc a (List.mem_cons_self _ _))).2.2.1 hsp])
    simp [List.dropWhile, ha]

/-! ## Callsign codec: the claims -/

/-- C1 as stated fails: the valid callsign `" A"` (a space, then `A`) encodes to
`00 00 00 00 00 28`, which decodes to `"A"`, not to `" A"`. -/
theorem callsign_roundtrip_leading_space :
    ValidCallsign [32, 65] ∧
      EncodeCallsign id [32, 65] = .ok [0, 0, 0, 0, 0, 40] ∧
      DecodeCallsign [0, 0, 0, 0, 0, 40] = [65] ∧
      DecodeCallsign [0, 0, 0, 0, 0, 40] ≠ [32, 65] := by
  refine ⟨by decide, rfl, by decide, by decide⟩

/-- C1 (amended): for every valid callsign `c` (1 to 9 characters of the alphabet),
`EncodeCallsign(c)` succeeds and `DecodeCallsign` of its result is `c` without its leading
and trailing spaces; it is `c` exactly when `c` neither begins nor ends with a space. -/
theorem callsign_roundtrip (mapUpper : List Nat → List Nat) (c : List Nat)
    (hc : ValidCallsign c) :
    ∃ bs, EncodeCallsign mapUpper c = .ok bs ∧ DecodeCallsign bs = TrimSpace c ∧
      (c.head? ≠ some 32 → c.getLast? ≠ some 32 → DecodeCallsign bs = c) := by
  obtain ⟨_, hlen, hval⟩ := hc
  have hu := ToUpper_of_inAlphabet mapUpper c hval
  have hok := EncodeCallsign_ok mapUpper c (by rw [hu]; exact hlen) (by rw [hu]; exact hval)
  have hdec := DecodeCallsign_EncodeCallsign mapUpper c _ hok
  have ht : TrimSpace (ToUpper mapUpper c) = TrimSpace c := by rw [hu]
  exact ⟨_, hok, hdec.trans ht,
    fun h1 h2 => (hdec.trans ht).trans (TrimSpace_eq_self c hval h1 h2)⟩

/-- The amended C1 at the callsign `KC1ABC`. -/
theorem callsign_roundtrip_witness :
    ∃ bs, EncodeCallsign id [75, 67, 49, 65, 66, 67] = .ok bs ∧
      DecodeCallsign bs = TrimSpace [75, 67, 49, 65, 66, 67] ∧
      (([75, 67, 49, 65, 66, 67] : List Nat).head? ≠ some 32 →
        ([75, 67, 49, 65, 66, 67] : List Nat).getLast? ≠ some 32 →
        DecodeCallsign bs = [75, 67, 49, 65, 66, 67]) :=
  callsign_roundtrip id [75, 67, 49, 65, 66, 67] (by decide)

/-- C2: `EncodeCallsign` against its reference definition. With `u` the upper-cased
input, it fails iff `u` has more than 9 characters or a character outside the alphabet;
otherwise it returns 6 bytes whose big-endian value is the sum over `i = 0..8` of
`v(u_i) * 40^i` of the space-padded `u`, a sum that is below `2^48` and so not truncated. -/
theorem EncodeCallsign_reference (mapUpper : List Nat → List Nat) (s : List Nat) :
    ((∃ e, EncodeCallsign mapUpper s = .error e) ↔
        (9 < (ToUpper mapUpper s).length ∨ ∃ c ∈ ToUpper mapUpper s, ¬ InAlphabet c)) ∧
      (¬ (9 < (ToUpper mapUpper s).length ∨ ∃ c ∈ ToUpper mapUpper s, ¬ InAlphabet c) →
        ∃ bs, EncodeCallsign mapUpper s = .ok bs ∧ bs.length = 6 ∧ AllBytes bs ∧
          beValue bs = specAddress (ToUpper mapUpper s) ∧
          specAddress (ToUpper mapUpper s) < 2 ^ 48) := by
  have hgood : ¬ (9 < (ToUpper mapUpper s).length ∨
      ∃ c ∈ ToUpper mapUpper s, ¬ InAlphabet c) →
      ∃ bs, EncodeCallsign mapUpper s = .ok bs ∧ bs.length = 6 ∧ AllBytes bs ∧
        beValue bs = specAddress (ToUpper mapUpper s) ∧
        specAddress (ToUpper mapUpper s) < 2 ^ 48 := by
    intro hbad
    simp only [not_or, not_lt, not_exists, not_and, not_not] at hbad
    obtain ⟨hlen, hval⟩ := hbad
    obtain ⟨h6, hb, hv, _⟩ := fillBytes_six_facts _ (specAddress_lt _ hlen)
    exact ⟨_, EncodeCallsign_ok mapUpper s hlen hval, h6, hb, hv, specAddress_lt _ hlen⟩
  refine ⟨⟨fun ⟨e, he⟩ => ?_, EncodeCallsign_error mapUpper s⟩, hgood⟩
  by_contra hbad
  obtain ⟨bs, hok, _⟩ := hgood hbad
  rw [hok] at he
  cases he

/-! ## CRC-16 and stream packets: lemmas -/

theorem crcShift_lt (crc : Nat) : crcShift crc < 65536 := by
  unfold crcShift
  split_ifs
  · exact Nat.xor_lt_two_pow (n := 16) (Nat.mod_lt _ (by norm_num)) (by norm_num)
  · exact Nat.mod_lt _ (by norm_num)

theorem crcByte_lt (crc b : Nat) : crcByte crc b < 65536 := by
  unfold crcByte
  rw [show (8 : Nat) = 7 + 1 from rfl, Function.iterate_succ_apply']
  exact crcShift_lt _

theorem CRC16_lt (data : List Nat) : CRC16 data < 65536 := by
  unfold CRC16
  induction data using List.reverseRecOn with
  | nil => norm_num
  | append_singleton l b _ =>
    rw [List.foldl_append]
    exact crcByte_lt _ _

theorem copyAt_exact (pre mid post src : List α) (lo hi : Nat) (hlo : pre.length = lo)
    (hmid : mid.length = src.length) (hhi : hi = lo + src.length) :
    copyAt (pre ++ mid ++ post) lo hi src = pre ++ src ++ post := by
  subst hlo hhi
  unfold copyAt
  simp [List.take_append_eq_append_take, List.drop_append_eq_append_drop, hmid]

theorem beUint16_pair (v : Nat) (h : v < 65536) : beUint16 [v / 256 % 256, v % 256] = v := by
  simp only [beUint16, List.getD_cons_zero, List.getD_cons_succ]
  omega

/-- The 52 bytes in front of the CRC of a stream packet. -/
theorem BuildStreamPacket_eq (streamID : Nat) (lsd : List Nat) (frameNum : Nat)
    (isLast : Bool) (payload : List Nat) (hl : lsd.length = 28) (hp : payload.length = 16) :
    BuildStreamPacket streamID lsd frameNum isLast payload =
      .ok (streamMagic ++ [streamID / 256 % 256, streamID % 256] ++ lsd ++
        [(if isLast then frameNum ||| 0x8000 else frameNum) / 256 % 256,
          (if isLast then frameNum ||| 0x8000 else frameNum) % 256] ++ payload ++
        [CRC16 (streamMagic ++ [streamID / 256 % 256, streamID % 256] ++ lsd ++
            [(if isLast then frameNum ||| 0x8000 else frameNum) / 256 % 256,
              (if isLast then frameNum ||| 0x8000 else frameNum) % 256] ++ payload) / 256 % 256,
          CRC16 (streamMagic ++ [streamID / 256 % 256, streamID % 256] ++ lsd ++
            [(if isLast then frameNum ||| 0x8000 else frameNum) / 256 % 256,
              (if isLast then frameNum ||| 0x8000 else frameNum) % 256] ++ payload) % 256]) := by
  unfold BuildStreamPacket
  generalize (if isLast then frameNum ||| 0x8000 else frameNum) = fn
  have e1 : copyAt (List.replicate 54 0) 0 4 streamMagic = streamMagic ++ List.replicate 50 0 :=
    rfl
  have e2 : putUint16 (streamMagic ++ List.replicate 50 0) 4 streamID =
      streamMagic ++ [streamID / 256 % 256, streamID % 256] ++ List.replicate 48 0 := rfl
  have e3 : copyAt (streamMagic ++ [streamID / 256 % 256, streamID % 256] ++
      List.replicate 48 0) 6 34 lsd =
      streamMagic ++ [streamID / 256 % 256, streamID % 256] ++ lsd ++ List.replicate 20 0 := by
    have := copyAt_exact (streamMagic ++ [streamID / 256 % 256, streamID % 256])
      (List.replicate 28 0) (List.replicate 20 0) lsd 6 34 rfl (by simp [hl]) (by omega)
    simpa [List.append_assoc] using this
  have e4 : putUint16 (streamMagic ++ [streamID / 256 % 256, streamID % 256] ++ lsd ++
      List.replicate 20 0) 34 fn =
      streamMagic ++ [streamID / 256 % 256, streamID % 256] ++ lsd ++
        [fn / 256 % 256, fn % 256] ++ List.replicate 18 0 := by
    have := copyAt_exact (streamMagic ++ [streamID / 256 % 256, streamID % 256] ++ lsd)
      (List.replicate 2 0) (List.replicate 18 0) [fn / 256 % 256, fn % 256] 34 36
      (by simp [hl, streamMagic]) rfl rfl
    simpa [putUint16, List.append_assoc] using this
  have e5 : copyAt (streamMagic ++ [streamID / 256 % 256, streamID % 256] ++ lsd ++
        [fn / 256 % 256, fn % 256] ++ List.replicate 18 0) 36 52 payload =
      streamMagic ++ [streamID / 256 % 256, streamID % 256] ++ lsd ++
        [fn / 256 % 256, fn % 256] ++ payload ++ List.replicate 2 0 := by
    have := copyAt_exact (streamMagic ++ [streamID / 256 % 256, streamID % 256] ++ lsd ++
      [fn / 256 % 256, fn % 256]) (List.replicate 16 0) (List.replicate 2 0) payload 36 52
      (by simp [hl, streamMagic]) (by simp [hp]) (by omega)
    simpa [List.append_assoc] using this
  have e6 : slice (streamMagic ++ [streamID / 256 % 256, streamID % 256] ++ lsd ++
        [fn / 256 % 256, fn % 256] ++ payload ++ List.replicate 2 0) 0 52 =
      streamMagic ++ [streamID / 256 % 256, streamID % 256] ++ lsd ++
        [fn / 256 % 256, fn % 256] ++ payload := by
    unfold slice
    rw [List.drop_zero, List.take_left']
    simp [hl, hp, streamMagic]
  have e7 : ∀ crc, putUint16 (streamMagic ++ [streamID / 256 % 256, streamID % 256] ++ lsd ++
        [fn / 256 % 256, fn % 256] ++ payload ++ List.replicate 2 0) 52 crc =
      streamMagic ++ [streamID / 256 % 256, streamID % 256] ++ lsd ++
        [fn / 256 % 256, fn % 256] ++ payload ++ [crc / 256 % 256, crc % 256] := by
    intro crc
    have := copyAt_exact (streamMagic ++ [streamID / 256 % 256, streamID % 256] ++ lsd ++
      [fn / 256 % 256, fn % 256] ++ payload) (List.replicate 2 0) [] [crc / 256 % 256, crc % 256]
      52 54 (by simp [hl, hp, streamMagic]) rfl rfl
    simpa [putUint16, List.append_assoc] using this
  simp only [e1, e2, e3, e4, e5, e6, e7]

theorem slice_length (d : List α) (lo hi : Nat) (h : hi ≤ d.length) :
    (slice d lo hi).length = hi - lo := by
  unfold slice
  rw [List.length_take, List.length_drop]
  omega

theorem slice_getD (d : List Nat) (lo hi i x : Nat) (hi1 : lo + i < hi) :
    (slice d lo hi).getD i x = d.getD (lo + i) x := by
  unfold slice
  rw [List.getD_eq_getElem?_getD, List.getD_eq_getElem?_getD, List.getElem?_take,
    if_pos (by omega), List.getElem?_drop]

theorem copyAt_full (z : α) (src : List α) (n : Nat) (h : src.length = n) :
    copyAt (List.replicate n z) 0 n src = src := by
  have := copyAt_exact [] (List.replicate n z) [] src 0 n rfl (by simp [h]) (by omega)
  simpa using this

theorem beUint16_slice (d : List Nat) (lo : Nat) :
    beUint16 (slice d lo (lo + 2)) = (d.getD lo 0 * 256 + d.getD (lo + 1) 0) % 65536 := by
  unfold beUint16
  rw [slice_getD d lo (lo + 2) 0 0 (by omega), slice_getD d lo (lo + 2) 1 0 (by omega)]
  rfl

theorem getD_lt_of_allBytes (d : List Nat) (hd : AllBytes d) (i : Nat) : d.getD i 0 < 256 := by
  rw [List.getD_eq_getElem?_getD]
  cases h : d[i]? with
  | none => simp
  | some b => exact hd b (List.getElem?_mem h)

/-- What `ParseStreamPacket` computes, with the checks in the order of the source. -/
theorem ParseStreamPacket_eq (d : List Nat) :
    ParseStreamPacket d =
      if d.length < 54 then .error .invalidLength
      else if d.take 4 ≠ streamMagic then .error .invalidMagic
      else if CRC16 (d.take 52) ≠ (d.getD 52 0 * 256 + d.getD 53 0) % 65536 then
        .error .crcMismatch
      else .ok {
        StreamID := (d.getD 4 0 * 256 + d.getD 5 0) % 65536
        LSD := (d.drop 6).take 28
        FrameNum := (d.getD 34 0 * 256 + d.getD 35 0) % 65536
        Payload := (d.drop 36).take 16 } := by
  unfold ParseStreamPacket
  by_cases hlen : d.length < 54
  · simp [hlen]
  · have h1 : (slice d 6 34).length = 28 := slice_length d 6 34 (by omega)
    have h2 : (slice d 36 52).length = 16 := slice_length d 36 52 (by omega)
    simp only [hlen, if_false, copyAt_full _ _ _ h1, copyAt_full _ _ _ h2,
      beUint16_slice d 4, beUint16_slice d 34, beUint16_slice d 52]
    simp only [slice, List.drop_zero, Nat.sub_zero, Nat.reduceSub]

theorem ParseStreamPacket_take (d : List Nat) (h : 54 ≤ d.length) :
    ParseStreamPacket (d.take 54) = ParseStreamPacket d := by
  have hg : ∀ i, i < 54 → (d.take 54).getD i 0 = d.getD i 0 := by
    intro i hi
    rw [List.getD_eq_getElem?_getD, List.getD_eq_getElem?_getD, List.getElem?_take, if_pos hi]
  rw [ParseStreamPacket_eq, ParseStreamPacket_eq d]
  simp only [List.length_take, List.take_take, List.drop_take, hg 4 (by omega),
    hg 5 (by omega), hg 34 (by omega), hg 35 (by omega), hg 52 (by omega), hg 53 (by omega),
    Nat.min_eq_left h, Nat.reduceLT, Nat.reduceSub]
  have e1 : min 4 54 = 4 := rfl
  have e2 : min 52 54 = 52 := rfl
  have e3 : min 28 48 = 28 := rfl
  have e4 : min 16 18 = 16 := rfl
  simp only [e1, e2, e3, e4, Nat.not_lt.2 h, if_false]

theorem and_0x8000 (m : Nat) : (m &&& 0x8000 != 0) = m.testBit 15 := by
  rw [show (0x8000 : Nat) = 2 ^ 15 from rfl, Nat.and_two_pow]
  cases m.testBit 15 <;> simp

theorem testBit_15_or (n : Nat) : (n ||| 0x8000).testBit 15 = true := by
  rw [show (0x8000 : Nat) = 2 ^ 15 from rfl, Nat.testBit_or, Nat.testBit_two_pow_self]
  simp

theorem testBit_15_eq (n : Nat) (hn : n < 65536) : n.testBit 15 = decide (0x8000 ≤ n) := by
  rw [Nat.testBit_to_div_mod]
  congr 1
  apply propext
  norm_num
  omega

theorem or_0x8000_lt (n : Nat) (hn : n < 65536) : n ||| 0x8000 < 65536 :=
  Nat.or_lt_two_pow (n := 16) hn (by norm_num)

/-- Parsing what `BuildStreamPacket` returns gives the fields back. -/
theorem ParseStreamPacket_BuildStreamPacket (streamID : Nat) (lsd : List Nat) (frameNum : Nat)
    (isLast : Bool) (payload : List Nat) (hs : streamID < 65536) (hl : lsd.length = 28)
    (hn : frameNum < 65536) (hp : payload.length = 16) :
    ∃ pkt, BuildStreamPacket streamID lsd frameNum isLast payload = .ok pkt ∧
      pkt.length = 54 ∧
      ParseStreamPacket pkt = .ok {
        StreamID := streamID
        LSD := lsd
        FrameNum := if isLast then frameNum ||| 0x8000 else frameNum
        Payload := payload } := by
  refine ⟨_, BuildStreamPacket_eq streamID lsd frameNum isLast payload hl hp, ?_, ?_⟩
  · simp [hl, hp, streamMagic]
  have hfn : (if isLast then frameNum ||| 0x8000 else frameNum) < 65536 := by
    split_ifs
    · exact or_0x8000_lt _ hn
    · exact hn
  generalize (if isLast then frameNum ||| 0x8000 else frameNum) = fn at hfn ⊢
  have hbody : (streamMagic ++ [streamID / 256 % 256, streamID % 256] ++ lsd ++
      [fn / 256 % 256, fn % 256] ++ payload).length = 52 := by simp [hl, hp, streamMagic]
  have hcrc := CRC16_lt (streamMagic ++ [streamID / 256 % 256, streamID % 256] ++ lsd ++
      [fn / 256 % 256, fn % 256] ++ payload)
  generalize hcrcdef : CRC16 (streamMagic ++ [streamID / 256 % 256, streamID % 256] ++ lsd ++
      [fn / 256 % 256, fn % 256] ++ payload) = crc at hcrc ⊢
  rw [ParseStreamPacket_eq]
  have h52 : (streamMagic ++ [streamID / 256 % 256, streamID % 256] ++ lsd ++
      [fn / 256 % 256, fn % 256] ++ payload ++ [crc / 256 % 256, crc % 256]).take 52 =
      streamMagic ++ [streamID / 256 % 256, streamID % 256] ++ lsd ++
      [fn / 256 % 256, fn % 256] ++ payload := List.take_left' hbody
  have hc1 : (streamMagic ++ [streamID / 256 % 256, streamID % 256] ++ lsd ++
      [fn / 256 % 256, fn % 256] ++ payload ++ [crc / 256 % 256, crc % 256]).getD 52 0 =
      crc / 256 % 256 := by
    rw [List.getD_append_right _ _ _ _ (by omega), hbody]; rfl
  have hc0 : (streamMagic ++ [streamID / 256 % 256, streamID % 256] ++ lsd ++
      [fn / 256 % 256, fn % 256] ++ payload ++ [crc / 256 % 256, crc % 256]).getD 53 0 =
      crc % 256 := by
    rw [List.getD_append_right _ _ _ _ (by omega), hbody]; rfl
  have hlsd : ((streamMagic ++ [streamID / 256 % 256, streamID % 256] ++ lsd ++
      [fn / 256 % 256, fn % 256] ++ payload ++ [crc / 256 % 256, crc % 256]).drop 6).take 28 =
      lsd := by
    simp only [List.append_assoc]
    rw [← List.append_assoc, List.drop_left' (by rfl), List.take_left' hl]
  have hpay : ((streamMagic ++ [streamID / 256 % 256, streamID % 256] ++ lsd ++
      [fn / 256 % 256, fn % 256] ++ payload ++ [crc / 256 % 256, crc % 256]).drop 36).take 16 =
      payload := by
    rw [List.append_assoc _ payload, List.drop_left' (by simp [hl, streamMagic]),
      List.take_left' hp]
  have hf1 : (streamMagic ++ [streamID / 256 % 256, streamID % 256] ++ lsd ++
      [fn / 256 % 256, fn % 256] ++ payload ++ [crc / 256 % 256, crc % 256]).getD 34 0 =
      fn / 256 % 256 := by
    simp only [List.append_assoc]
    rw [← List.append_assoc, ← List.append_assoc,
      List.getD_append_right _ _ _ _ (by simp [hl, streamMagic])]
    simp [hl, streamMagic]
  have hf0 : (streamMagic ++ [streamID / 256 % 256, streamID % 256] ++ lsd ++
      [fn / 256 % 256, fn % 256] ++ payload ++ [crc / 256 % 256, crc % 256]).getD 35 0 =
      fn % 256 := by
    simp only [List.append_assoc]
    rw [← List.append_assoc, ← List.append_assoc,
      List.getD_append_right _ _ _ _ (by simp [hl, streamMagic])]
    simp [hl, streamMagic]
  rw [h52, hcrcdef, hc1, hc0, hlsd, hpay, hf1, hf0]
  have hlen : ¬ (streamMagic ++ [streamID / 256 % 256, streamID % 256] ++ lsd ++
      [fn / 256 % 256, fn % 256] ++ payload ++ [crc / 256 % 256, crc % 256]).length < 54 := by
    simp [hl, hp, streamMagic]
  have hmagic : ¬ (streamMagic ++ [streamID / 256 % 256, streamID % 256] ++ lsd ++
      [fn / 256 % 256, fn % 256] ++ payload ++ [crc / 256 % 256, crc % 256]).take 4 ≠
      streamMagic := by
    simp [streamMagic]
  have hs4 : (streamMagic ++ [streamID / 256 % 256, streamID % 256] ++ lsd ++
      [fn / 256 % 256, fn % 256] ++ payload ++ [crc / 256 % 256, crc % 256]).getD 4 0 =
      streamID / 256 % 256 := by simp [streamMagic]
  have hs5 : (streamMagic ++ [streamID / 256 % 256, streamID % 256] ++ lsd ++
      [fn / 256 % 256, fn % 256] ++ payload ++ [crc / 256 % 256, crc % 256]).getD 5 0 =
      streamID % 256 := by simp [streamMagic]
  rw [if_neg hlen, if_neg hmagic, hs4, hs5]
  have e1 : (crc / 256 % 256 * 256 + crc % 256) % 65536 = crc := by omega
  have e2 : (streamID / 256 % 256 * 256 + streamID % 256) % 65536 = streamID := by omega
  have e3 : (fn / 256 % 256 * 256 + fn % 256) % 65536 = fn := by omega
  rw [e1, e2, e3]
  simp

/-! ## Stream packets: the claims -/

/-- C3: for every stream id `s`, 28-byte LSD `l`, frame number `n`, flag `isLast` and
16-byte payload `p`, parsing what `BuildStreamPacket(s, l, n, isLast, p)` returns succeeds,
so the CRC matches, and gives back `StreamID = s`, `LSD = l`, `Payload = p`, and
`FrameNum = n | 0x8000` when `isLast` is true, `FrameNum = n` when it is false. -/
theorem stream_packet_roundtrip (s : Nat) (l : List Nat) (n : Nat) (isLast : Bool)
    (p : List Nat) (hs : s < 65536) (hl : l.length = 28) (hn : n < 65536)
    (hp : p.length = 16) :
    ∃ pkt, BuildStreamPacket s l n isLast p = .ok pkt ∧
      ParseStreamPacket pkt = .ok {
        StreamID := s
        LSD := l
        FrameNum := if isLast then n ||| 0x8000 else n
        Payload := p } := by
  obtain ⟨pkt, hb, _, hparse⟩ := ParseStreamPacket_BuildStreamPacket s l n isLast p hs hl hn hp
  exact ⟨pkt, hb, hparse⟩

/-- C3 at the packet of the unit test: stream id `0x1234`, frame `0x42`, last. -/
theorem stream_packet_roundtrip_witness :
    ∃ pkt, BuildStreamPacket 0x1234 (List.replicate 28 0) 0x42 true (List.replicate 16 0) =
        .ok pkt ∧
      ParseStreamPacket pkt = .ok {
        StreamID := 0x1234
        LSD := List.replicate 28 0
        FrameNum := if true then 0x42 ||| 0x8000 else 0x42
        Payload := List.replicate 16 0 } :=
  stream_packet_roundtrip 0x1234 (List.replicate 28 0) 0x42 true (List.replicate 16 0)
    (by decide) (by decide) (by decide) (by decide)

/-- C4 as stated fails: built with frame number `0x8000` and `isLast = false`, the packet
parses back with `IsLast()` true. -/
theorem stream_packet_isLast_high_frame :
    ∃ pkt sp, BuildStreamPacket 0 (List.replicate 28 0) 0x8000 false (List.replicate 16 0) =
        .ok pkt ∧
      ParseStreamPacket pkt = .ok sp ∧ sp.IsLast = true := by
  obtain ⟨pkt, hb, _, hparse⟩ := ParseStreamPacket_BuildStreamPacket 0 (List.replicate 28 0)
    0x8000 false (List.replicate 16 0) (by decide) (by decide) (by decide) (by decide)
  exact ⟨pkt, _, hb, hparse, by decide⟩

/-- C4 (amended): the packet parsed back from `BuildStreamPacket(..., n, isLast, ...)`
reports `IsLast()` true iff `isLast` is true or `n` has bit 15 set already
(`n >= 0x8000`); hence `IsLast()` equals `isLast` for every frame number below `0x8000`. -/
theorem stream_packet_isLast (s : Nat) (l : List Nat) (n : Nat) (isLast : Bool)
    (p : List Nat) (hs : s < 65536) (hl : l.length = 28) (hn : n < 65536)
    (hp : p.length = 16) :
    ∃ pkt sp, BuildStreamPacket s l n isLast p = .ok pkt ∧ ParseStreamPacket pkt = .ok sp ∧
      sp.IsLast = (isLast || decide (0x8000 ≤ n)) ∧ (n < 0x8000 → sp.IsLast = isLast) := by
  obtain ⟨pkt, hb, _, hparse⟩ := ParseStreamPacket_BuildStreamPacket s l n isLast p hs hl hn hp
  have key : (StreamPacket.IsLast {
        StreamID := s
        LSD := l
        FrameNum := if isLast then n ||| 0x8000 else n
        Payload := p }) = (isLast || decide (0x8000 ≤ n)) := by
    unfold StreamPacket.IsLast
    cases isLast
    · simp only [Bool.false_eq_true, if_false, Bool.false_or]
      rw [and_0x8000, testBit_15_eq n hn]
    · simp only [if_true, Bool.true_or]
      rw [and_0x8000, testBit_15_or]
  refine ⟨pkt, _, hb, hparse, key, fun hlt => ?_⟩
  rw [key]
  have : decide (0x8000 ≤ n) = false := decide_eq_false (by omega)
  rw [this, Bool.or_false]

/-- The amended C4 at frame number `0x43`, built as not last. -/
theorem stream_packet_isLast_witness :
    ∃ pkt sp, BuildStreamPacket 0x1234 (List.replicate 28 0) 0x43 false (List.replicate 16 0) =
        .ok pkt ∧ ParseStreamPacket pkt = .ok sp ∧
      sp.IsLast = (false || decide (0x8000 ≤ 0x43)) ∧ (0x43 < 0x8000 → sp.IsLast = false) :=
  stream_packet_isLast 0x1234 (List.replicate 28 0) 0x43 false (List.replicate 16 0)
    (by decide) (by decide) (by decide) (by decide)

/-- C5: for every byte sequence `d`, `ParseStreamPacket(d)` succeeds iff `len(d) >= 54`,
`d[0..4]` is `'M','1','7',0x20`, and the big-endian 16-bit value at `d[52..54]` is
`CRC16(d[0..52])`; on success the fields are read from the offsets 4, 6, 34 and 36; and
the result depends on the first 54 bytes only. -/
theorem ParseStreamPacket_spec (d : List Nat) (hd : AllBytes d) :
    ((∃ sp, ParseStreamPacket d = .ok sp) ↔
        54 ≤ d.length ∧ d.take 4 = [77, 49, 55, 32] ∧
          d.getD 52 0 * 256 + d.getD 53 0 = CRC16 (d.take 52)) ∧
      (∀ sp, ParseStreamPacket d = .ok sp →
        sp.StreamID = d.getD 4 0 * 256 + d.getD 5 0 ∧ sp.LSD = (d.drop 6).take 28 ∧
          sp.FrameNum = d.getD 34 0 * 256 + d.getD 35 0 ∧ sp.Payload = (d.drop 36).take 16) ∧
      (54 ≤ d.length → ParseStreamPacket (d.take 54) = ParseStreamPacket d) := by
  have hb := getD_lt_of_allBytes d hd
  have m1 : (d.getD 52 0 * 256 + d.getD 53 0) % 65536 = d.getD 52 0 * 256 + d.getD 53 0 := by
    have := hb 52; have := hb 53; omega
  have m2 : (d.getD 4 0 * 256 + d.getD 5 0) % 65536 = d.getD 4 0 * 256 + d.getD 5 0 := by
    have := hb 4; have := hb 5; omega
  have m3 : (d.getD 34 0 * 256 + d.getD 35 0) % 65536 = d.getD 34 0 * 256 + d.getD 35 0 := by
    have := hb 34; have := hb 35; omega
  refine ⟨?_, ?_, ParseStreamPacket_take d⟩
  · rw [ParseStreamPacket_eq, m1, m2, m3]
    constructor
    · rintro ⟨sp, h⟩
      split_ifs at h with h1 h2 h3
      exact ⟨by omega, not_not.1 h2, (not_not.1 h3).symm⟩
    · rintro ⟨h1, h2, h3⟩
      have h2m : ¬ d.take 4 ≠ streamMagic := not_not.2 h2
      rw [if_neg (by omega), if_neg h2m, if_neg (not_not.2 h3.symm)]
      exact ⟨_, rfl⟩
  · intro sp h
    rw [ParseStreamPacket_eq, m1, m2, m3] at h
    split_ifs at h
    cases h
    exact ⟨rfl, rfl, rfl, rfl⟩

/-- C5 at the packet with stream id `0x1234`, frame number `0x8042`, zero LSD and payload. -/
theorem ParseStreamPacket_spec_witness :
    ((∃ sp, ParseStreamPacket ([77, 49, 55, 32, 18, 52] ++ List.replicate 28 0 ++ [128, 66] ++
          List.replicate 16 0 ++ [195, 76]) = .ok sp) ↔
        54 ≤ ([77, 49, 55, 32, 18, 52] ++ List.replicate 28 0 ++ [128, 66] ++
          List.replicate 16 0 ++ [195, 76]).length ∧
        ([77, 49, 55, 32, 18, 52] ++ List.replicate 28 0 ++ [128, 66] ++
          List.replicate 16 0 ++ [195, 76]).take 4 = [77, 49, 55, 32] ∧
        ([77, 49, 55, 32, 18, 52] ++ List.replicate 28 0 ++ [128, 66] ++
            List.replicate 16 0 ++ [195, 76]).getD 52 0 * 256 +
          ([77, 49, 55, 32, 18, 52] ++ List.replicate 28 0 ++ [128, 66] ++
            List.replicate 16 0 ++ [195, 76]).getD 53 0 =
          CRC16 (([77, 49, 55, 32, 18, 52] ++ List.replicate 28 0 ++ [128, 66] ++
            List.replicate 16 0 ++ [195, 76]).take 52)) :=
  (ParseStreamPacket_spec ([77, 49, 55, 32, 18, 52] ++ List.replicate 28 0 ++ [128, 66] ++
    List.replicate 16 0 ++ [195, 76]) (by decide)).1

/-- C6: `BuildStreamPacket` never returns an error and returns exactly 54 bytes: `"M17 "`,
the stream id big-endian, the 28 bytes of the LSD, the frame number big-endian (with bit 15
set when `isLast`), the 16 bytes of the payload, and the big-endian CRC16 of the 52 bytes
before it. -/
theorem BuildStreamPacket_layout (s : Nat) (l : List Nat) (n : Nat) (isLast : Bool)
    (p : List Nat) (hs : s < 65536) (hl : l.length = 28) (hlb : AllBytes l) (hn : n < 65536)
    (hp : p.length = 16) (hpb : AllBytes p) :
    ∃ buf, BuildStreamPacket s l n isLast p = .ok buf ∧ buf.length = 54 ∧ AllBytes buf ∧
      buf = [77, 49, 55, 32] ++ [s / 256, s % 256] ++ l ++
        [(if isLast then n ||| 0x8000 else n) / 256, (if isLast then n ||| 0x8000 else n) % 256] ++
        p ++ [CRC16 (buf.take 52) / 256, CRC16 (buf.take 52) % 256] := by
  have hfn : (if isLast then n ||| 0x8000 else n) < 65536 := by
    split_ifs
    · exact or_0x8000_lt _ hn
    · exact hn
  refine ⟨_, BuildStreamPacket_eq s l n isLast p hl hp, ?_, ?_, ?_⟩
  · simp [hl, hp, streamMagic]
  · intro b hb
    simp only [List.mem_append, List.mem_cons, List.mem_singleton, List.not_mem_nil,
      or_false, streamMagic] at hb
    rcases hb with ((((h | h) | h) | h) | h) | h
    · omega
    · omega
    · exact hlb b h
    · omega
    · exact hpb b h
    · omega
  · generalize (if isLast then n ||| 0x8000 else n) = fn at hfn ⊢
    have hbody : (streamMagic ++ [s / 256 % 256, s % 256] ++ l ++
        [fn / 256 % 256, fn % 256] ++ p).length = 52 := by simp [hl, hp, streamMagic]
    rw [List.take_left' hbody]
    have hcrc := CRC16_lt (streamMagic ++ [s / 256 % 256, s % 256] ++ l ++
        [fn / 256 % 256, fn % 256] ++ p)
    generalize CRC16 (streamMagic ++ [s / 256 % 256, s % 256] ++ l ++
        [fn / 256 % 256, fn % 256] ++ p) = crc at hcrc ⊢
    have e1 : s / 256 % 256 = s / 256 := by omega
    have e2 : fn / 256 % 256 = fn / 256 := by omega
    have e3 : crc / 256 % 256 = crc / 256 := by omega
    rw [e1, e2, e3]
    rfl

/-- C6 at the packet of the unit test. -/
theorem BuildStreamPacket_layout_witness :
    ∃ buf, BuildStreamPacket 0x1234 (List.replicate 28 0) 0x42 true (List.replicate 16 0) =
        .ok buf ∧ buf.length = 54 ∧ AllBytes buf ∧
      buf = [77, 49, 55, 32] ++ [0x1234 / 256, 0x1234 % 256] ++ List.replicate 28 0 ++
        [(if true then 0x42 ||| 0x8000 else 0x42) / 256,
          (if true then 0x42 ||| 0x8000 else 0x42) % 256] ++
        List.replicate 16 0 ++ [CRC16 (buf.take 52) / 256, CRC16 (buf.take 52) % 256] :=
  BuildStreamPacket_layout 0x1234 (List.replicate 28 0) 0x42 true (List.replicate 16 0)
    (by decide) (by decide) (by decide) (by decide) (by decide) (by decide)

/-! ## CRC-16: the reference and the claim -/

theorem shift_xor (r K : Nat) :
    (r ^^^ K) <<< 1 % 65536 = (r * 2 % 65536) ^^^ (K * 2 % 65536) := by
  apply Nat.eq_of_testBit_eq
  intro i
  rw [show (65536 : Nat) = 2 ^ 16 from rfl, show r * 2 = r <<< 1 by rw [Nat.shiftLeft_eq],
    show K * 2 = K <<< 1 by rw [Nat.shiftLeft_eq]]
  simp only [Nat.testBit_mod_two_pow, Nat.testBit_xor, Nat.testBit_shiftLeft]
  cases decide (i < 16) <;> cases decide (i ≥ 1) <;> simp

theorem crcShift_xor (r K : Nat) :
    crcShift (r ^^^ K) = crcFeedBit 0x5935 r (K.testBit 15) ^^^ (K * 2 % 65536) := by
  have htop : ∀ x : Nat, (x &&& 0x8000 ≠ 0) ↔ x.testBit 15 = true := by
    intro x
    rw [← and_0x8000]
    simp
  unfold crcShift crcFeedBit
  simp only [htop, shift_xor, Nat.testBit_xor]
  cases r.testBit 15 <;> cases K.testBit 15 <;> simp <;> ac_rfl

theorem crcFeedBit_lt (r : Nat) (bit : Bool) : crcFeedBit 0x5935 r bit < 65536 := by
  unfold crcFeedBit
  split_ifs
  · exact Nat.xor_lt_two_pow (n := 16) (Nat.mod_lt _ (by norm_num)) (by norm_num)
  · exact Nat.mod_lt _ (by norm_num)

theorem testBit_15_shifted (b j : Nat) (hj : j ≤ 7) :
    (b * 2 ^ (8 + j) % 65536).testBit 15 = b.testBit (7 - j) := by
  rw [show (65536 : Nat) = 2 ^ 16 from rfl, Nat.testBit_mod_two_pow, ← Nat.shiftLeft_eq,
    Nat.testBit_shiftLeft]
  have h1 : decide (15 < 16) = true := rfl
  have h2 : decide (15 ≥ 8 + j) = true := decide_eq_true (by omega)
  rw [h1, h2, show 15 - (8 + j) = 7 - j by omega]
  rfl

theorem crcByte_eq_crcFeedByte (crc b : Nat) :
    crcByte crc b = crcFeedByte 0x5935 crc b := by
  have k0 : b <<< 8 % 65536 = b * 2 ^ (8 + 0) % 65536 := by rw [Nat.shiftLeft_eq]
  have kk : ∀ j, b * 2 ^ (8 + j) % 65536 * 2 % 65536 = b * 2 ^ (8 + (j + 1)) % 65536 := by
    intro j
    rw [Nat.mod_mul_mod, Nat.mul_assoc, ← Nat.pow_succ]
    rfl
  have k8 : b * 2 ^ (8 + 8) % 65536 = 0 := by
    rw [show (2 : Nat) ^ (8 + 8) = 65536 from rfl]
    exact Nat.mul_mod_left _ _
  unfold crcByte crcFeedByte
  simp only [Function.iterate_succ, Function.iterate_zero, Function.comp_apply, id_eq,
    List.range_succ, List.range_zero, List.nil_append, List.foldl_append, List.foldl_cons,
    List.foldl_nil]
  rw [k0, crcShift_xor, kk, crcShift_xor, kk, crcShift_xor, kk, crcShift_xor, kk,
    crcShift_xor, kk, crcShift_xor, kk, crcShift_xor, kk, crcShift_xor, kk, k8, Nat.xor_zero]
  rw [testBit_15_shifted b 0 (by omega), testBit_15_shifted b 1 (by omega),
    testBit_15_shifted b 2 (by omega), testBit_15_shifted b 3 (by omega),
    testBit_15_shifted b 4 (by omega), testBit_15_shifted b 5 (by omega),
    testBit_15_shifted b 6 (by omega), testBit_15_shifted b 7 (by omega)]

theorem CRC16_eq_crcBitSerial (data : List Nat) :
    CRC16 data = crcBitSerial 0x5935 0xFFFF 0 data := by
  unfold CRC16 crcBitSerial
  rw [Nat.xor_zero]
  generalize (0xFFFF : Nat) = init
  induction data generalizing init with
  | nil => rfl
  | cons b rest ih =>
    rw [List.foldl_cons, List.foldl_cons, crcByte_eq_crcFeedByte]
    exact ih _

set_option maxRecDepth 100000 in
/-- C7: `CRC16` is the bit-serial CRC with polynomial `0x5935` and initial value `0xFFFF`,
most significant bit first, without reflection and without final XOR, and it gives the M17
reference vectors: `0xFFFF` on the empty input, `0x206E` on `"A"`, `0x772B` on
`"123456789"`. -/
theorem CRC16_is_M17_crc :
    (∀ data, CRC16 data = crcBitSerial 0x5935 0xFFFF 0 data) ∧
      CRC16 [] = 0xFFFF ∧ CRC16 [65] = 0x206E ∧
      CRC16 [49, 50, 51, 52, 53, 54, 55, 56, 57] = 0x772B :=
  ⟨CRC16_eq_crcBitSerial, by decide, by decide, by decide⟩

/-! ## Stream handler: lemmas -/

theorem copyAt_length (buf src : List α) (lo hi : Nat) (h1 : lo ≤ hi) (h2 : hi ≤ buf.length) :
    (copyAt buf lo hi src).length = buf.length := by
  unfold copyAt
  simp only [List.length_append, List.length_take, List.length_drop]
  omega

theorem Codec2Encode_ok (lib : Codec2Lib σ) (c : σ) (pcm : List Int)
    (h : lib.samples_per_frame c = 160) (hlen : pcm.length = 160) :
    Codec2Encode lib c pcm =
      (.ok (copyAt (List.replicate (lib.bits_per_frame c / 8) 0) 0 (lib.bits_per_frame c / 8)
        ((lib.encode c pcm).1.map (fun b => b % 256))), (lib.encode c pcm).2) := by
  unfold Codec2Encode
  simp [h, hlen]

theorem buildPayload_ok (env : Env σ ν) (henv : EnvOK env) (c : σ) (pcm : List Int)
    (hlen : pcm.length = 320) :
    ∃ payload c1, buildPayload env c pcm = (.ok payload, c1) ∧ payload.length = 16 := by
  have h1 : (slice pcm 0 160).length = 160 := slice_length pcm 0 160 (by omega)
  have h2 : (pcm.drop 160).length = 160 := by rw [List.length_drop]; omega
  unfold buildPayload
  rw [Codec2Encode_ok _ _ _ (henv.1 _) h1]
  simp only
  rw [Codec2Encode_ok _ _ _ (henv.1 _) h2]
  refine ⟨_, _, rfl, ?_⟩
  rw [copyAt_length _ _ _ _ (by omega), copyAt_length _ _ _ _ (by omega)]
  · rfl
  · simp
  · rw [copyAt_length _ _ _ _ (by omega)] <;> simp

/-- One block sent in surroundings where sending cannot fail. -/
theorem emitBlock_ok (env : Env σ ν) (henv : EnvOK env) (sh : StreamHandler σ ν)
    (block : List Int) (markLast : Bool) (hlen : block.length = 320) :
    ∃ s sh1, emitBlock env sh block markLast = (.ok s, sh1) ∧
      s.frameNum = sh.frameNum ∧ s.builtLast = markLast ∧ s.block = block ∧
      (∃ payload, payload.length = 16 ∧
        BuildStreamPacket sh.streamID sh.lsd sh.frameNum markLast payload = .ok s.pkt) ∧
      sh1.frameNum = (sh.frameNum + 1) % 65536 ∧ sh1.pcmBuffer = sh.pcmBuffer ∧
      sh1.streamID = sh.streamID ∧ sh1.lsd = sh.lsd ∧ sh1.muBuf = sh.muBuf := by
  obtain ⟨payload, c1, hpay, hplen⟩ := buildPayload_ok env henv sh.codec2Inst block hlen
  obtain ⟨pkt, hpkt⟩ : ∃ pkt, BuildStreamPacket sh.streamID sh.lsd sh.frameNum markLast
      payload = .ok pkt := ⟨_, rfl⟩
  obtain ⟨conn, hconn⟩ := Option.ne_none_iff_exists'.1 (henv.2 sh.udpConn pkt)
  unfold emitBlock
  rw [hpay]
  simp only [hpkt, hconn]
  exact ⟨_, _, rfl, rfl, rfl, rfl, ⟨payload, hplen, hpkt⟩, rfl, rfl, rfl, rfl, rfl⟩

theorem slice_drop_block (buf : List Int) (i : Nat) :
    slice (buf.drop 320) (320 * i) (320 * i + 320) =
      slice buf (320 * (i + 1)) (320 * (i + 1) + 320) := by
  have e1 : 320 * i + 320 - 320 * i = 320 * (i + 1) + 320 - 320 * (i + 1) := by omega
  have e3 : 320 * i + 320 = 320 * (i + 1) := by omega
  have e4 : 320 + 320 * i = 320 * (i + 1) := by omega
  unfold slice
  rw [e1]
  simp only [List.drop_drop, e3, e4]

set_option maxHeartbeats 1000000 in
/-- The loop of `SendPCMFrame` in surroundings where sending cannot fail: it writes one
packet per full block of 320 staged samples, numbered consecutively, and leaves the rest. -/
theorem sendLoop_spec (env : Env σ ν) (henv : EnvOK env) (isLast : Bool) (fuel : Nat) :
    ∀ (sh : StreamHandler σ ν) (sent0 : List Sent), sh.frameNum < 65536 →
      sh.pcmBuffer.length / 320 ≤ fuel →
      ∃ new sh1, sendLoop env isLast fuel sh sent0 = ⟨none, sh1, sent0 ++ new⟩ ∧
        new.length = sh.pcmBuffer.length / 320 ∧
        sh1.pcmBuffer = sh.pcmBuffer.drop (320 * (sh.pcmBuffer.length / 320)) ∧
        sh1.frameNum = (sh.frameNum + sh.pcmBuffer.length / 320) % 65536 ∧
        sh1.streamID = sh.streamID ∧ sh1.lsd = sh.lsd ∧ sh1.muBuf = sh.muBuf ∧
        ∀ i s, new[i]? = some s →
          s.frameNum = (sh.frameNum + i) % 65536 ∧
          s.builtLast = (isLast && sh.pcmBuffer.length - 320 * i == 320) ∧
          s.block = slice sh.pcmBuffer (320 * i) (320 * i + 320) ∧
          ∃ payload, payload.length = 16 ∧
            BuildStreamPacket sh.streamID sh.lsd s.frameNum s.builtLast payload = .ok s.pkt := by
  induction fuel with
  | zero =>
    intro sh sent0 hfn hfuel
    have hk : sh.pcmBuffer.length / 320 = 0 := by omega
    refine ⟨[], sh, by simp [sendLoop], by simp [hk], by simp [hk], ?_, rfl, rfl, rfl, ?_⟩
    · rw [hk]; omega
    · intro i s h; simp at h
  | succ fuel ih =>
    intro sh sent0 hfn hfuel
    by_cases hL : sh.pcmBuffer.length ≥ 320
    · have hblock : (slice sh.pcmBuffer 0 320).length = 320 :=
        slice_length _ 0 320 hL
      obtain ⟨s, sh1, hemit, hsf, hsl, hsb, hsp, h1f, h1b, h1s, h1l, h1m⟩ :=
        emitBlock_ok env henv sh (slice sh.pcmBuffer 0 320)
          (isLast && sh.pcmBuffer.length == 320) hblock
      have hlen2 : ({ sh1 with pcmBuffer := sh1.pcmBuffer.drop 320 } :
          StreamHandler σ ν).pcmBuffer.length = sh.pcmBuffer.length - 320 := by
        simp [h1b]
      obtain ⟨new, sh2, hloop, hnl, h2b, h2f, h2s, h2l, h2m, hall⟩ :=
        ih { sh1 with pcmBuffer := sh1.pcmBuffer.drop 320 } (sent0 ++ [s])
          (by simp only [h1f]; exact Nat.mod_lt _ (by norm_num))
          (by rw [hlen2]; omega)
      rw [hlen2] at hnl h2b h2f hall
      simp only [h1b, h1f, h1s, h1l, h1m] at h2b h2f h2s h2l h2m hall
      have hk : sh.pcmBuffer.length / 320 = (sh.pcmBuffer.length - 320) / 320 + 1 := by omega
      refine ⟨s :: new, sh2, ?_, ?_, ?_, ?_, h2s, h2l, h2m, ?_⟩
      · rw [sendLoop, if_pos hL]
        simp only [hemit]
        rw [hloop]
        simp
      · simp [hnl]; omega
      · rw [h2b, List.drop_drop, hk]
        congr 1
        omega
      · rw [h2f, hk]; omega
      · intro i t ht
        cases i with
        | zero =>
          simp only [List.getElem?_cons_zero, Option.some.injEq] at ht
          subst ht
          refine ⟨by rw [hsf]; omega, ?_, by rw [hsb], ?_⟩
          · rw [hsl]; rfl
          · obtain ⟨payload, hp1, hp2⟩ := hsp
            exact ⟨payload, hp1, by rw [hsf, hsl]; exact hp2⟩
        | succ i =>
          simp only [List.getElem?_cons_succ] at ht
          obtain ⟨a1, a2, a3, a4⟩ := hall i t ht
          refine ⟨by rw [a1]; omega, ?_, ?_, a4⟩
          · have e : sh.pcmBuffer.length - 320 - 320 * i =
                sh.pcmBuffer.length - 320 * (i + 1) := by omega
            rw [a2, e]
          · rw [a3, slice_drop_block]
    · have hk : sh.pcmBuffer.length / 320 = 0 := by omega
      refine ⟨[], sh, by simp [sendLoop, hL], by simp [hk], by simp [hk], ?_, rfl, rfl, rfl, ?_⟩
      · rw [hk]; omega
      · intro i s h; simp at h

set_option maxHeartbeats 1000000 in
/-- `SendPCMFrame(pcm, false)` in surroundings where sending cannot fail. -/
theorem SendPCMFrame_false (env : Env σ ν) (henv : EnvOK env) (sh : StreamHandler σ ν)
    (pcm : List Int) (hfn : sh.frameNum < 65536) :
    ∃ new sh1, SendPCMFrame env sh pcm false = ⟨none, sh1, new⟩ ∧
      new.length = (sh.pcmBuffer ++ pcm).length / 320 ∧
      sh1.pcmBuffer = (sh.pcmBuffer ++ pcm).drop (320 * ((sh.pcmBuffer ++ pcm).length / 320)) ∧
      sh1.frameNum = (sh.frameNum + (sh.pcmBuffer ++ pcm).length / 320) % 65536 ∧
      sh1.streamID = sh.streamID ∧ sh1.lsd = sh.lsd ∧ sh1.muBuf = sh.muBuf ∧
      ∀ i s, new[i]? = some s →
        s.frameNum = (sh.frameNum + i) % 65536 ∧ s.builtLast = false ∧
        s.block = slice (sh.pcmBuffer ++ pcm) (320 * i) (320 * i + 320) ∧
        ∃ payload, payload.length = 16 ∧
          BuildStreamPacket sh.streamID sh.lsd s.frameNum false payload = .ok s.pkt := by
  obtain ⟨new, sh1, hloop, hnl, h1b, h1f, h1s, h1l, h1m, hall⟩ :=
    sendLoop_spec env henv false (sh.pcmBuffer ++ pcm).length
      { sh with pcmBuffer := sh.pcmBuffer ++ pcm } [] hfn (Nat.div_le_self _ _)
  refine ⟨new, sh1, ?_, hnl, h1b, h1f, h1s, h1l, h1m, ?_⟩
  · unfold SendPCMFrame
    simp only [hloop, List.nil_append, Bool.false_and, Bool.false_eq_true, if_false]
  · intro i s hs
    obtain ⟨a1, a2, a3, a4⟩ := hall i s hs
    rw [Bool.false_and] at a2
    refine ⟨a1, a2, a3, ?_⟩
    rw [a2] at a4
    exact a4

theorem slice_beyond (buf : List Int) (k : Nat) (h : buf.length < k + 320) :
    slice buf k (k + 320) = buf.drop k := by
  unfold slice
  rw [List.take_of_length_le]
  rw [List.length_drop]
  omega

set_option maxHeartbeats 1000000 in
/-- `SendPCMFrame(pcm, true)` in surroundings where sending cannot fail. -/
theorem SendPCMFrame_true (env : Env σ ν) (henv : EnvOK env) (sh : StreamHandler σ ν)
    (pcm : List Int) (hfn : sh.frameNum < 65536) :
    ∃ new sh1, SendPCMFrame env sh pcm true = ⟨none, sh1, new⟩ ∧
      new.length = ((sh.pcmBuffer ++ pcm).length + 319) / 320 ∧
      sh1.pcmBuffer = [] ∧
      sh1.frameNum = (sh.frameNum + ((sh.pcmBuffer ++ pcm).length + 319) / 320) % 65536 ∧
      sh1.streamID = sh.streamID ∧ sh1.lsd = sh.lsd ∧ sh1.muBuf = sh.muBuf ∧
      ∀ i s, new[i]? = some s →
        s.frameNum = (sh.frameNum + i) % 65536 ∧ s.builtLast = (i + 1 == new.length) ∧
        s.block = copyAt (List.replicate 320 0) 0 320
          (slice (sh.pcmBuffer ++ pcm) (320 * i) (320 * i + 320)) ∧
        ∃ payload, payload.length = 16 ∧
          BuildStreamPacket sh.streamID sh.lsd s.frameNum s.builtLast payload = .ok s.pkt := by
  obtain ⟨new, sh1, hloop, hnl, h1b, h1f, h1s, h1l, h1m, hall⟩ :=
    sendLoop_spec env henv true (sh.pcmBuffer ++ pcm).length
      { sh with pcmBuffer := sh.pcmBuffer ++ pcm } [] hfn (Nat.div_le_self _ _)
  simp only at hnl h1b h1f h1s h1l h1m hall
  generalize hbuf : sh.pcmBuffer ++ pcm = buf at hloop hnl h1b h1f hall ⊢
  have h1len : sh1.pcmBuffer.length = buf.length % 320 := by
    rw [h1b, List.length_drop]
    omega
  have hfull : ∀ i s, new[i]? = some s →
      s.block = copyAt (List.replicate 320 0) 0 320 (slice buf (320 * i) (320 * i + 320)) := by
    intro i s hs
    have hi : i < new.length := (List.getElem?_eq_some.1 hs).1
    have hlen := slice_length buf (320 * i) (320 * i + 320) (by omega)
    rw [(hall i s hs).2.2.1, copyAt_full]
    omega
  by_cases hrem : buf.length % 320 = 0
  · have hk : (buf.length + 319) / 320 = buf.length / 320 := by omega
    refine ⟨new, sh1, ?_, by rw [hnl, hk], ?_, by rw [h1f, hk], h1s, h1l, h1m, ?_⟩
    · unfold SendPCMFrame
      simp only [hbuf, hloop, List.nil_append, Bool.true_and, h1len, hrem, gt_iff_lt,
        Nat.lt_irrefl, decide_False, Bool.false_eq_true, if_false]
    · exact List.length_eq_zero.1 (by rw [h1len, hrem])
    · intro i s hs
      have hi : i < new.length := (List.getElem?_eq_some.1 hs).1
      obtain ⟨a1, a2, _, a4⟩ := hall i s hs
      refine ⟨a1, ?_, hfull i s hs, a4⟩
      rw [a2, Bool.true_and, hnl]
      by_cases hlast : i + 1 = buf.length / 320
      · rw [beq_iff_eq.2 hlast, beq_iff_eq]
        omega
      · rw [beq_eq_false_iff_ne.2 hlast, beq_eq_false_iff_ne]
        omega
  · have hk : (buf.length + 319) / 320 = buf.length / 320 + 1 := by omega
    have hpad : (copyAt (List.replicate 320 (0 : Int)) 0 320 sh1.pcmBuffer).length = 320 := by
      rw [copyAt_length _ _ _ _ (Nat.zero_le _) (by rw [List.length_replicate]),
        List.length_replicate]
    have hfn1 : sh1.frameNum < 65536 := by rw [h1f]; exact Nat.mod_lt _ (by norm_num)
    obtain ⟨s, sh2, hemit, hsf, hsl, hsb, hsp, h2f, h2b, h2s, h2l, h2m⟩ :=
      emitBlock_ok env henv sh1 _ true hpad
    refine ⟨new ++ [s], { sh2 with pcmBuffer := [] }, ?_, by simp [hnl, hk], rfl, ?_,
      by simp [h2s, h1s], by simp [h2l, h1l], by simp [h2m, h1m], ?_⟩
    · unfold SendPCMFrame
      have hpos : decide (sh1.pcmBuffer.length > 0) = true := decide_eq_true (by omega)
      simp only [hbuf, hloop, List.nil_append, Bool.true_and, hpos, if_true, hemit]
    · simp only [h2f, h1f, hk]
      omega
    · intro i t ht
      by_cases hi : i < new.length
      · rw [List.getElem?_append_left hi] at ht
        obtain ⟨a1, a2, _, a4⟩ := hall i t ht
        refine ⟨a1, ?_, hfull i t ht, a4⟩
        rw [a2, Bool.true_and, List.length_append, List.length_singleton, hnl]
        have hne : ¬ i + 1 = buf.length / 320 + 1 := by omega
        rw [beq_eq_false_iff_ne.2 hne, beq_eq_false_iff_ne]
        omega
      · have hi2 : i = new.length := by
          have := (List.getElem?_eq_some.1 ht).1
          simp only [List.length_append, List.length_singleton] at this
          omega
        subst hi2
        rw [List.getElem?_append_right (le_refl _), Nat.sub_self, List.getElem?_cons_zero,
          Option.some.injEq] at ht
        subst ht
        refine ⟨by rw [hsf, h1f, hnl], ?_, ?_, ?_⟩
        · rw [hsl, List.length_append, List.length_singleton]
          exact (beq_iff_eq.2 rfl).symm
        · rw [hsb, h1b, hnl, slice_beyond _ _ (by omega)]
        · obtain ⟨payload, hp1, hp2⟩ := hsp
          refine ⟨payload, hp1, ?_⟩
          rw [hsf, hsl, ← h1s, ← h1l]
          exact hp2

theorem recordingEnv_ok : EnvOK recordingEnv :=
  ⟨fun _ => rfl, fun _ _ => by simp [recordingEnv]⟩

theorem Finalize_empty (env : Env σ ν) (sh : StreamHandler σ ν) (h : sh.pcmBuffer = []) :
    Finalize env sh = ⟨none, sh, []⟩ := by
  obtain ⟨udp, codec, sid, lsd, fn, buf, mu⟩ := sh
  simp only at h
  subst h
  rfl

/-- The last-of-stream bit on the wire of a packet that `BuildStreamPacket` returned. -/
theorem wireLastBit_build (streamID : Nat) (lsd : List Nat) (frameNum : Nat) (isLast : Bool)
    (payload pkt : List Nat) (hl : lsd.length = 28) (hn : frameNum < 65536)
    (hp : payload.length = 16)
    (h : BuildStreamPacket streamID lsd frameNum isLast payload = .ok pkt) :
    wireLastBit pkt = (isLast || decide (0x8000 ≤ frameNum)) := by
  have hfn : (if isLast then frameNum ||| 0x8000 else frameNum) < 65536 := by
    split_ifs
    · exact or_0x8000_lt _ hn
    · exact hn
  have hbit : decide (0x8000 ≤ (if isLast then frameNum ||| 0x8000 else frameNum)) =
      (isLast || decide (0x8000 ≤ frameNum)) := by
    cases isLast
    · simp
    · simp only [if_true, Bool.true_or]
      rw [← testBit_15_eq _ (or_0x8000_lt _ hn), testBit_15_or]
  rw [BuildStreamPacket_eq streamID lsd frameNum isLast payload hl hp] at h
  simp only [Except.ok.injEq] at h
  subst h
  simp only [List.append_assoc]
  rw [← List.append_assoc, ← List.append_assoc]
  have hpre : (streamMagic ++ [streamID / 256 % 256, streamID % 256] ++ lsd).length = 34 := by
    simp [hl, streamMagic]
  unfold wireLastBit
  rw [List.getD_append_right _ _ _ _ (by omega), hpre, Nat.sub_self, List.cons_append,
    List.getD_cons_zero, ← hbit]
  generalize (if isLast then frameNum ||| 0x8000 else frameNum) = fn at hfn
  apply decide_eq_decide.2
  omega


/-- Full frames of 320 samples forwarded one after the other from an empty staging
buffer: one packet each, none built as last. -/
theorem sendFrames_full (env : Env σ ν) (henv : EnvOK env) (frames : List (List Int)) :
    ∀ (sh : StreamHandler σ ν) (sent0 : List Sent), sh.pcmBuffer = [] → sh.frameNum < 65536 →
      (∀ f ∈ frames, f.length = 320) →
      ∃ new sh1, sendFrames env sh frames sent0 = (sh1, sent0 ++ new) ∧
        new.length = frames.length ∧ sh1.pcmBuffer = [] ∧
        sh1.frameNum = (sh.frameNum + frames.length) % 65536 ∧
        sh1.streamID = sh.streamID ∧ sh1.lsd = sh.lsd ∧
        ∀ i s, new[i]? = some s →
          s.frameNum = (sh.frameNum + i) % 65536 ∧ s.builtLast = false ∧
          ∃ payload, payload.length = 16 ∧
            BuildStreamPacket sh.streamID sh.lsd s.frameNum false payload = .ok s.pkt := by
  induction frames with
  | nil =>
    intro sh sent0 _ hfn _
    exact ⟨[], sh, by simp [sendFrames], rfl, by assumption, by simp; omega, rfl, rfl,
      by intro i s h; simp at h⟩
  | cons pcm rest ih =>
    intro sh sent0 hbuf hfn hfull
    have hpcm : pcm.length = 320 := hfull pcm (List.mem_cons_self _ _)
    obtain ⟨new1, sh1, hsend, hn1, h1b, h1f, h1s, h1l, _, hall1⟩ :=
      SendPCMFrame_false env henv sh pcm hfn
    rw [hbuf, List.nil_append] at hn1 h1b h1f hall1
    rw [hpcm] at hn1 h1b h1f
    have hone : 320 / 320 = 1 := rfl
    rw [hone] at hn1 h1b h1f
    have h1b2 : sh1.pcmBuffer = [] := by
      rw [h1b]
      exact List.drop_eq_nil_of_le (by omega)
    obtain ⟨new2, sh2, hrest, hn2, h2b, h2f, h2s, h2l, hall2⟩ :=
      ih sh1 (sent0 ++ new1) h1b2 (by rw [h1f]; exact Nat.mod_lt _ (by norm_num))
        (fun f hf => hfull f (List.mem_cons_of_mem _ hf))
    refine ⟨new1 ++ new2, sh2, ?_, ?_, h2b, ?_, by rw [h2s, h1s], by rw [h2l, h1l], ?_⟩
    · rw [sendFrames]
      simp only [hsend]
      rw [hrest, List.append_assoc]
    · simp [hn1, hn2]; omega
    · rw [h2f, h1f, List.length_cons]; omega
    · intro i s hs
      obtain ⟨t, rfl⟩ : ∃ t, new1 = [t] := List.length_eq_one.1 hn1
      cases i with
      | zero =>
        simp only [List.singleton_append, List.getElem?_cons_zero, Option.some.injEq] at hs
        subst hs
        obtain ⟨a1, a2, _, a4⟩ := hall1 0 t rfl
        exact ⟨a1, a2, a4⟩
      | succ i =>
        simp only [List.singleton_append, List.getElem?_cons_succ] at hs
        obtain ⟨a1, a2, a4⟩ := hall2 i s hs
        rw [h1s, h1l] at a4
        refine ⟨?_, a2, a4⟩
        rw [a1, h1f]
        omega

/-! ## Stream handler: the claims -/

/-- C8: `SendPCMFrame` against its reference behaviour, in surroundings where encoding and
UDP writes succeed and with `n` the number of staged samples plus `len(pcm)`.
`SendPCMFrame(pcm, false)` writes `n / 320` packets, none built with `isLast`, and leaves
`n mod 320` samples staged; `SendPCMFrame(pcm, true)` writes `ceil(n / 320)` packets, of
which exactly the final one is built with `isLast = true`, and leaves staging empty; both
advance the `uint16` frame counter by the number of packets written; and `Finalize` on
empty staging writes nothing and changes no state. -/
theorem SendPCMFrame_reference (env : Env σ ν) (henv : EnvOK env) (sh : StreamHandler σ ν)
    (pcm : List Int) (hr : sh.pcmBuffer.length < 320) (hfn : sh.frameNum < 65536) :
    ((SendPCMFrame env sh pcm false).err = none ∧
      (SendPCMFrame env sh pcm false).sent.length = (sh.pcmBuffer.length + pcm.length) / 320 ∧
      (∀ s ∈ (SendPCMFrame env sh pcm false).sent, s.builtLast = false) ∧
      (SendPCMFrame env sh pcm false).sh.pcmBuffer.length =
        (sh.pcmBuffer.length + pcm.length) % 320 ∧
      (SendPCMFrame env sh pcm false).sh.frameNum =
        (sh.frameNum + (SendPCMFrame env sh pcm false).sent.length) % 65536) ∧
    ((SendPCMFrame env sh pcm true).err = none ∧
      (SendPCMFrame env sh pcm true).sent.length =
        (sh.pcmBuffer.length + pcm.length + 319) / 320 ∧
      (∀ i s, (SendPCMFrame env sh pcm true).sent[i]? = some s →
        s.builtLast = (i + 1 == (SendPCMFrame env sh pcm true).sent.length)) ∧
      (SendPCMFrame env sh pcm true).sh.pcmBuffer = [] ∧
      (SendPCMFrame env sh pcm true).sh.frameNum =
        (sh.frameNum + (SendPCMFrame env sh pcm true).sent.length) % 65536) ∧
    (sh.pcmBuffer = [] → Finalize env sh = ⟨none, sh, []⟩) := by
  have _ := hr
  obtain ⟨new1, sh1, h1, hn1, h1b, h1f, _, _, _, hall1⟩ := SendPCMFrame_false env henv sh pcm hfn
  obtain ⟨new2, sh2, h2, hn2, h2b, h2f, _, _, _, hall2⟩ := SendPCMFrame_true env henv sh pcm hfn
  rw [List.length_append] at hn1 h1b h1f hn2 h2f
  rw [h1, h2]
  refine ⟨⟨rfl, hn1, ?_, ?_, ?_⟩, ⟨rfl, hn2, ?_, h2b, ?_⟩, Finalize_empty env sh⟩
  · intro s hs
    obtain ⟨i, hi⟩ := List.mem_iff_getElem?.1 hs
    exact (hall1 i s hi).2.1
  · simp only [h1b, List.length_drop, List.length_append]
    omega
  · simp only [h1f, hn1]
  · intro i s hs
    exact (hall2 i s hs).2.1
  · simp only [h2f, hn2]

/-- C8 at a fresh handler over the recording socket and 400 samples. -/
theorem SendPCMFrame_reference_witness :
    (SendPCMFrame recordingEnv (freshHandler 7 (List.replicate 28 0))
        (List.replicate 400 0) true).sent.length =
      ((freshHandler 7 (List.replicate 28 0)).pcmBuffer.length +
        (List.replicate 400 (0 : Int)).length + 319) / 320 :=
  (SendPCMFrame_reference recordingEnv recordingEnv_ok (freshHandler 7 (List.replicate 28 0))
    (List.replicate 400 0) (by decide) (by decide)).2.1.2.1

/-- C9 fails on the code: in a key-down whose audio frames all carry exactly 320 samples
(640 bytes of PCM), at most 32768 of them, every frame is written as one packet built with
`isLast = false`, `Finalize` finds the staging buffer empty and writes nothing, and so the
last packet written has the last-of-stream bit clear. -/
theorem keyDown_full_frames_last_bit_clear (env : Env σ ν) (henv : EnvOK env)
    (sh : StreamHandler σ ν) (hlsd : sh.lsd.length = 28) (sid : Nat)
    (frames : List (List Int)) (hne : frames ≠ []) (hlen : frames.length ≤ 32768)
    (hfull : ∀ f ∈ frames, f.length = 320) :
    ∃ s, (keyDown env sh (some sid) frames).2.getLast? = some s ∧
      (keyDown env sh (some sid) frames).2.length = frames.length ∧
      s.builtLast = false ∧ wireLastBit s.pkt = false := by
  obtain ⟨new, sh1, hsend, hnl, h1b, _, _, _, hall⟩ :=
    sendFrames_full env henv frames
      { sh with streamID := sid % 65536, frameNum := 0, pcmBuffer := [] } [] rfl
      (by norm_num) hfull
  have hkd : (keyDown env sh (some sid) frames).2 = new := by
    unfold keyDown
    simp only [StartNewStream, hsend, Finalize_empty env sh1 h1b, List.nil_append,
      List.append_nil]
  have hpos : 0 < frames.length := List.length_pos.2 hne
  obtain ⟨s, hs⟩ : ∃ s, new[frames.length - 1]? = some s :=
    ⟨new[frames.length - 1], List.getElem?_eq_getElem (by omega)⟩
  obtain ⟨a1, a2, payload, hp, hb⟩ := hall _ s hs
  simp only [Nat.zero_add] at a1
  have hfn : s.frameNum < 32768 := by omega
  refine ⟨s, ?_, by rw [hkd, hnl], a2, ?_⟩
  · rw [hkd, List.getLast?_eq_getElem?, hnl, hs]
  · rw [wireLastBit_build _ _ _ _ _ _ hlsd (by omega) hp hb, Bool.false_or]
    exact decide_eq_false (by omega)

/-- C9 on the spec's first scenario: 50 PCM frames of 640 bytes each. -/
theorem keyDown_full_frames_last_bit_clear_witness :
    ∃ s, (keyDown recordingEnv (freshHandler 7 (List.replicate 28 0)) (some 5)
        (List.replicate 50 (List.replicate 320 0))).2.getLast? = some s ∧
      (keyDown recordingEnv (freshHandler 7 (List.replicate 28 0)) (some 5)
        (List.replicate 50 (List.replicate 320 0))).2.length =
        (List.replicate 50 (List.replicate 320 (0 : Int))).length ∧
      s.builtLast = false ∧ wireLastBit s.pkt = false :=
  keyDown_full_frames_last_bit_clear recordingEnv recordingEnv_ok
    (freshHandler 7 (List.replicate 28 0)) (by decide) 5
    (List.replicate 50 (List.replicate 320 0)) (by decide)
    (by rw [List.length_replicate]; decide)
    (fun f hf => by rw [List.eq_of_mem_replicate hf, List.length_replicate])

/-- C10 fails on the code: after `StartNewStream` and 32768 calls of `SendPCMFrame` with
320 samples and `isLast = false`, the frame counter is `0x8000`, and the packet that the
next such call builds with `isLast = false` goes out with the last-of-stream bit set: it
parses back with `IsLast()` true. -/
theorem sendFrames_counter_sets_last_bit (env : Env σ ν) (henv : EnvOK env)
    (sh : StreamHandler σ ν) (hlsd : sh.lsd.length = 28) (sid : Nat)
    (frames : List (List Int)) (hlen : frames.length = 32769)
    (hfull : ∀ f ∈ frames, f.length = 320) :
    ∃ s sp, (sendFrames env (StartNewStream sh (some sid)).2 frames []).2[32768]? = some s ∧
      s.builtLast = false ∧ s.frameNum = 0x8000 ∧ wireLastBit s.pkt = true ∧
      ParseStreamPacket s.pkt = .ok sp ∧ sp.IsLast = true := by
  obtain ⟨new, sh1, hsend, hnl, _, _, _, _, hall⟩ :=
    sendFrames_full env henv frames
      { sh with streamID := sid % 65536, frameNum := 0, pcmBuffer := [] } [] rfl
      (by norm_num) hfull
  have hidx : 32768 < new.length := by omega
  obtain ⟨s, hs⟩ : ∃ s, new[32768]? = some s :=
    ⟨new[32768], List.getElem?_eq_getElem (by omega)⟩
  obtain ⟨a1, a2, payload, hp, hb⟩ := hall _ s hs
  simp only at a1 hb
  have hfn : s.frameNum = 32768 := by rw [a1]
  rw [hfn] at hb
  obtain ⟨pkt, hb2, _, hparse⟩ := ParseStreamPacket_BuildStreamPacket (sid % 65536) sh.lsd
    32768 false payload (Nat.mod_lt _ (by norm_num)) hlsd (by norm_num) hp
  rw [hb] at hb2
  cases hb2
  refine ⟨s, _, ?_, a2, hfn, ?_, hparse, ?_⟩
  · simp only [StartNewStream, hsend, List.nil_append]
    exact hs
  · rw [wireLastBit_build _ _ _ _ _ _ hlsd (by norm_num) hp hb, Bool.false_or]
    exact decide_eq_true (le_refl _)
  · unfold StreamPacket.IsLast
    simp only [Bool.false_eq_true, if_false]
    rw [and_0x8000, testBit_15_eq _ (by norm_num)]
    exact decide_eq_true (le_refl _)

/-- C10 at a fresh handler over the recording socket: 32769 frames of 320 samples. -/
theorem sendFrames_counter_sets_last_bit_witness :
    ∃ s sp, (sendFrames recordingEnv
        (StartNewStream (freshHandler 7 (List.replicate 28 0)) (some 5)).2
        (List.replicate 32769 (List.replicate 320 0)) []).2[32768]? = some s ∧
      s.builtLast = false ∧ s.frameNum = 0x8000 ∧ wireLastBit s.pkt = true ∧
      ParseStreamPacket s.pkt = .ok sp ∧ sp.IsLast = true :=
  sendFrames_counter_sets_last_bit recordingEnv recordingEnv_ok
    (freshHandler 7 (List.replicate 28 0)) (by decide) 5
    (List.replicate 32769 (List.replicate 320 0)) (List.length_replicate _ _)
    (fun f hf => by rw [List.eq_of_mem_replicate hf, List.length_replicate])

/-! ## Control packets and callsign validation -/


theorem slice_zero (d : List α) (n : Nat) : slice d 0 n = d.take n := by
  simp [slice]

theorem magics_distinct :
    MagicCONN ≠ MagicACKN ∧ MagicCONN ≠ MagicNACK ∧ MagicCONN ≠ MagicPING ∧
      MagicCONN ≠ MagicPONG ∧ MagicCONN ≠ MagicDISC ∧ MagicACKN ≠ MagicNACK ∧
      MagicACKN ≠ MagicPING ∧ MagicACKN ≠ MagicPONG ∧ MagicACKN ≠ MagicDISC ∧
      MagicNACK ≠ MagicPING ∧ MagicNACK ≠ MagicPONG ∧ MagicNACK ≠ MagicDISC ∧
      MagicPING ≠ MagicPONG ∧ MagicPING ≠ MagicDISC ∧ MagicPONG ≠ MagicDISC := by
  decide

/-- C12: for every byte sequence `d`, `ParseControlPacket(d)` succeeds iff `len(d) >= 4`
and the first four bytes are one of the six magics with its length rule: `CONN` needs
`len >= 11`, `PING` and `PONG` need `len >= 10`, `ACKN` and `NACK` nothing more, `DISC`
needs `len = 4` or `len >= 10`; a packet shorter than 4 bytes and an unknown magic both
fail. -/
theorem ParseControlPacket_spec (d : List Nat) :
    ((∃ p, ParseControlPacket d = .ok p) ↔
      4 ≤ d.length ∧
        ((d.take 4 = str "CONN" ∧ 11 ≤ d.length) ∨ d.take 4 = str "ACKN" ∨
          d.take 4 = str "NACK" ∨ (d.take 4 = str "PING" ∧ 10 ≤ d.length) ∨
          (d.take 4 = str "PONG" ∧ 10 ≤ d.length) ∨
          (d.take 4 = str "DISC" ∧ (d.length = 4 ∨ 10 ≤ d.length)))) ∧
      (d.length < 4 → ParseControlPacket d = .error .tooShort) ∧
      (4 ≤ d.length → d.take 4 ≠ str "CONN" → d.take 4 ≠ str "ACKN" →
        d.take 4 ≠ str "NACK" → d.take 4 ≠ str "PING" → d.take 4 ≠ str "PONG" →
        d.take 4 ≠ str "DISC" → ParseControlPacket d = .error .unknownMagic) := by
  obtain ⟨h1, h2, h3, h4, h5, h6, h7, h8, h9, h10, h11, h12, h13, h14, h15⟩ := magics_distinct
  unfold ParseControlPacket
  simp only [slice_zero]
  change _ ∧ _ ∧ (_ → d.take 4 ≠ MagicCONN → d.take 4 ≠ MagicACKN → d.take 4 ≠ MagicNACK →
    d.take 4 ≠ MagicPING → d.take 4 ≠ MagicPONG → d.take 4 ≠ MagicDISC → _)
  refine ⟨?_, ?_, ?_⟩
  · change _ ↔ _ ∧ ((d.take 4 = MagicCONN ∧ _) ∨ d.take 4 = MagicACKN ∨ d.take 4 = MagicNACK ∨
      (d.take 4 = MagicPING ∧ _) ∨ (d.take 4 = MagicPONG ∧ _) ∨ (d.take 4 = MagicDISC ∧ _))
    by_cases hlen : d.length < 4
    · simp [hlen]
    · simp only [hlen, if_false]
      by_cases c1 : d.take 4 = MagicCONN
      · simp only [c1, if_true]
        by_cases hl : d.length < 11 <;> simp [hl, h1, h2, h3, h4, h5] <;> omega
      by_cases c2 : d.take 4 = MagicACKN
      · simp [c2, hlen, h1.symm] <;> omega
      by_cases c3 : d.take 4 = MagicNACK
      · simp [c3, hlen, h2.symm, h6.symm] <;> omega
      by_cases c4 : d.take 4 = MagicPING
      · simp only [c4, if_true, h3.symm, h7.symm, h10.symm, if_false]
        by_cases hl : d.length < 10 <;> simp [hl, h3.symm, h7.symm, h10.symm, h13, h14] <;> omega
      by_cases c5 : d.take 4 = MagicPONG
      · simp only [c5, if_true, h4.symm, h8.symm, h11.symm, h13.symm, if_false]
        by_cases hl : d.length < 10 <;>
          simp [hl, h4.symm, h8.symm, h11.symm, h13.symm, h15] <;> omega
      by_cases c6 : d.take 4 = MagicDISC
      · simp only [c6, if_true, h5.symm, h9.symm, h12.symm, h14.symm, h15.symm, if_false]
        by_cases hl4 : d.length = 4
        · simp [hl4]
        · by_cases hl : d.length < 10 <;> simp [hl, hl4] <;> omega
      · simp [c1, c2, c3, c4, c5, c6]
  · intro hlen
    simp [hlen]
  · intro hlen c1 c2 c3 c4 c5 c6
    simp [Nat.not_lt.2 hlen, c1, c2, c3, c4, c5, c6]


/-- What a successful `EncodeCallsign` tells about its input and its result. -/
theorem EncodeCallsign_inv (mapUpper : List Nat → List Nat) (s bs : List Nat)
    (h : EncodeCallsign mapUpper s = .ok bs) :
    (ToUpper mapUpper s).length ≤ 9 ∧ (∀ x ∈ ToUpper mapUpper s, InAlphabet x) ∧
      bs = fillBytes 6 (specAddress (ToUpper mapUpper s)) [] ∧ bs.length = 6 ∧
      AllBytes bs := by
  by_cases hbad : 9 < (ToUpper mapUpper s).length ∨ ∃ c ∈ ToUpper mapUpper s, ¬ InAlphabet c
  · obtain ⟨e, he⟩ := EncodeCallsign_error mapUpper s hbad
    rw [he] at h
    cases h
  · simp only [not_or, not_lt, not_exists, not_and, not_not] at hbad
    obtain ⟨hlen, hval⟩ := hbad
    rw [EncodeCallsign_ok mapUpper s hlen hval] at h
    cases h
    obtain ⟨h6, hb, _, _⟩ := fillBytes_six_facts _ (specAddress_lt _ hlen)
    exact ⟨hlen, hval, rfl, h6, hb⟩

theorem slice_append_mid (pre mid post : List α) (lo hi : Nat) (hlo : pre.length = lo)
    (hmid : mid.length = hi - lo) : slice (pre ++ mid ++ post) lo hi = mid := by
  unfold slice
  rw [List.append_assoc, List.drop_left' hlo, List.take_left' hmid]

/-- The packet `BuildCONN` returns and what `ParseControlPacket` reads back from it. -/
theorem BuildCONN_parse (mapUpper : List Nat → List Nat) (c enc : List Nat) (m : Nat)
    (h : EncodeCallsign mapUpper c = .ok enc) :
    BuildCONN mapUpper c m = .ok (str "CONN" ++ enc ++ [m]) ∧
      (str "CONN" ++ enc ++ [m]).length = 11 ∧
      ParseControlPacket (str "CONN" ++ enc ++ [m]) =
        .ok ⟨.CtrlCONN, TrimSpace (ToUpper mapUpper c), m⟩ := by
  obtain ⟨_, _, _, h6, _⟩ := EncodeCallsign_inv mapUpper c enc h
  have hlen : (str "CONN" ++ enc ++ [m]).length = 11 := by
    rw [List.length_append, List.length_append, h6]
    rfl
  refine ⟨?_, hlen, ?_⟩
  · unfold BuildCONN buildControlPacket
    rw [h]
    rfl
  · have hmagic : slice (str "CONN" ++ enc ++ [m]) 0 4 = MagicCONN := by
      have := slice_append_mid [] (str "CONN") (enc ++ [m]) 0 4 rfl rfl
      simpa [List.append_assoc] using this
    have hcs : slice (str "CONN" ++ enc ++ [m]) 4 10 = enc :=
      slice_append_mid (str "CONN") enc [m] 4 10 rfl (by rw [h6])
    have hmod : (str "CONN" ++ enc ++ [m]).getD 10 0 = m := by
      rw [List.getD_append_right _ _ _ _ (by rw [List.length_append, h6]; exact le_refl _)]
      rw [List.length_append, h6]
      rfl
    unfold ParseControlPacket
    rw [if_neg (by rw [hlen]; omega)]
    simp only [hmagic, if_true, hcs, hmod]
    rw [if_neg (by rw [hlen]; omega), DecodeCallsign_EncodeCallsign mapUpper c enc h]

/-- C13: for every callsign `c` accepted by `EncodeCallsign` and every module byte `m`,
`BuildCONN(c, m)` is the 11 bytes `"CONN" ++ EncodeCallsign(c) ++ [m]`, and
`ParseControlPacket` of it succeeds with type `CONN`, callsign the upper-cased `c`
without leading and trailing spaces, and module `m`. -/
theorem BuildCONN_roundtrip (mapUpper : List Nat → List Nat) (c enc : List Nat) (m : Nat)
    (h : EncodeCallsign mapUpper c = .ok enc) (hm : m < 256) :
    BuildCONN mapUpper c m = .ok (str "CONN" ++ enc ++ [m]) ∧
      (str "CONN" ++ enc ++ [m]).length = 11 ∧
      ParseControlPacket (str "CONN" ++ enc ++ [m]) =
        .ok ⟨.CtrlCONN, TrimSpace (ToUpper mapUpper c), m⟩ := by
  have _ := hm
  exact BuildCONN_parse mapUpper c enc m h

/-- C13 at the callsign `KC1ABC` and module `A` of the unit test. -/
theorem BuildCONN_roundtrip_witness :
    BuildCONN id (str "KC1ABC") 65 = .ok (str "CONN" ++ [0, 0, 18, 159, 73, 131] ++ [65]) ∧
      (str "CONN" ++ [0, 0, 18, 159, 73, 131] ++ [65]).length = 11 ∧
      ParseControlPacket (str "CONN" ++ [0, 0, 18, 159, 73, 131] ++ [65]) =
        .ok ⟨.CtrlCONN, TrimSpace (ToUpper id (str "KC1ABC")), 65⟩ :=
  BuildCONN_roundtrip id (str "KC1ABC") [0, 0, 18, 159, 73, 131] 65 rfl (by decide)

theorem dropWhile_congr_mem (p q : Nat → Bool) (l : List Nat) (h : ∀ x ∈ l, p x = q x) :
    l.dropWhile p = l.dropWhile q := by
  induction l with
  | nil => rfl
  | cons a l ih =>
    rw [List.dropWhile_cons, List.dropWhile_cons, h a (List.mem_cons_self _ _),
      ih (fun x hx => h x (List.mem_cons_of_mem _ hx))]

theorem rdropWhile_congr_mem (p q : Nat → Bool) (l : List Nat) (h : ∀ x ∈ l, p x = q x) :
    l.rdropWhile p = l.rdropWhile q := by
  unfold List.rdropWhile
  rw [dropWhile_congr_mem p q l.reverse (fun x hx => h x (List.mem_reverse.1 hx))]

/-- On a string of characters of the alphabet, `TrimSpace` removes the leading and the
trailing spaces. -/
theorem TrimSpace_alphabet (u : List Nat) (hu : ∀ x ∈ u, InAlphabet x) :
    TrimSpace u = (u.rdropWhile (fun c => c == 32)).dropWhile (fun c => c == 32) := by
  have hpq : ∀ x ∈ u, isSpace x = (fun c => c == 32) x := by
    intro x hx
    have := (inAlphabet_facts (hu x hx)).2.2
    by_cases h32 : x = 32
    · simp [h32, isSpace]
    · have hf : isSpace x = false := by
        cases hs : isSpace x
        · rfl
        · exact absurd (this.1 hs) h32
      simp [hf, h32]
  unfold TrimSpace
  rw [rdropWhile_congr_mem isSpace (fun c => c == 32) u hpq]
  exact dropWhile_congr_mem _ _ _ (fun x hx =>
    hpq x ((List.rdropWhile_prefix _ _).subset hx))

/-- C17 as stated fails: `" a"` is accepted by `EncodeCallsign`; upper-cased and with its
padding (trailing) spaces trimmed off it is still `" A"`, but it decodes to `"A"`. -/
theorem callsign_decode_leading_space :
    EncodeCallsign id (str " a") = .ok [0, 0, 0, 0, 0, 40] ∧
      (ToUpper id (str " a")).rdropWhile (fun c => c == 32) = str " A" ∧
      DecodeCallsign [0, 0, 0, 0, 0, 40] = str "A" ∧
      DecodeCallsign [0, 0, 0, 0, 0, 40] ≠ (ToUpper id (str " a")).rdropWhile (fun c => c == 32) := by
  refine ⟨rfl, by decide, by decide, by decide⟩

/-- C17 (amended): for every string `s` accepted by `EncodeCallsign`,
`DecodeCallsign(EncodeCallsign(s))` is the upper-cased `s` with both its leading and its
trailing spaces trimmed off. -/
theorem callsign_decode_encode (mapUpper : List Nat → List Nat) (s bs : List Nat)
    (h : EncodeCallsign mapUpper s = .ok bs) :
    DecodeCallsign bs = TrimSpace (ToUpper mapUpper s) ∧
      TrimSpace (ToUpper mapUpper s) =
        ((ToUpper mapUpper s).rdropWhile (fun c => c == 32)).dropWhile (fun c => c == 32) := by
  exact ⟨DecodeCallsign_EncodeCallsign mapUpper s bs h,
    TrimSpace_alphabet _ (EncodeCallsign_inv mapUpper s bs h).2.1⟩

/-- The amended C17 at the string `" w1aw "`. -/
theorem callsign_decode_encode_witness :
    DecodeCallsign [0, 0, 3, 132, 28, 152] = TrimSpace (ToUpper id (str " w1aw ")) ∧
      TrimSpace (ToUpper id (str " w1aw ")) =
        ((ToUpper id (str " w1aw ")).rdropWhile (fun c => c == 32)).dropWhile
          (fun c => c == 32) :=
  callsign_decode_encode id (str " w1aw ") [0, 0, 3, 132, 28, 152] rfl

theorem validChar_iff (c : Nat) : validChar c = true ↔ InAlphabet c := by
  unfold validChar InAlphabet
  split_ifs <;> simp <;> omega

theorem validateLoop_ok_iff (l : List Nat) :
    validateLoop l = .ok () ↔ ∀ x ∈ l, InAlphabet x := by
  induction l with
  | nil => simp [validateLoop]
  | cons c l ih =>
    rw [validateLoop, List.forall_mem_cons, ← validChar_iff]
    by_cases hc : validChar c = true
    · simp [hc, ih]
    · simp [hc]

/-- What `ValidateCallsign` accepts and returns. -/
theorem ValidateCallsign_ok_iff (mapUpper : List Nat → List Nat) (s r : List Nat) :
    ValidateCallsign mapUpper s = .ok r ↔
      (ToUpper mapUpper s).length ≤ 9 ∧ (∀ x ∈ ToUpper mapUpper s, InAlphabet x) ∧
        r = ToUpper mapUpper s := by
  unfold ValidateCallsign
  by_cases hlen : (ToUpper mapUpper s).length > 9
  · simp [hlen]
  · simp only [hlen, if_false]
    cases hv : validateLoop (ToUpper mapUpper s) with
    | error e =>
      have hno : ¬ ∀ x ∈ ToUpper mapUpper s, InAlphabet x := by
        rw [← validateLoop_ok_iff, hv]
        simp
      simp [hno]
    | ok u =>
      have hall := (validateLoop_ok_iff _).1 hv
      simp only [Except.ok.injEq]
      constructor
      · intro h
        exact ⟨by omega, hall, h.symm⟩
      · intro h
        exact h.2.2.symm

/-- C18 as stated fails: `ValidateCallsign` accepts the empty string, which is not a
callsign of the data model. -/
theorem ValidateCallsign_accepts_empty :
    ValidateCallsign id [] = .ok [] ∧ ¬ ValidCallsign (ToUpper id []) := by
  refine ⟨rfl, by decide⟩

/-- C18 (amended): `ValidateCallsign(s)` succeeds iff the upper-cased `s` has at most 9
characters, the empty string included, all of them in the alphabet; on success it returns
the upper-cased `s` without padding, and every string it accepts is also accepted by
`EncodeCallsign`. -/
theorem ValidateCallsign_spec (mapUpper : List Nat → List Nat) (s : List Nat) :
    ((∃ r, ValidateCallsign mapUpper s = .ok r) ↔
        (ToUpper mapUpper s).length ≤ 9 ∧ ∀ x ∈ ToUpper mapUpper s, InAlphabet x) ∧
      (∀ r, ValidateCallsign mapUpper s = .ok r →
        r = ToUpper mapUpper s ∧ ∃ bs, EncodeCallsign mapUpper s = .ok bs) := by
  constructor
  · constructor
    · rintro ⟨r, hr⟩
      obtain ⟨h1, h2, _⟩ := (ValidateCallsign_ok_iff mapUpper s r).1 hr
      exact ⟨h1, h2⟩
    · rintro ⟨h1, h2⟩
      exact ⟨_, (ValidateCallsign_ok_iff mapUpper s _).2 ⟨h1, h2, rfl⟩⟩
  · intro r hr
    obtain ⟨h1, h2, h3⟩ := (ValidateCallsign_ok_iff mapUpper s r).1 hr
    exact ⟨h3, _, EncodeCallsign_ok mapUpper s h1 h2⟩

/-! ## Link setup frames -/


/-- The 30 bytes `BuildLSF` returns. -/
theorem BuildLSF_eq (mapUpper : List Nat → List Nat) (dst src meta dstEnc srcEnc : List Nat)
    (hd : EncodeCallsign mapUpper dst = .ok dstEnc)
    (hs : EncodeCallsign mapUpper src = .ok srcEnc) (hm : meta.length = 14) :
    BuildLSF mapUpper dst src meta =
      .ok (dstEnc ++ srcEnc ++ [0, 5] ++ meta ++
        [CRC16 (dstEnc ++ srcEnc ++ [0, 5] ++ meta) / 256 % 256,
          CRC16 (dstEnc ++ srcEnc ++ [0, 5] ++ meta) % 256]) := by
  have hd6 := (EncodeCallsign_inv mapUpper dst dstEnc hd).2.2.2.1
  have hs6 := (EncodeCallsign_inv mapUpper src srcEnc hs).2.2.2.1
  unfold BuildLSF
  simp only [hd, hs]
  have e1 : copyAt (List.replicate 30 0) 0 6 dstEnc = dstEnc ++ List.replicate 24 0 := by
    have := copyAt_exact [] (List.replicate 6 0) (List.replicate 24 0) dstEnc 0 6 rfl
      (by simp [hd6]) (by omega)
    simpa using this
  have e2 : copyAt (dstEnc ++ List.replicate 24 0) 6 12 srcEnc =
      dstEnc ++ srcEnc ++ List.replicate 18 0 := by
    have := copyAt_exact dstEnc (List.replicate 6 0) (List.replicate 18 0) srcEnc 6 12 hd6
      (by simp [hs6]) (by omega)
    simpa [List.append_assoc] using this
  have e3 : putUint16 (dstEnc ++ srcEnc ++ List.replicate 18 0) 12 0x0005 =
      dstEnc ++ srcEnc ++ [0, 5] ++ List.replicate 16 0 := by
    have := copyAt_exact (dstEnc ++ srcEnc) (List.replicate 2 0) (List.replicate 16 0)
      [0x0005 / 256 % 256, 0x0005 % 256] 12 14 (by simp [hd6, hs6]) rfl rfl
    simpa [putUint16, List.append_assoc] using this
  have e4 : copyAt (dstEnc ++ srcEnc ++ [0, 5] ++ List.replicate 16 0) 14 28 meta =
      dstEnc ++ srcEnc ++ [0, 5] ++ meta ++ List.replicate 2 0 := by
    have := copyAt_exact (dstEnc ++ srcEnc ++ [0, 5]) (List.replicate 14 0)
      (List.replicate 2 0) meta 14 28 (by simp [hd6, hs6]) (by simp [hm]) (by omega)
    simpa [List.append_assoc] using this
  have e5 : slice (dstEnc ++ srcEnc ++ [0, 5] ++ meta ++ List.replicate 2 0) 0 28 =
      dstEnc ++ srcEnc ++ [0, 5] ++ meta := by
    rw [slice_zero, List.take_left']
    simp [hd6, hs6, hm]
  have e6 : ∀ crc, putUint16 (dstEnc ++ srcEnc ++ [0, 5] ++ meta ++ List.replicate 2 0) 28 crc =
      dstEnc ++ srcEnc ++ [0, 5] ++ meta ++ [crc / 256 % 256, crc % 256] := by
    intro crc
    have := copyAt_exact (dstEnc ++ srcEnc ++ [0, 5] ++ meta) (List.replicate 2 0) []
      [crc / 256 % 256, crc % 256] 28 30 (by simp [hd6, hs6, hm]) rfl rfl
    simpa [putUint16, List.append_assoc] using this
  simp only [e1, e2, e3, e4, e5, e6]

/-- The fields `ParseLSF` reads from the 28 bytes of an LSD built from two encoded
callsigns, the type and the meta bytes. -/
theorem parseLSFFields_eq (mapUpper : List Nat → List Nat)
    (dst src meta dstEnc srcEnc : List Nat) (typ : Nat)
    (hd : EncodeCallsign mapUpper dst = .ok dstEnc)
    (hs : EncodeCallsign mapUpper src = .ok srcEnc) (hm : meta.length = 14)
    (ht : typ < 65536) :
    parseLSFFields (dstEnc ++ srcEnc ++ [typ / 256 % 256, typ % 256] ++ meta) =
      { Destination := TrimSpace (ToUpper mapUpper dst)
        Source := TrimSpace (ToUpper mapUpper src)
        Typ := typ
        Meta := meta } := by
  have hd6 := (EncodeCallsign_inv mapUpper dst dstEnc hd).2.2.2.1
  have hs6 := (EncodeCallsign_inv mapUpper src srcEnc hs).2.2.2.1
  have s1 : slice (dstEnc ++ srcEnc ++ [typ / 256 % 256, typ % 256] ++ meta) 0 6 = dstEnc := by
    have := slice_append_mid [] dstEnc (srcEnc ++ [typ / 256 % 256, typ % 256] ++ meta) 0 6 rfl
      (by rw [hd6])
    simpa [List.append_assoc] using this
  have s2 : slice (dstEnc ++ srcEnc ++ [typ / 256 % 256, typ % 256] ++ meta) 6 12 = srcEnc := by
    have := slice_append_mid dstEnc srcEnc ([typ / 256 % 256, typ % 256] ++ meta) 6 12 hd6
      (by rw [hs6])
    simpa [List.append_assoc] using this
  have s3 : slice (dstEnc ++ srcEnc ++ [typ / 256 % 256, typ % 256] ++ meta) 12 14 =
      [typ / 256 % 256, typ % 256] :=
    slice_append_mid (dstEnc ++ srcEnc) [typ / 256 % 256, typ % 256] meta 12 14
      (by simp [hd6, hs6]) rfl
  have s4 : slice (dstEnc ++ srcEnc ++ [typ / 256 % 256, typ % 256] ++ meta) 14 28 = meta := by
    have := slice_append_mid (dstEnc ++ srcEnc ++ [typ / 256 % 256, typ % 256]) meta [] 14 28
      (by simp [hd6, hs6]) (by rw [hm])
    simpa using this
  unfold parseLSFFields
  simp only [s1, s2, s3, s4, copyAt_full _ _ _ hd6, copyAt_full _ _ _ hs6,
    copyAt_full _ _ _ hm, beUint16_pair typ ht,
    DecodeCallsign_EncodeCallsign mapUpper dst dstEnc hd,
    DecodeCallsign_EncodeCallsign mapUpper src srcEnc hs]

/-- Parsing what `BuildLSF` returns, as 30 bytes and as the 28 bytes of the LSD. -/
theorem ParseLSF_BuildLSF (mapUpper : List Nat → List Nat)
    (dst src meta dstEnc srcEnc : List Nat)
    (hd : EncodeCallsign mapUpper dst = .ok dstEnc)
    (hs : EncodeCallsign mapUpper src = .ok srcEnc) (hm : meta.length = 14) :
    ∃ lsf, BuildLSF mapUpper dst src meta = .ok lsf ∧ lsf.length = 30 ∧
      LSFToLSD lsf = dstEnc ++ srcEnc ++ [0, 5] ++ meta ∧
      ParseLSF lsf = .ok {
        Destination := TrimSpace (ToUpper mapUpper dst)
        Source := TrimSpace (ToUpper mapUpper src)
        Typ := 0x0005
        Meta := meta } ∧
      ParseLSF (LSFToLSD lsf) = .ok {
        Destination := TrimSpace (ToUpper mapUpper dst)
        Source := TrimSpace (ToUpper mapUpper src)
        Typ := 0x0005
        Meta := meta } := by
  have hd6 := (EncodeCallsign_inv mapUpper dst dstEnc hd).2.2.2.1
  have hs6 := (EncodeCallsign_inv mapUpper src srcEnc hs).2.2.2.1
  have hbody : (dstEnc ++ srcEnc ++ [0, 5] ++ meta).length = 28 := by simp [hd6, hs6, hm]
  have hfields := parseLSFFields_eq mapUpper dst src meta dstEnc srcEnc 0x0005 hd hs hm
    (by norm_num)
  have h05 : [0x0005 / 256 % 256, 0x0005 % 256] = [0, 5] := rfl
  rw [h05] at hfields
  have hcrc := CRC16_lt (dstEnc ++ srcEnc ++ [0, 5] ++ meta)
  refine ⟨_, BuildLSF_eq mapUpper dst src meta dstEnc srcEnc hd hs hm, ?_, ?_, ?_, ?_⟩
  · rw [List.length_append, hbody]
    rfl
  · unfold LSFToLSD
    rw [slice_zero, List.take_left' hbody, copyAt_full _ _ _ hbody]
  · generalize hc : CRC16 (dstEnc ++ srcEnc ++ [0, 5] ++ meta) = crc at hcrc
    have hlen : (dstEnc ++ srcEnc ++ [0, 5] ++ meta ++ [crc / 256 % 256, crc % 256]).length =
        30 := by
      rw [List.length_append, hbody]
      rfl
    have t1 : slice (dstEnc ++ srcEnc ++ [0, 5] ++ meta ++ [crc / 256 % 256, crc % 256]) 0 28 =
        dstEnc ++ srcEnc ++ [0, 5] ++ meta := by
      rw [slice_zero, List.take_left' hbody]
    have t2 : slice (dstEnc ++ srcEnc ++ [0, 5] ++ meta ++ [crc / 256 % 256, crc % 256]) 28 30 =
        [crc / 256 % 256, crc % 256] := by
      have := slice_append_mid (dstEnc ++ srcEnc ++ [0, 5] ++ meta)
        [crc / 256 % 256, crc % 256] [] 28 30 hbody rfl
      simpa using this
    unfold ParseLSF
    rw [if_neg (by rw [hlen]; omega), if_pos hlen]
    simp only [t1, t2, hc, beUint16_pair crc hcrc, ne_eq, not_true_eq_false, if_false, hfields]
  · unfold LSFToLSD
    rw [slice_zero, List.take_left' hbody, copyAt_full _ _ _ hbody]
    unfold ParseLSF
    rw [if_neg (by rw [hbody]; omega), if_neg (by rw [hbody]; omega), hfields]

/-- C14: for every `dst` and `src` accepted by `EncodeCallsign` and every 14-byte meta,
`ParseLSF` of the 30 bytes of `BuildLSF(dst, src, meta)` succeeds, so its CRC is validated,
with `Destination` and `Source` the upper-cased `dst` and `src` without leading and
trailing spaces, `Type = 0x0005` and `Meta = meta`; `ParseLSF` of the 28-byte LSD prefix
returns the same fields. -/
theorem LSF_roundtrip (mapUpper : List Nat → List Nat) (dst src meta dstEnc srcEnc : List Nat)
    (hd : EncodeCallsign mapUpper dst = .ok dstEnc)
    (hs : EncodeCallsign mapUpper src = .ok srcEnc) (hm : meta.length = 14) :
    ∃ lsf, BuildLSF mapUpper dst src meta = .ok lsf ∧ lsf.length = 30 ∧
      ParseLSF lsf = .ok {
        Destination := TrimSpace (ToUpper mapUpper dst)
        Source := TrimSpace (ToUpper mapUpper src)
        Typ := 0x0005
        Meta := meta } ∧
      (LSFToLSD lsf).length = 28 ∧ LSFToLSD lsf = lsf.take 28 ∧
      ParseLSF (LSFToLSD lsf) = ParseLSF lsf := by
  obtain ⟨lsf, hb, hlen, hlsd, hp30, hp28⟩ :=
    ParseLSF_BuildLSF mapUpper dst src meta dstEnc srcEnc hd hs hm
  have hd6 := (EncodeCallsign_inv mapUpper dst dstEnc hd).2.2.2.1
  have hs6 := (EncodeCallsign_inv mapUpper src srcEnc hs).2.2.2.1
  have hbody : (dstEnc ++ srcEnc ++ [0, 5] ++ meta).length = 28 := by simp [hd6, hs6, hm]
  refine ⟨lsf, hb, hlen, hp30, by rw [hlsd, hbody], ?_, by rw [hp28, hp30]⟩
  rw [BuildLSF_eq mapUpper dst src meta dstEnc srcEnc hd hs hm] at hb
  cases hb
  rw [hlsd, List.take_left' hbody]

/-- C14 at the callsigns `DST` and `SRC` of the handler test, zero meta. -/
theorem LSF_roundtrip_witness :
    ∃ lsf, BuildLSF id (str "DST") (str "SRC") (List.replicate 14 0) = .ok lsf ∧
      lsf.length = 30 ∧
      ParseLSF lsf = .ok {
        Destination := TrimSpace (ToUpper id (str "DST"))
        Source := TrimSpace (ToUpper id (str "SRC"))
        Typ := 0x0005
        Meta := List.replicate 14 0 } ∧
      (LSFToLSD lsf).length = 28 ∧ LSFToLSD lsf = lsf.take 28 ∧
      ParseLSF (LSFToLSD lsf) = ParseLSF lsf :=
  LSF_roundtrip id (str "DST") (str "SRC") (List.replicate 14 0) [0, 0, 0, 0, 127, 252]
    [0, 0, 0, 0, 21, 163] rfl rfl rfl

/-! ## Stream handler: the LSD and the blocks of a transmission -/


/-- What a successful `buildPayload` was made of. -/
theorem buildPayload_inv (env : Env σ ν) (c c1 : σ) (pcm : List Int) (payload : List Nat)
    (h : buildPayload env c pcm = (.ok payload, c1)) :
    payload.length = 16 ∧
      ∃ part1 cm part2, Codec2Encode env.codec c (slice pcm 0 160) = (.ok part1, cm) ∧
        Codec2Encode env.codec cm (pcm.drop 160) = (.ok part2, c1) ∧
        payload = copyAt (copyAt (List.replicate 16 0) 0 8 part1) 8 16 part2 := by
  unfold buildPayload at h
  split at h
  · cases h
  · rename_i part1 cm h1
    split at h
    · cases h
    · rename_i part2 c2 h2
      simp only [Prod.mk.injEq, Except.ok.injEq] at h
      obtain ⟨hp, hc⟩ := h
      subst hp hc
      refine ⟨?_, part1, cm, part2, h1, h2, rfl⟩
      rw [copyAt_length _ _ _ _ (by omega), copyAt_length _ _ _ _ (by omega)]
      · rfl
      · simp
      · rw [copyAt_length _ _ _ _ (by omega)] <;> simp

/-- The handler's LSD survives `emitBlock`, and a block that goes out was built with it. -/
theorem emitBlock_inv (env : Env σ ν) (sh : StreamHandler σ ν) (block : List Int)
    (markLast : Bool) :
    (emitBlock env sh block markLast).2.lsd = sh.lsd ∧
      ∀ s, (emitBlock env sh block markLast).1 = .ok s →
        EmittedBy env sh.lsd s ∧ s.block = block := by
  unfold emitBlock
  split
  · exact ⟨rfl, fun s h => by cases h⟩
  · rename_i payload c hpay
    obtain ⟨pkt, hpkt⟩ : ∃ pkt, BuildStreamPacket sh.streamID sh.lsd sh.frameNum markLast
        payload = .ok pkt := ⟨_, rfl⟩
    simp only [hpkt]
    split
    · exact ⟨rfl, fun s h => by cases h⟩
    · refine ⟨rfl, fun s h => ?_⟩
      simp only [Except.ok.injEq] at h
      subst h
      exact ⟨⟨sh.streamID, sh.codec2Inst, payload, c, hpay, hpkt⟩, rfl⟩

theorem sendLoop_inv (env : Env σ ν) (isLast : Bool) (lsd : List Nat) (fuel : Nat) :
    ∀ (sh : StreamHandler σ ν) (sent0 : List Sent), sh.lsd = lsd →
      (∀ s ∈ sent0, EmittedBy env lsd s ∧ s.block.length = 320) →
      (sendLoop env isLast fuel sh sent0).sh.lsd = lsd ∧
        ∀ s ∈ (sendLoop env isLast fuel sh sent0).sent,
          EmittedBy env lsd s ∧ s.block.length = 320 := by
  induction fuel with
  | zero => intro sh sent0 hl h0; exact ⟨hl, h0⟩
  | succ fuel ih =>
    intro sh sent0 hl h0
    rw [sendLoop]
    by_cases hL : sh.pcmBuffer.length ≥ 320
    · rw [if_pos hL]
      dsimp only
      obtain ⟨e1, e2⟩ := emitBlock_inv env sh (slice sh.pcmBuffer 0 320)
        (isLast && sh.pcmBuffer.length == 320)
      generalize emitBlock env sh (slice sh.pcmBuffer 0 320)
        (isLast && sh.pcmBuffer.length == 320) = r at e1 e2
      obtain ⟨res, sh1⟩ := r
      cases res with
      | error e => exact ⟨e1.trans hl, h0⟩
      | ok s =>
        simp only
        apply ih
        · exact e1.trans hl
        · intro t ht
          rcases List.mem_append.1 ht with ht | ht
          · exact h0 t ht
          · rw [List.mem_singleton] at ht
            subst ht
            obtain ⟨a, b⟩ := e2 t rfl
            rw [hl] at a
            exact ⟨a, by rw [b]; exact slice_length _ 0 320 hL⟩
    · rw [if_neg hL]
      exact ⟨hl, h0⟩

/-- The handler's LSD survives `SendPCMFrame`, and every packet it writes was built with
this LSD from a block of 320 samples. -/
theorem SendPCMFrame_inv (env : Env σ ν) (sh : StreamHandler σ ν) (pcm : List Int)
    (isLast : Bool) :
    (SendPCMFrame env sh pcm isLast).sh.lsd = sh.lsd ∧
      ∀ s ∈ (SendPCMFrame env sh pcm isLast).sent,
        EmittedBy env sh.lsd s ∧ s.block.length = 320 := by
  obtain ⟨l1, l2⟩ := sendLoop_inv env isLast sh.lsd (sh.pcmBuffer ++ pcm).length
    { sh with pcmBuffer := sh.pcmBuffer ++ pcm } [] rfl (by intro s hs; cases hs)
  unfold SendPCMFrame
  simp only
  generalize sendLoop env isLast (sh.pcmBuffer ++ pcm).length
    { sh with pcmBuffer := sh.pcmBuffer ++ pcm } [] = r at l1 l2
  obtain ⟨err, sh1, sent⟩ := r
  simp only at l1 l2
  cases err with
  | some e => exact ⟨l1, l2⟩
  | none =>
    simp only
    split_ifs with hcond
    · obtain ⟨e1, e2⟩ := emitBlock_inv env sh1
        (copyAt (List.replicate 320 0) 0 320 sh1.pcmBuffer) true
      generalize emitBlock env sh1 (copyAt (List.replicate 320 0) 0 320 sh1.pcmBuffer) true = q
        at e1 e2
      obtain ⟨res, sh2⟩ := q
      cases res with
      | error e => exact ⟨e1.trans l1, l2⟩
      | ok s =>
        refine ⟨e1.trans l1, ?_⟩
        intro t ht
        rcases List.mem_append.1 ht with ht | ht
        · exact l2 t ht
        · rw [List.mem_singleton] at ht
          subst ht
          obtain ⟨a, b⟩ := e2 t rfl
          rw [l1] at a
          refine ⟨a, ?_⟩
          rw [b, copyAt_length _ _ _ _ (Nat.zero_le _) (by rw [List.length_replicate]),
            List.length_replicate]
    · exact ⟨l1, l2⟩

theorem runCalls_inv (env : Env σ ν) (lsd : List Nat) (calls : List HandlerCall) :
    ∀ (sh : StreamHandler σ ν) (sent0 : List Sent), sh.lsd = lsd →
      (∀ s ∈ sent0, EmittedBy env lsd s ∧ s.block.length = 320) →
      (runCalls env sh calls sent0).1.lsd = lsd ∧
        ∀ s ∈ (runCalls env sh calls sent0).2, EmittedBy env lsd s ∧ s.block.length = 320 := by
  induction calls with
  | nil => intro sh sent0 hl h0; exact ⟨hl, h0⟩
  | cons call rest ih =>
    intro sh sent0 hl h0
    cases call with
    | StartNewStream rnd =>
      rw [runCalls]
      apply ih _ _ _ h0
      unfold StartNewStream
      cases rnd <;> exact hl
    | SendPCMFrame pcm isLast =>
      rw [runCalls]
      obtain ⟨a, b⟩ := SendPCMFrame_inv env sh pcm isLast
      apply ih
      · exact a.trans hl
      · intro t ht
        rcases List.mem_append.1 ht with ht | ht
        · exact h0 t ht
        · rw [← hl]; exact b t ht
    | Finalize =>
      rw [runCalls]
      obtain ⟨a, b⟩ := SendPCMFrame_inv env sh [] true
      apply ih
      · exact a.trans hl
      · intro t ht
        rcases List.mem_append.1 ht with ht | ht
        · exact h0 t ht
        · rw [← hl]; exact b t ht

/-- The bytes of a packet built with a 28-byte LSD: 54 of them, the LSD at offset 6 and
the payload at offset 36. -/
theorem EmittedBy_layout (env : Env σ ν) (lsd : List Nat) (s : Sent) (hl : lsd.length = 28)
    (h : EmittedBy env lsd s) :
    s.pkt.length = 54 ∧ slice s.pkt 6 34 = lsd ∧
      ∃ c payload c1, buildPayload env c s.block = (.ok payload, c1) ∧
        slice s.pkt 36 52 = payload := by
  obtain ⟨sid, c, payload, c1, hpay, hpkt⟩ := h
  have hp16 := (buildPayload_inv env c c1 s.block payload hpay).1
  rw [BuildStreamPacket_eq sid lsd s.frameNum s.builtLast payload hl hp16] at hpkt
  simp only [Except.ok.injEq] at hpkt
  generalize (if s.builtLast = true then s.frameNum ||| 0x8000 else s.frameNum) = fn at hpkt
  generalize CRC16 (streamMagic ++ [sid / 256 % 256, sid % 256] ++ lsd ++
    [fn / 256 % 256, fn % 256] ++ payload) = crc at hpkt
  rw [← hpkt]
  refine ⟨by simp [hl, hp16, streamMagic], ?_, c, payload, c1, hpay, ?_⟩
  · have := slice_append_mid (streamMagic ++ [sid / 256 % 256, sid % 256]) lsd
      ([fn / 256 % 256, fn % 256] ++ payload ++ [crc / 256 % 256, crc % 256]) 6 34 rfl
      (by rw [hl])
    simpa [List.append_assoc] using this
  · exact slice_append_mid (streamMagic ++ [sid / 256 % 256, sid % 256] ++ lsd ++
      [fn / 256 % 256, fn % 256]) payload [crc / 256 % 256, crc % 256] 36 52
      (by simp [hl, streamMagic]) (by rw [hp16])

/-- What a successful `NewStreamHandler` returns. -/
theorem NewStreamHandler_inv (mapUpper : List Nat → List Nat) (conn : ν)
    (newCodec : Option σ) (rnd : Option Nat) (src dst : List Nat) (sh : StreamHandler σ ν)
    (h : NewStreamHandler mapUpper conn newCodec rnd src dst = .ok sh) :
    ∃ dEnc sEnc,
      EncodeCallsign mapUpper (if dst.length > 9 ∨ 58 ∈ dst then src else dst) = .ok dEnc ∧
      EncodeCallsign mapUpper src = .ok sEnc ∧
      sh.lsd = dEnc ++ sEnc ++ [0x00, 0x05] ++ List.replicate 14 0 ∧ sh.lsd.length = 28 ∧
      sh.streamID < 65536 ∧ sh.frameNum = 0 ∧ sh.pcmBuffer = [] := by
  unfold NewStreamHandler at h
  simp only at h
  generalize (if dst.length > 9 ∨ 58 ∈ dst then src else dst) = d at h ⊢
  cases hd : EncodeCallsign mapUpper d with
  | error e =>
    simp only [BuildLSF, hd] at h
    cases h
  | ok dEnc =>
    cases hs : EncodeCallsign mapUpper src with
    | error e =>
      simp only [BuildLSF, hd, hs] at h
      cases h
    | ok sEnc =>
      obtain ⟨lsf, hb, _, hlsd, _, _⟩ := ParseLSF_BuildLSF mapUpper d src (List.replicate 14 0)
        dEnc sEnc hd hs (List.length_replicate _ _)
      rw [hb] at h
      simp only at h
      cases newCodec with
      | none => cases h
      | some c2 =>
        cases rnd with
        | none => cases h
        | some sid =>
          simp only [Except.ok.injEq] at h
          subst h
          have hd6 := (EncodeCallsign_inv mapUpper d dEnc hd).2.2.2.1
          have hs6 := (EncodeCallsign_inv mapUpper src sEnc hs).2.2.2.1
          refine ⟨dEnc, sEnc, rfl, rfl, hlsd, ?_, Nat.mod_lt _ (by norm_num), rfl, rfl⟩
          simp only [hlsd]
          simp [hd6, hs6]

/-- C15: when `NewStreamHandler(conn, addr, src, dst)` succeeds, the handler's fixed
28-byte LSD is `EncodeCallsign(d) ++ EncodeCallsign(src) ++ 0x00 0x05 ++ 14 zero bytes`,
where `d = src` when `dst` is longer than 9 bytes or contains `':'` and `d = dst`
otherwise; and after any sequence of `StartNewStream`, `SendPCMFrame` and `Finalize`
calls, every packet written has 54 bytes and carries exactly this LSD at offset 6. -/
theorem NewStreamHandler_lsd (mapUpper : List Nat → List Nat) (env : Env σ ν) (conn : ν)
    (newCodec : Option σ) (rnd : Option Nat) (src dst : List Nat) (sh : StreamHandler σ ν)
    (h : NewStreamHandler mapUpper conn newCodec rnd src dst = .ok sh) :
    ∃ dEnc sEnc,
      EncodeCallsign mapUpper (if dst.length > 9 ∨ 58 ∈ dst then src else dst) = .ok dEnc ∧
      EncodeCallsign mapUpper src = .ok sEnc ∧
      sh.lsd = dEnc ++ sEnc ++ [0x00, 0x05] ++ List.replicate 14 0 ∧ sh.lsd.length = 28 ∧
      ∀ calls, (runCalls env sh calls []).1.lsd = sh.lsd ∧
        ∀ s ∈ (runCalls env sh calls []).2, s.pkt.length = 54 ∧ slice s.pkt 6 34 = sh.lsd := by
  obtain ⟨dEnc, sEnc, hd, hs, hlsd, hlen, _, _, _⟩ :=
    NewStreamHandler_inv mapUpper conn newCodec rnd src dst sh h
  refine ⟨dEnc, sEnc, hd, hs, hlsd, hlen, fun calls => ?_⟩
  obtain ⟨a, b⟩ := runCalls_inv env sh.lsd calls sh [] rfl (by intro s hs; cases hs)
  refine ⟨a, fun s hs => ?_⟩
  obtain ⟨l1, l2, _⟩ := EmittedBy_layout env sh.lsd s hlen (b s hs).1
  exact ⟨l1, l2⟩

/-- C15 at the handler of the unit test: source `SRC`, destination `DST`. -/
theorem NewStreamHandler_lsd_witness :
    ∃ dEnc sEnc,
      EncodeCallsign id (if (str "DST").length > 9 ∨ 58 ∈ str "DST" then str "SRC"
        else str "DST") = .ok dEnc ∧
      EncodeCallsign id (str "SRC") = .ok sEnc ∧
      (freshHandler 7 ([0, 0, 0, 0, 127, 252, 0, 0, 0, 0, 21, 163, 0, 5] ++
        List.replicate 14 0)).lsd = dEnc ++ sEnc ++ [0x00, 0x05] ++ List.replicate 14 0 ∧
      (freshHandler 7 ([0, 0, 0, 0, 127, 252, 0, 0, 0, 0, 21, 163, 0, 5] ++
        List.replicate 14 0)).lsd.length = 28 ∧
      ∀ calls, (runCalls recordingEnv (freshHandler 7 ([0, 0, 0, 0, 127, 252, 0, 0, 0, 0, 21,
          163, 0, 5] ++ List.replicate 14 0)) calls []).1.lsd =
          (freshHandler 7 ([0, 0, 0, 0, 127, 252, 0, 0, 0, 0, 21, 163, 0, 5] ++
            List.replicate 14 0)).lsd ∧
        ∀ s ∈ (runCalls recordingEnv (freshHandler 7 ([0, 0, 0, 0, 127, 252, 0, 0, 0, 0, 21,
          163, 0, 5] ++ List.replicate 14 0)) calls []).2,
          s.pkt.length = 54 ∧ slice s.pkt 6 34 =
            (freshHandler 7 ([0, 0, 0, 0, 127, 252, 0, 0, 0, 0, 21, 163, 0, 5] ++
              List.replicate 14 0)).lsd :=
  NewStreamHandler_lsd id recordingEnv [] (some ()) (some 7) (str "SRC") (str "DST")
    (freshHandler 7 ([0, 0, 0, 0, 127, 252, 0, 0, 0, 0, 21, 163, 0, 5] ++
      List.replicate 14 0)) rfl


theorem join_blocks_of_slices (new : List Sent) :
    ∀ (buf : List Int),
      (∀ i s, new[i]? = some s → s.block = slice buf (320 * i) (320 * i + 320)) →
      320 * new.length ≤ buf.length →
      (new.map (fun s => s.block)).flatten = buf.take (320 * new.length) := by
  induction new with
  | nil => intro buf _ _; simp
  | cons s rest ih =>
    intro buf hall hlen
    rw [List.length_cons] at hlen
    have h0 : s.block = buf.take 320 := by
      rw [hall 0 s (by simp), Nat.mul_zero, Nat.zero_add, slice_zero]
    have hrest := ih (buf.drop 320)
      (fun i t ht => by
        rw [slice_drop_block]
        exact hall (i + 1) t (by rw [List.getElem?_cons_succ]; exact ht))
      (by rw [List.length_drop]; omega)
    rw [List.map_cons, List.flatten_cons, hrest, h0, List.length_cons,
      show 320 * (rest.length + 1) = 320 + 320 * rest.length by ring, List.take_add]

theorem copyAt_pad (z : α) (src : List α) (n : Nat) (h : src.length ≤ n) :
    copyAt (List.replicate n z) 0 n src = src ++ List.replicate (n - src.length) z := by
  unfold copyAt
  rw [List.take_zero, List.nil_append, Nat.sub_zero, List.take_of_length_le h, Nat.zero_add,
    List.drop_replicate]

theorem join_padded_blocks (new : List Sent) :
    ∀ (buf : List Int), new.length = (buf.length + 319) / 320 →
      (∀ i s, new[i]? = some s →
        s.block = copyAt (List.replicate 320 0) 0 320 (slice buf (320 * i) (320 * i + 320))) →
      (new.map (fun s => s.block)).flatten =
        buf ++ List.replicate (320 * new.length - buf.length) 0 := by
  induction new with
  | nil =>
    intro buf hlen _
    have : buf.length = 0 := by simp at hlen; omega
    rw [List.length_eq_zero.1 this]
    rfl
  | cons s rest ih =>
    intro buf hlen hall
    rw [List.length_cons] at hlen
    have h0 := hall 0 s (by simp)
    rw [Nat.mul_zero, Nat.zero_add, slice_zero] at h0
    by_cases hL : 320 ≤ buf.length
    · have hrest := ih (buf.drop 320) (by rw [List.length_drop]; omega)
        (fun i t ht => by
          rw [slice_drop_block]
          exact hall (i + 1) t (by rw [List.getElem?_cons_succ]; exact ht))
      rw [copyAt_full _ _ _ (by rw [List.length_take]; omega)] at h0
      have hc : 320 * (rest.length + 1) - buf.length = 320 * rest.length - (buf.length - 320) := by
        omega
      rw [List.map_cons, List.flatten_cons, hrest, h0, ← List.append_assoc, List.take_append_drop,
        List.length_drop, List.length_cons, hc]
    · have hr : rest = [] := List.length_eq_zero.1 (by omega)
      subst hr
      rw [List.take_of_length_le (by omega), copyAt_pad _ _ _ (by omega)] at h0
      simp [h0]

/-- The audio frames of a key-down in surroundings where sending cannot fail: the blocks
written, followed by what is still staged, are the samples staged before followed by the
samples of the frames. -/
theorem sendFrames_blocks (env : Env σ ν) (henv : EnvOK env) (frames : List (List Int)) :
    ∀ (sh : StreamHandler σ ν) (sent0 : List Sent), sh.frameNum < 65536 →
      ∃ new sh1, sendFrames env sh frames sent0 = (sh1, sent0 ++ new) ∧
        (new.map (fun s => s.block)).flatten ++ sh1.pcmBuffer = sh.pcmBuffer ++ frames.flatten ∧
        sh1.frameNum < 65536 ∧ sh1.lsd = sh.lsd := by
  induction frames with
  | nil =>
    intro sh sent0 hfn
    exact ⟨[], sh, by simp [sendFrames], by simp, hfn, rfl⟩
  | cons pcm rest ih =>
    intro sh sent0 hfn
    obtain ⟨new1, sh1, hsend, hn1, h1b, h1f, _, h1l, _, hall1⟩ :=
      SendPCMFrame_false env henv sh pcm hfn
    have hj := join_blocks_of_slices new1 (sh.pcmBuffer ++ pcm)
      (fun i s hs => (hall1 i s hs).2.2.1)
      (by rw [hn1]; exact Nat.mul_div_le _ _)
    obtain ⟨new2, sh2, hrest, hj2, h2f, h2l⟩ := ih sh1 (sent0 ++ new1)
      (by rw [h1f]; exact Nat.mod_lt _ (by norm_num))
    refine ⟨new1 ++ new2, sh2, ?_, ?_, h2f, h2l.trans h1l⟩
    · rw [sendFrames]
      simp only [hsend]
      rw [hrest, List.append_assoc]
    · rw [List.map_append, List.flatten_append, List.append_assoc, hj2, h1b, ← List.append_assoc,
        hj, hn1, List.take_append_drop, List.flatten_cons, List.append_assoc]

theorem sendFrames_eq_runCalls (env : Env σ ν) (frames : List (List Int)) :
    ∀ (sh : StreamHandler σ ν) (sent0 : List Sent),
      sendFrames env sh frames sent0 =
        runCalls env sh (frames.map (fun pcm => HandlerCall.SendPCMFrame pcm false)) sent0 := by
  induction frames with
  | nil => intro sh sent0; rfl
  | cons pcm rest ih =>
    intro sh sent0
    rw [sendFrames, List.map_cons, runCalls]
    exact ih _ _

theorem Codec2Encode_length (lib : Codec2Lib σ) (c c1 : σ) (pcm : List Int) (p : List Nat)
    (h : Codec2Encode lib c pcm = (.ok p, c1)) : p.length = lib.bits_per_frame c / 8 := by
  unfold Codec2Encode at h
  dsimp only at h
  split_ifs at h
  · simp at h
  simp only [Prod.mk.injEq, Except.ok.injEq] at h
  rw [← h.1, copyAt_length _ _ _ _ (Nat.zero_le _) (by rw [List.length_replicate]),
    List.length_replicate]

/-- The payload of a packet built from a block of 320 samples by a codec with 64 bits per
frame: the encoding of the first 160 samples followed by the encoding of the last 160. -/
theorem EmittedBy_payload (env : Env σ ν) (hbits : ∀ c, env.codec.bits_per_frame c = 64)
    (lsd : List Nat) (hl : lsd.length = 28) (s : Sent) (h : EmittedBy env lsd s)
    (hb : s.block.length = 320) :
    ∃ c part1 cm part2 c2, Codec2Encode env.codec c (slice s.block 0 160) = (.ok part1, cm) ∧
      Codec2Encode env.codec cm (slice s.block 160 320) = (.ok part2, c2) ∧
      slice s.pkt 36 52 = part1 ++ part2 := by
  obtain ⟨_, _, c, payload, c2, hp, hs⟩ := EmittedBy_layout env lsd s hl h
  obtain ⟨_, part1, cm, part2, e1, e2, hpay⟩ := buildPayload_inv env c c2 s.block payload hp
  have l1 : part1.length = 8 := by rw [Codec2Encode_length _ _ _ _ _ e1, hbits]
  have l2 : part2.length = 8 := by rw [Codec2Encode_length _ _ _ _ _ e2, hbits]
  have hd : s.block.drop 160 = slice s.block 160 320 := by
    unfold slice
    rw [List.take_of_length_le (by rw [List.length_drop]; omega)]
  refine ⟨c, part1, cm, part2, c2, e1, hd ▸ e2, ?_⟩
  rw [hs, hpay]
  have a := copyAt_exact [] (List.replicate 8 0) (List.replicate 8 0) part1 0 8 rfl
    (by rw [List.length_replicate, l1]) (by omega)
  have hz : List.replicate 16 (0 : Nat) = [] ++ List.replicate 8 0 ++ List.replicate 8 0 := by
    decide
  rw [hz, a]
  have b := copyAt_exact ([] ++ part1) (List.replicate 8 0) [] part2 8 16 (by simpa using l1)
    (by rw [List.length_replicate, l2]) (by omega)
  rw [List.append_nil] at b
  rw [b]
  simp

theorem flatten_blocks_length (new : List Sent) (h : ∀ s ∈ new, s.block.length = 320) :
    ((new.map (fun s => s.block)).flatten).length = 320 * new.length := by
  induction new with
  | nil => rfl
  | cons s rest ih =>
    rw [List.map_cons, List.flatten_cons, List.length_append, h s (List.mem_cons_self _ _),
      ih (fun t ht => h t (List.mem_cons_of_mem _ ht)), List.length_cons]
    ring

/-- A transmission: frames sent with `isLast = false`, then one with `isLast = true`. -/
theorem transmission_blocks (env : Env σ ν) (henv : EnvOK env)
    (hbits : ∀ c, env.codec.bits_per_frame c = 64) (sh : StreamHandler σ ν)
    (hbuf : sh.pcmBuffer = []) (hfn : sh.frameNum < 65536) (hlsd : sh.lsd.length = 28)
    (frames : List (List Int)) (last : List Int) :
    (SendPCMFrame env (sendFrames env sh frames []).1 last true).err = none ∧
    (((sendFrames env sh frames []).2 ++
        (SendPCMFrame env (sendFrames env sh frames []).1 last true).sent).map
          (fun s => s.block)).flatten =
      frames.flatten ++ last ++
        List.replicate ((320 - (frames.flatten ++ last).length % 320) % 320) 0 ∧
    ∀ s ∈ (sendFrames env sh frames []).2 ++
        (SendPCMFrame env (sendFrames env sh frames []).1 last true).sent,
      s.block.length = 320 ∧
      ∃ c part1 cm part2 c2, Codec2Encode env.codec c (slice s.block 0 160) = (.ok part1, cm) ∧
        Codec2Encode env.codec cm (slice s.block 160 320) = (.ok part2, c2) ∧
        slice s.pkt 36 52 = part1 ++ part2 := by
  obtain ⟨new, sh1, hsend, hj, h1f, h1l⟩ := sendFrames_blocks env henv frames sh [] hfn
  obtain ⟨fin, sh2, hfin, hn, _, _, _, _, _, hall⟩ := SendPCMFrame_true env henv sh1 last h1f
  have hjf := join_padded_blocks fin (sh1.pcmBuffer ++ last) hn (fun i s hs => (hall i s hs).2.2.1)
  have hinv := runCalls_inv env sh.lsd
    (frames.map (fun pcm => HandlerCall.SendPCMFrame pcm false)) sh [] rfl (by simp)
  rw [← sendFrames_eq_runCalls] at hinv
  rw [hsend] at hinv ⊢
  rw [List.nil_append] at hinv ⊢
  dsimp only at hinv ⊢
  rw [hfin]
  dsimp only
  refine ⟨rfl, ?_, ?_⟩
  · rw [hbuf, List.nil_append] at hj
    have hX : (new.map (fun s => s.block)).flatten ++ (sh1.pcmBuffer ++ last) =
        frames.flatten ++ last := by
      rw [← List.append_assoc, hj]
    have hk := flatten_blocks_length new (fun s hs => (hinv.2 s hs).2)
    have hN : (frames.flatten ++ last).length = 320 * new.length + (sh1.pcmBuffer ++ last).length := by
      rw [← hX, List.length_append, hk]
    have hcount : 320 * fin.length - (sh1.pcmBuffer ++ last).length =
        (320 - (frames.flatten ++ last).length % 320) % 320 := by
      rw [hN, hn]
      omega
    rw [List.map_append, List.flatten_append, hjf, ← List.append_assoc, hX, hcount]
  · intro s hs
    rcases List.mem_append.1 hs with h | h
    · exact ⟨(hinv.2 s h).2, EmittedBy_payload env hbits sh.lsd hlsd s (hinv.2 s h).1 (hinv.2 s h).2⟩
    · have hi := SendPCMFrame_inv env sh1 last true
      rw [hfin] at hi
      have := hi.2 s h
      rw [h1l] at this
      exact ⟨this.2, EmittedBy_payload env hbits sh.lsd hlsd s this.1 this.2⟩

theorem countingEnv_ok : EnvOK countingEnv :=
  ⟨fun _ => rfl, fun _ _ => by simp [countingEnv]⟩

theorem EncodedInOrder_append (lib : Codec2Lib σ) (a : List Sent) :
    ∀ (b : List Sent) (c0 c1 c2 : σ), EncodedInOrder lib c0 a c1 →
      EncodedInOrder lib c1 b c2 → EncodedInOrder lib c0 (a ++ b) c2 := by
  induction a with
  | nil =>
    intro b c0 c1 c2 h1 h2
    rw [EncodedInOrder] at h1
    subst h1
    exact h2
  | cons s rest ih =>
    intro b c0 c1 c2 h1 h2
    rw [EncodedInOrder] at h1
    obtain ⟨p1, cm, p2, c3, e1, e2, e3, hr⟩ := h1
    rw [List.cons_append, EncodedInOrder]
    exact ⟨p1, cm, p2, c3, e1, e2, e3, ih b c3 c1 c2 hr h2⟩

/-- The payload of a stream packet lies at offsets 36 to 51. -/
theorem BuildStreamPacket_payload (sid : Nat) (lsd : List Nat) (fn : Nat) (isLast : Bool)
    (payload pkt : List Nat) (hl : lsd.length = 28) (hp : payload.length = 16)
    (h : BuildStreamPacket sid lsd fn isLast payload = .ok pkt) :
    slice pkt 36 52 = payload := by
  rw [BuildStreamPacket_eq sid lsd fn isLast payload hl hp] at h
  simp only [Except.ok.injEq] at h
  generalize (if isLast = true then fn ||| 0x8000 else fn) = fn1 at h
  generalize CRC16 (streamMagic ++ [sid / 256 % 256, sid % 256] ++ lsd ++
    [fn1 / 256 % 256, fn1 % 256] ++ payload) = crc at h
  rw [← h]
  exact slice_append_mid (streamMagic ++ [sid / 256 % 256, sid % 256] ++ lsd ++
    [fn1 / 256 % 256, fn1 % 256]) payload [crc / 256 % 256, crc % 256] 36 52
    (by simp [hl, streamMagic]) (by rw [hp])

/-- The payload `buildPayload` gives for a block of 320 samples with a codec of 64 bits per
frame, and the codec state it leaves. -/
theorem buildPayload_parts (env : Env σ ν) (hbits : ∀ c, env.codec.bits_per_frame c = 64)
    (c c1 : σ) (block : List Int) (payload : List Nat) (hb : block.length = 320)
    (h : buildPayload env c block = (.ok payload, c1)) :
    payload.length = 16 ∧
      ∃ part1 cm part2, Codec2Encode env.codec c (slice block 0 160) = (.ok part1, cm) ∧
        Codec2Encode env.codec cm (slice block 160 320) = (.ok part2, c1) ∧
        payload = part1 ++ part2 := by
  obtain ⟨hp16, part1, cm, part2, e1, e2, hpay⟩ := buildPayload_inv env c c1 block payload h
  have l1 : part1.length = 8 := by rw [Codec2Encode_length _ _ _ _ _ e1, hbits]
  have l2 : part2.length = 8 := by rw [Codec2Encode_length _ _ _ _ _ e2, hbits]
  have hd : block.drop 160 = slice block 160 320 := by
    unfold slice
    rw [List.take_of_length_le (by rw [List.length_drop]; omega)]
  refine ⟨hp16, part1, cm, part2, e1, hd ▸ e2, ?_⟩
  rw [hpay]
  have a := copyAt_exact [] (List.replicate 8 0) (List.replicate 8 0) part1 0 8 rfl
    (by rw [List.length_replicate, l1]) (by omega)
  have hz : List.replicate 16 (0 : Nat) = [] ++ List.replicate 8 0 ++ List.replicate 8 0 := by
    decide
  rw [hz, a]
  have b := copyAt_exact ([] ++ part1) (List.replicate 8 0) [] part2 8 16 (by simpa using l1)
    (by rw [List.length_replicate, l2]) (by omega)
  rw [List.append_nil] at b
  rw [b]
  simp

/-- One block that goes out: its packet carries the two encodings of the block, made from
the handler's codec state, and the handler keeps the state the second encoding left. -/
theorem emitBlock_chain (env : Env σ ν) (hbits : ∀ c, env.codec.bits_per_frame c = 64)
    (sh : StreamHandler σ ν) (block : List Int) (markLast : Bool) (s : Sent)
    (sh1 : StreamHandler σ ν) (hl : sh.lsd.length = 28) (hb : block.length = 320)
    (h : emitBlock env sh block markLast = (.ok s, sh1)) :
    EncodedInOrder env.codec sh.codec2Inst [s] sh1.codec2Inst := by
  unfold emitBlock at h
  split at h
  · simp at h
  · rename_i payload c hpay
    obtain ⟨pkt, hpkt⟩ : ∃ pkt, BuildStreamPacket sh.streamID sh.lsd sh.frameNum markLast
        payload = .ok pkt := ⟨_, rfl⟩
    simp only [hpkt] at h
    split at h
    · simp at h
    · simp only [Prod.mk.injEq, Except.ok.injEq] at h
      obtain ⟨hs, hsh⟩ := h
      subst hs hsh
      obtain ⟨hp16, part1, cm, part2, e1, e2, hpay2⟩ :=
        buildPayload_parts env hbits sh.codec2Inst c block payload hb hpay
      rw [EncodedInOrder]
      refine ⟨part1, cm, part2, c, e1, e2, ?_, ?_⟩
      · rw [← hpay2]
        exact BuildStreamPacket_payload _ _ _ _ _ _ hl hp16 hpkt
      · rw [EncodedInOrder]

theorem sendLoop_chain (env : Env σ ν) (hbits : ∀ c, env.codec.bits_per_frame c = 64)
    (isLast : Bool) (c0 : σ) (fuel : Nat) :
    ∀ (sh : StreamHandler σ ν) (sent0 : List Sent), sh.lsd.length = 28 →
      EncodedInOrder env.codec c0 sent0 sh.codec2Inst →
      (sendLoop env isLast fuel sh sent0).err = none →
      EncodedInOrder env.codec c0 (sendLoop env isLast fuel sh sent0).sent
        (sendLoop env isLast fuel sh sent0).sh.codec2Inst := by
  induction fuel with
  | zero => intro sh sent0 _ h0 _; exact h0
  | succ fuel ih =>
    intro sh sent0 hl h0
    rw [sendLoop]
    by_cases hL : sh.pcmBuffer.length ≥ 320
    · rw [if_pos hL]
      dsimp only
      have e1 := (emitBlock_inv env sh (slice sh.pcmBuffer 0 320)
        (isLast && sh.pcmBuffer.length == 320)).1
      have e2 := emitBlock_chain env hbits sh (slice sh.pcmBuffer 0 320)
        (isLast && sh.pcmBuffer.length == 320)
      generalize emitBlock env sh (slice sh.pcmBuffer 0 320)
        (isLast && sh.pcmBuffer.length == 320) = r at e1 e2
      obtain ⟨res, sh1⟩ := r
      cases res with
      | error e => intro herr; simp at herr
      | ok s =>
        simp only
        apply ih
        · rw [e1]; exact hl
        · exact EncodedInOrder_append env.codec sent0 [s] c0 sh.codec2Inst sh1.codec2Inst h0
            (e2 s sh1 hl (slice_length _ 0 320 hL) rfl)
    · rw [if_neg hL]
      intro _
      exact h0

/-- The packets of a `SendPCMFrame` call that returns no error continue the chain of
encodings from the handler's codec state, and the handler keeps the state they leave. -/
theorem SendPCMFrame_chain (env : Env σ ν) (hbits : ∀ c, env.codec.bits_per_frame c = 64)
    (sh : StreamHandler σ ν) (pcm : List Int) (isLast : Bool) (hl : sh.lsd.length = 28)
    (herr : (SendPCMFrame env sh pcm isLast).err = none) :
    EncodedInOrder env.codec sh.codec2Inst (SendPCMFrame env sh pcm isLast).sent
      (SendPCMFrame env sh pcm isLast).sh.codec2Inst := by
  have l1 := (sendLoop_inv env isLast sh.lsd (sh.pcmBuffer ++ pcm).length
    { sh with pcmBuffer := sh.pcmBuffer ++ pcm } [] rfl (by intro s hs; cases hs)).1
  have l2 := sendLoop_chain env hbits isLast sh.codec2Inst (sh.pcmBuffer ++ pcm).length
    { sh with pcmBuffer := sh.pcmBuffer ++ pcm } [] hl (by rw [EncodedInOrder])
  revert herr
  unfold SendPCMFrame
  simp only
  generalize sendLoop env isLast (sh.pcmBuffer ++ pcm).length
    { sh with pcmBuffer := sh.pcmBuffer ++ pcm } [] = r at l1 l2
  obtain ⟨err, sh1, sent⟩ := r
  simp only at l1 l2
  cases err with
  | some e => intro herr; simp at herr
  | none =>
    simp only
    have l3 := l2 rfl
    split_ifs with hcond
    · have e2 := emitBlock_chain env hbits sh1
        (copyAt (List.replicate 320 0) 0 320 sh1.pcmBuffer) true
      generalize emitBlock env sh1 (copyAt (List.replicate 320 0) 0 320 sh1.pcmBuffer) true = q
        at e2
      obtain ⟨res, sh2⟩ := q
      cases res with
      | error e => intro herr; simp at herr
      | ok s =>
        intro _
        exact EncodedInOrder_append env.codec sent [s] sh.codec2Inst sh1.codec2Inst
          sh2.codec2Inst l3
          (e2 s sh2 (by rw [l1]; exact hl)
            (by rw [copyAt_length _ _ _ _ (Nat.zero_le _) (by rw [List.length_replicate]),
              List.length_replicate]) rfl)
    · intro _
      exact l3

theorem padTo320_append (pre x : List Int) (h : pre.length % 320 = 0) :
    padTo320 (pre ++ x) = pre ++ padTo320 x := by
  unfold padTo320
  have hc : (320 - (pre ++ x).length % 320) % 320 = (320 - x.length % 320) % 320 := by
    rw [List.length_append]
    omega
  rw [hc, List.append_assoc]

theorem padTo320_count (x : List Int) :
    320 * ((x.length + 319) / 320) - x.length = (320 - x.length % 320) % 320 := by
  omega

theorem paddedStream_single (calls : List (List Int × Bool)) (last : List Int) :
    ∀ acc : List Int, (∀ c ∈ calls, c.2 = false) →
      paddedStream acc (calls ++ [(last, true)]) =
        padTo320 (acc ++ (calls.map (fun c => c.1)).flatten ++ last) := by
  induction calls with
  | nil =>
    intro acc _
    simp [paddedStream]
  | cons c rest ih =>
    intro acc h
    obtain ⟨pcm, b⟩ := c
    have hb : b = false := h (pcm, b) (List.mem_cons_self _ _)
    subst hb
    rw [List.cons_append, paddedStream, ih (acc ++ pcm)
      (fun c hc => h c (List.mem_cons_of_mem _ hc)), List.map_cons, List.flatten_cons]
    simp only [List.append_assoc]

theorem openSegment_closed (calls : List (List Int × Bool)) (last : List Int) :
    ∀ acc : List Int, openSegment acc (calls ++ [(last, true)]) = [] := by
  induction calls with
  | nil => intro acc; rfl
  | cons c rest ih =>
    intro acc
    obtain ⟨pcm, b⟩ := c
    cases b
    · rw [List.cons_append, openSegment]; exact ih _
    · rw [List.cons_append, openSegment]; exact ih _

/-- Any sequence of `SendPCMFrame` calls in surroundings where sending cannot fail: the
blocks written are the padded stream of the calls, followed by the full blocks of what was
given after the last call with `isLast = true`; the rest of that is staged; and the packets
continue the chain of encodings. -/
theorem runCalls_stream (env : Env σ ν) (henv : EnvOK env)
    (hbits : ∀ c, env.codec.bits_per_frame c = 64) (lsd : List Nat) (hl : lsd.length = 28)
    (c0 : σ) (calls : List (List Int × Bool)) :
    ∀ (sh : StreamHandler σ ν) (sent0 : List Sent) (pre : List Int),
      sh.frameNum < 65536 → sh.lsd = lsd → pre.length % 320 = 0 →
      EncodedInOrder env.codec c0 sent0 sh.codec2Inst →
      ∃ new sh1 pre1,
        runCalls env sh (calls.map (fun c => HandlerCall.SendPCMFrame c.1 c.2)) sent0 =
          (sh1, sent0 ++ new) ∧
        pre ++ (new.map (fun s => s.block)).flatten =
          paddedStream (pre ++ sh.pcmBuffer) calls ++ pre1 ∧
        pre1 ++ sh1.pcmBuffer = openSegment (pre ++ sh.pcmBuffer) calls ∧
        (∀ s ∈ new, s.block.length = 320) ∧
        EncodedInOrder env.codec c0 (sent0 ++ new) sh1.codec2Inst := by
  induction calls with
  | nil =>
    intro sh sent0 pre _ _ _ h0
    refine ⟨[], sh, pre, by simp [runCalls], by simp [paddedStream], by simp [openSegment],
      by simp, by simpa using h0⟩
  | cons c rest ih =>
    intro sh sent0 pre hfn hlsd hpre h0
    obtain ⟨pcm, b⟩ := c
    have hinv := SendPCMFrame_inv env sh pcm b
    cases b with
    | false =>
      obtain ⟨new1, sh1, hsend, hn1, h1b, h1f, _, h1l, _, hall1⟩ :=
        SendPCMFrame_false env henv sh pcm hfn
      have hch := SendPCMFrame_chain env hbits sh pcm false (by rw [hlsd]; exact hl)
        (by rw [hsend])
      rw [hsend] at hch hinv
      dsimp only at hch hinv
      have hj := join_blocks_of_slices new1 (sh.pcmBuffer ++ pcm)
        (fun i s hs => (hall1 i s hs).2.2.1)
        (by rw [hn1]; exact Nat.mul_div_le _ _)
      have hk := flatten_blocks_length new1 (fun s hs => (hinv.2 s hs).2)
      have hsplit : (new1.map (fun s => s.block)).flatten ++ sh1.pcmBuffer =
          sh.pcmBuffer ++ pcm := by
        rw [hj, h1b, hn1, List.take_append_drop]
      obtain ⟨new2, sh2, pre1, hrest, hs2, ho2, hb2, hc2⟩ :=
        ih sh1 (sent0 ++ new1) (pre ++ (new1.map (fun s => s.block)).flatten)
          (by rw [h1f]; exact Nat.mod_lt _ (by norm_num)) (h1l.trans hlsd)
          (by rw [List.length_append, hk]; omega)
          (EncodedInOrder_append env.codec sent0 new1 c0 sh.codec2Inst sh1.codec2Inst h0 hch)
      have hacc : pre ++ (new1.map (fun s => s.block)).flatten ++ sh1.pcmBuffer =
          pre ++ sh.pcmBuffer ++ pcm := by
        rw [List.append_assoc, hsplit, List.append_assoc]
      rw [hacc] at hs2 ho2
      refine ⟨new1 ++ new2, sh2, pre1, ?_, ?_, ?_, ?_, ?_⟩
      · rw [List.map_cons, runCalls]
        simp only [hsend]
        rw [hrest, List.append_assoc]
      · rw [List.map_append, List.flatten_append, ← List.append_assoc, hs2, paddedStream]
      · rw [ho2, openSegment]
      · intro s hs
        rcases List.mem_append.1 hs with h | h
        · exact (hinv.2 s h).2
        · exact hb2 s h
      · rw [← List.append_assoc]
        exact hc2
    | true =>
      obtain ⟨new1, sh1, hsend, hn1, h1b, h1f, _, h1l, _, hall1⟩ :=
        SendPCMFrame_true env henv sh pcm hfn
      have hch := SendPCMFrame_chain env hbits sh pcm true (by rw [hlsd]; exact hl)
        (by rw [hsend])
      rw [hsend] at hch hinv
      dsimp only at hch hinv
      have hj := join_padded_blocks new1 (sh.pcmBuffer ++ pcm) hn1
        (fun i s hs => (hall1 i s hs).2.2.1)
      have hcount : 320 * new1.length - (sh.pcmBuffer ++ pcm).length =
          (320 - (sh.pcmBuffer ++ pcm).length % 320) % 320 := by
        rw [hn1]
        exact padTo320_count _
      rw [hcount] at hj
      obtain ⟨new2, sh2, pre1, hrest, hs2, ho2, hb2, hc2⟩ :=
        ih sh1 (sent0 ++ new1) [] (by rw [h1f]; exact Nat.mod_lt _ (by norm_num))
          (h1l.trans hlsd) rfl
          (EncodedInOrder_append env.codec sent0 new1 c0 sh.codec2Inst sh1.codec2Inst h0 hch)
      rw [h1b] at hs2 ho2
      simp only [List.nil_append, List.append_nil] at hs2 ho2
      refine ⟨new1 ++ new2, sh2, pre1, ?_, ?_, ?_, ?_, ?_⟩
      · rw [List.map_cons, runCalls]
        simp only [hsend]
        rw [hrest, List.append_assoc]
      · rw [List.map_append, List.flatten_append, hs2, paddedStream, List.append_assoc pre,
          padTo320_append pre _ hpre, hj]
        unfold padTo320
        simp only [List.append_assoc]
      · rw [ho2, openSegment]
      · intro s hs
        rcases List.mem_append.1 hs with h | h
        · exact (hinv.2 s h).2
        · exact hb2 s h
      · rw [← List.append_assoc]
        exact hc2

/-- A sequence of `SendPCMFrame` calls that ends with a call with `isLast = true`, on a
handler whose staging buffer is empty. -/
theorem closed_stream (env : Env σ ν) (henv : EnvOK env)
    (hbits : ∀ c, env.codec.bits_per_frame c = 64) (sh : StreamHandler σ ν)
    (hbuf : sh.pcmBuffer = []) (hfn : sh.frameNum < 65536) (hlsd : sh.lsd.length = 28)
    (calls : List (List Int × Bool)) (last : List Int) :
    (((runCalls env sh ((calls ++ [(last, true)]).map
        (fun c => HandlerCall.SendPCMFrame c.1 c.2)) []).2.map (fun s => s.block)).flatten =
      paddedStream [] (calls ++ [(last, true)])) ∧
    ((∀ c ∈ calls, c.2 = false) →
      ((runCalls env sh ((calls ++ [(last, true)]).map
        (fun c => HandlerCall.SendPCMFrame c.1 c.2)) []).2.map (fun s => s.block)).flatten =
      (calls.map (fun c => c.1)).flatten ++ last ++
        List.replicate
          ((320 - ((calls.map (fun c => c.1)).flatten ++ last).length % 320) % 320) 0) ∧
    (∀ s ∈ (runCalls env sh ((calls ++ [(last, true)]).map
        (fun c => HandlerCall.SendPCMFrame c.1 c.2)) []).2, s.block.length = 320) ∧
    EncodedInOrder env.codec sh.codec2Inst
      (runCalls env sh ((calls ++ [(last, true)]).map
        (fun c => HandlerCall.SendPCMFrame c.1 c.2)) []).2
      (runCalls env sh ((calls ++ [(last, true)]).map
        (fun c => HandlerCall.SendPCMFrame c.1 c.2)) []).1.codec2Inst ∧
    (runCalls env sh ((calls ++ [(last, true)]).map
      (fun c => HandlerCall.SendPCMFrame c.1 c.2)) []).1.pcmBuffer = [] := by
  obtain ⟨new, sh1, pre1, hrun, hs, ho, hb, hc⟩ :=
    runCalls_stream env henv hbits sh.lsd hlsd sh.codec2Inst (calls ++ [(last, true)]) sh [] []
      hfn rfl rfl (by rw [EncodedInOrder])
  rw [hbuf, List.nil_append, openSegment_closed] at ho
  obtain ⟨hp1, hb1⟩ := List.append_eq_nil.1 ho
  subst hp1
  rw [hbuf, List.nil_append, List.append_nil, List.nil_append] at hs
  rw [hrun]
  rw [List.nil_append] at hc ⊢
  dsimp only
  refine ⟨hs, fun hall => ?_, hb, hc, hb1⟩
  rw [hs, paddedStream_single calls last [] hall, List.nil_append]
  rfl

set_option maxRecDepth 100000 in
/-- C11, the claim as stated fails: two calls with `isLast = true`, of one sample each, on
a fresh handler give two blocks, each padded on its own: 640 samples, the sample `2` at
offset 320, and not the two samples followed by 318 zeros. -/
theorem repeated_last_pads_each_call :
    ((runCalls recordingEnv (freshHandler 7 (List.replicate 28 0))
        [.SendPCMFrame [1] true, .SendPCMFrame [2] true] []).2.map
          (fun s => s.block)).flatten =
      [1] ++ List.replicate 319 0 ++ ([2] ++ List.replicate 319 0) ∧
    ((runCalls recordingEnv (freshHandler 7 (List.replicate 28 0))
        [.SendPCMFrame [1] true, .SendPCMFrame [2] true] []).2.map
          (fun s => s.block)).flatten ≠
      [1] ++ [2] ++ List.replicate ((320 - ([1] ++ [2] : List Int).length % 320) % 320) 0 := by
  decide

/-- C11, amended: a sequence of `SendPCMFrame` calls, each given as its samples and its
`isLast` flag, that ends with a call with `isLast = true`, on a handler whose staging buffer
is empty, in surroundings where sending cannot fail and the codec gives 64 bits per frame.
The 320-sample blocks handed to the encoder, concatenated in the order of emission, are the
input samples with zeros inserted after every call with `isLast = true`, up to the next
multiple of 320 of the number of samples given since the previous such call; when only the
final call has `isLast = true`, they are all the input samples followed by zeros up to the
next multiple of 320. Every block has 320 samples. The 16 payload bytes of each packet
(offsets 36 to 51) are the encoding of the first 160 samples of its block followed by the
encoding of the last 160, and the encodings are made one after the other by the handler's
codec: the first starts from the state the handler held, every other from the state the
one before it left, and the handler keeps the state the last one left. The staging buffer
is empty afterwards. -/
theorem SendPCMFrame_padded_stream (env : Env σ ν) (henv : EnvOK env)
    (hbits : ∀ c, env.codec.bits_per_frame c = 64) (sh : StreamHandler σ ν)
    (hbuf : sh.pcmBuffer = []) (hfn : sh.frameNum < 65536) (hlsd : sh.lsd.length = 28)
    (calls : List (List Int × Bool)) (last : List Int) :
    (((runCalls env sh ((calls ++ [(last, true)]).map
        (fun c => HandlerCall.SendPCMFrame c.1 c.2)) []).2.map (fun s => s.block)).flatten =
      paddedStream [] (calls ++ [(last, true)])) ∧
    ((∀ c ∈ calls, c.2 = false) →
      ((runCalls env sh ((calls ++ [(last, true)]).map
        (fun c => HandlerCall.SendPCMFrame c.1 c.2)) []).2.map (fun s => s.block)).flatten =
      (calls.map (fun c => c.1)).flatten ++ last ++
        List.replicate
          ((320 - ((calls.map (fun c => c.1)).flatten ++ last).length % 320) % 320) 0) ∧
    (∀ s ∈ (runCalls env sh ((calls ++ [(last, true)]).map
        (fun c => HandlerCall.SendPCMFrame c.1 c.2)) []).2, s.block.length = 320) ∧
    EncodedInOrder env.codec sh.codec2Inst
      (runCalls env sh ((calls ++ [(last, true)]).map
        (fun c => HandlerCall.SendPCMFrame c.1 c.2)) []).2
      (runCalls env sh ((calls ++ [(last, true)]).map
        (fun c => HandlerCall.SendPCMFrame c.1 c.2)) []).1.codec2Inst ∧
    (runCalls env sh ((calls ++ [(last, true)]).map
      (fun c => HandlerCall.SendPCMFrame c.1 c.2)) []).1.pcmBuffer = [] :=
  closed_stream env henv hbits sh hbuf hfn hlsd calls last

set_option maxRecDepth 100000 in
/-- C11 over the counting codec and the recording socket, on the calls `([1], true)`,
`(320 samples 2, false)`, `([3, 4], false)`, `([5], true)`: three blocks, the first padded
after the first call, and payloads that show the codec state going from 0 to 6; and on the
calls `(320 samples 1, false)`, `([2, 3], false)`, `([4, 5, 6], true)`, where only the final
call has `isLast = true`. -/
theorem SendPCMFrame_padded_stream_witness :
    ((((runCalls countingEnv countingHandler
          (([([1], true), (List.replicate 320 2, false), ([3, 4], false)] ++
            [([5], true)] : List (List Int × Bool)).map
              (fun c => HandlerCall.SendPCMFrame c.1 c.2)) []).2.map
          (fun s => s.block)).flatten =
        paddedStream [] ([([1], true), (List.replicate 320 2, false), ([3, 4], false)] ++
          [([5], true)])) ∧
      EncodedInOrder countingEnv.codec countingHandler.codec2Inst
        (runCalls countingEnv countingHandler
          (([([1], true), (List.replicate 320 2, false), ([3, 4], false)] ++
            [([5], true)] : List (List Int × Bool)).map
              (fun c => HandlerCall.SendPCMFrame c.1 c.2)) []).2
        (runCalls countingEnv countingHandler
          (([([1], true), (List.replicate 320 2, false), ([3, 4], false)] ++
            [([5], true)] : List (List Int × Bool)).map
              (fun c => HandlerCall.SendPCMFrame c.1 c.2)) []).1.codec2Inst) ∧
    (((runCalls countingEnv countingHandler
          (([(List.replicate 320 1, false), ([2, 3], false)] ++
            [([4, 5, 6], true)] : List (List Int × Bool)).map
              (fun c => HandlerCall.SendPCMFrame c.1 c.2)) []).2.map
          (fun s => s.block)).flatten =
        (([(List.replicate 320 1, false), ([2, 3], false)] : List (List Int × Bool)).map
          (fun c : List Int × Bool => c.1)).flatten ++ [4, 5, 6] ++
          List.replicate
            ((320 - ((([(List.replicate 320 1, false), ([2, 3], false)] :
              List (List Int × Bool)).map (fun c : List Int × Bool => c.1)).flatten ++
                [4, 5, 6]).length % 320) % 320) 0) ∧
    paddedStream [] ([([1], true), (List.replicate 320 2, false), ([3, 4], false)] ++
        [([5], true)]) =
      [1] ++ List.replicate 319 0 ++ List.replicate 320 2 ++ [3, 4, 5] ++
        List.replicate 317 0 ∧
    (runCalls countingEnv countingHandler
        (([([1], true), (List.replicate 320 2, false), ([3, 4], false)] ++
          [([5], true)] : List (List Int × Bool)).map
            (fun c => HandlerCall.SendPCMFrame c.1 c.2)) []).2.map
        (fun s => slice s.pkt 36 52) =
      [[0, 1, 0, 0, 0, 0, 0, 0, 1, 0, 0, 0, 0, 0, 0, 0],
        [2, 2, 0, 0, 0, 0, 0, 0, 3, 2, 0, 0, 0, 0, 0, 0],
        [4, 3, 0, 0, 0, 0, 0, 0, 5, 0, 0, 0, 0, 0, 0, 0]] ∧
    (runCalls countingEnv countingHandler
        (([([1], true), (List.replicate 320 2, false), ([3, 4], false)] ++
          [([5], true)] : List (List Int × Bool)).map
            (fun c => HandlerCall.SendPCMFrame c.1 c.2)) []).1.codec2Inst =
      6 :=
  ⟨⟨(SendPCMFrame_padded_stream countingEnv countingEnv_ok (fun _ => rfl) countingHandler rfl
        (by decide) (by decide)
        [([1], true), (List.replicate 320 2, false), ([3, 4], false)] [5]).1,
      (SendPCMFrame_padded_stream countingEnv countingEnv_ok (fun _ => rfl) countingHandler rfl
        (by decide) (by decide)
        [([1], true), (List.replicate 320 2, false), ([3, 4], false)] [5]).2.2.2.1⟩,
    (SendPCMFrame_padded_stream countingEnv countingEnv_ok (fun _ => rfl) countingHandler rfl
      (by decide) (by decide)
      [(List.replicate 320 1, false), ([2, 3], false)] [4, 5, 6]).2.1 (by decide),
    by decide, by decide, by decide⟩

/-! ## G.711 µ-law: the round-trip error -/

theorem and_pow_eq_zero_iff (a k : Nat) : a &&& 2 ^ k = 0 ↔ a / 2 ^ k % 2 = 0 := by
  rw [Nat.and_two_pow, Nat.testBit_to_div_mod]
  by_cases h : a / 2 ^ k % 2 = 1
  · simp [h]
  · simp [h]; omega

theorem muLawExponent_spec (a : Nat) (h1 : 128 ≤ a) (h2 : a < 32768) :
    ∃ e, e < 8 ∧ muLawExponent a 7 7 0x4000 = e ∧ 128 * 2 ^ e ≤ a ∧ a < 256 * 2 ^ e := by
  have b14 := and_pow_eq_zero_iff a 14
  have b13 := and_pow_eq_zero_iff a 13
  have b12 := and_pow_eq_zero_iff a 12
  have b11 := and_pow_eq_zero_iff a 11
  have b10 := and_pow_eq_zero_iff a 10
  have b9 := and_pow_eq_zero_iff a 9
  have b8 := and_pow_eq_zero_iff a 8
  norm_num at b14 b13 b12 b11 b10 b9 b8
  simp only [muLawExponent, Nat.reduceShiftRight, Nat.reduceSub, b14, b13, b12, b11, b10, b9, b8]
  split_ifs <;> refine ⟨_, ?_, rfl, ?_, ?_⟩ <;> norm_num <;> omega


theorem muLaw_unpack : ∀ e, e < 8 → ∀ m, m < 16 →
    ((((0 ||| ((e <<< 4) % 256) ||| m) ^^^ 0xFF) ^^^ 0xFF) &&& 0x80 = 0 ∧
      ((((0 ||| ((e <<< 4) % 256) ||| m) ^^^ 0xFF) ^^^ 0xFF) >>> 4) &&& 0x07 = e ∧
      (((0 ||| ((e <<< 4) % 256) ||| m) ^^^ 0xFF) ^^^ 0xFF) &&& 0x0F = m) ∧
    ((((0x80 ||| ((e <<< 4) % 256) ||| m) ^^^ 0xFF) ^^^ 0xFF) &&& 0x80 = 0x80 ∧
      ((((0x80 ||| ((e <<< 4) % 256) ||| m) ^^^ 0xFF) ^^^ 0xFF) >>> 4) &&& 0x07 = e ∧
      (((0x80 ||| ((e <<< 4) % 256) ||| m) ^^^ 0xFF) ^^^ 0xFF) &&& 0x0F = m) := by
  decide

theorem sign_bit_nonneg : ∀ x, x < 128 → x &&& 0x80 = 0 := by decide

set_option maxRecDepth 100000 in
theorem sign_bit_neg : ∀ x, x < 256 → 128 ≤ x → x &&& 0x80 = 0x80 := by decide

/-- The byte `linearToMuLaw` returns, in terms of the biased magnitude. -/
theorem linearToMuLaw_eq (s : Int) (h1 : -32768 ≤ s) (h2 : s ≤ 32767) :
    ∃ a e : Nat, e < 8 ∧ 128 * 2 ^ e ≤ a ∧ a < 256 * 2 ^ e ∧
      (a : Int) = (if s < 0 then (if -s > 32635 then 32635 else -s)
        else (if s > 32635 then 32635 else s)) + 132 ∧
      linearToMuLaw s =
        ((if s < 0 then (0x80 : Nat) else 0) ||| ((e <<< 4) % 256) ||| (a / 2 ^ (e + 3) % 16)) ^^^
          0xFF := by
  have hsign : ((s / 256) % 256).toNat &&& 0x80 = if s < 0 then (0x80 : Nat) else 0 := by
    split_ifs with hneg
    · apply sign_bit_neg <;> omega
    · apply sign_bit_nonneg; omega
  unfold linearToMuLaw
  simp only [hsign, muLawClip, muLawBias]
  have hmant : ∀ a e : Nat, (a >>> (e + 3)) &&& 15 = a / 2 ^ (e + 3) % 16 := by
    intro a e
    rw [Nat.shiftRight_eq_div_pow]
    exact Nat.and_pow_two_sub_one_eq_mod _ 4
  have h128 : ((128 : Nat) ≠ 0) = True := by simp
  have h0 : ((0 : Nat) ≠ 0) = False := by simp
  by_cases hneg : s < 0
  · simp only [hneg, if_true, h128, hmant]
    generalize ha : ((if -s > ((32635 : Nat) : Int) then ((32635 : Nat) : Int) else -s) +
      ((132 : Nat) : Int)).toNat = a
    have hai : (a : Int) = (if -s > 32635 then 32635 else -s) + 132 := by
      rw [← ha]
      split_ifs <;> simp <;> omega
    obtain ⟨e, he, hexp, hlo, hhi⟩ := muLawExponent_spec a
      (by split_ifs at hai <;> omega) (by split_ifs at hai <;> omega)
    exact ⟨a, e, he, hlo, hhi, hai, by rw [hexp]⟩
  · simp only [hneg, if_false, h0, hmant]
    generalize ha : ((if s > ((32635 : Nat) : Int) then ((32635 : Nat) : Int) else s) +
      ((132 : Nat) : Int)).toNat = a
    have hai : (a : Int) = (if s > 32635 then 32635 else s) + 132 := by
      rw [← ha]
      split_ifs <;> simp <;> omega
    obtain ⟨e, he, hexp, hlo, hhi⟩ := muLawExponent_spec a
      (by split_ifs at hai <;> omega) (by split_ifs at hai <;> omega)
    exact ⟨a, e, he, hlo, hhi, hai, by rw [hexp]⟩

/-- What `muLawToLinear` returns on a byte packed from sign, exponent and mantissa. -/
theorem muLawToLinear_packed (neg : Bool) (e m : Nat) (he : e < 8) (hm : m < 16) :
    muLawToLinear (((if neg then (0x80 : Nat) else 0) ||| ((e <<< 4) % 256) ||| m) ^^^ 0xFF) =
      ((if neg then (132 : Int) - ((m * 8 + 132 : Nat) : Int) * 2 ^ e
        else ((m * 8 + 132 : Nat) : Int) * 2 ^ e - 132) + 32768) % 65536 - 32768 := by
  obtain ⟨⟨p1, p2, p3⟩, ⟨n1, n2, n3⟩⟩ := muLaw_unpack e he m hm
  unfold muLawToLinear
  cases neg
  · simp only [Bool.false_eq_true, if_false, p1, p2, p3, muLawBias]
    simp only [Nat.shiftLeft_eq]
    norm_num
  · simp only [if_true, n1, n2, n3, muLawBias]
    simp only [Nat.shiftLeft_eq]
    norm_num

theorem muLaw_error (s : Int) (h1 : -32768 ≤ s) (h2 : s ≤ 32767) :
    |s - muLawToLinear (linearToMuLaw s)| ≤ 700 := by
  obtain ⟨a, e, he, hlo, hhi, hai, henc⟩ := linearToMuLaw_eq s h1 h2
  have hm : a / 2 ^ (e + 3) % 16 < 16 := Nat.mod_lt _ (by norm_num)
  have hdec := muLawToLinear_packed (decide (s < 0)) e (a / 2 ^ (e + 3) % 16) he hm
  have hsame : (if decide (s < 0) = true then (0x80 : Nat) else 0) =
      (if s < 0 then (0x80 : Nat) else 0) := by
    by_cases h : s < 0 <;> simp [h]
  rw [hsame, ← henc] at hdec
  rw [hdec, abs_le]
  generalize hmdef : a / 2 ^ (e + 3) % 16 = m at hm ⊢
  simp only [decide_eq_true_eq]
  interval_cases e <;> norm_num at hlo hhi hmdef ⊢ <;> split_ifs at hai ⊢ <;>
    omega


theorem MuLaw_roundtrip_getD (dst1 : List Nat) (dst2 : List Int) (pcm : List Int) (i : Nat)
    (hi : i < pcm.length) :
    (MuLawDecode dst2 (MuLawEncode dst1 pcm)).getD i 0 =
      muLawToLinear (linearToMuLaw (pcm.getD i 0)) := by
  unfold MuLawDecode MuLawEncode
  rw [List.map_map, List.getD_eq_getElem?_getD, List.getD_eq_getElem?_getD, List.getElem?_map,
    List.getElem?_eq_getElem hi]
  rfl

/-- C16: for every 16-bit sample `s`, the difference between `s` and
`muLawToLinear (linearToMuLaw s)` is at most 700 in absolute value; and for a list of 16-bit
samples, `MuLawDecode (MuLawEncode pcm)` has the length of `pcm` and differs from it by at
most 700 in every position. -/
theorem muLaw_roundtrip_error (s : Int) (h1 : -32768 ≤ s) (h2 : s ≤ 32767) (dst1 : List Nat)
    (dst2 : List Int) (pcm : List Int) (hp : ∀ x ∈ pcm, -32768 ≤ x ∧ x ≤ 32767) :
    |s - muLawToLinear (linearToMuLaw s)| ≤ 700 ∧
      (MuLawDecode dst2 (MuLawEncode dst1 pcm)).length = pcm.length ∧
      ∀ i, i < pcm.length →
        |pcm.getD i 0 - (MuLawDecode dst2 (MuLawEncode dst1 pcm)).getD i 0| ≤ 700 := by
  refine ⟨muLaw_error s h1 h2, by simp [MuLawDecode, MuLawEncode], fun i hi => ?_⟩
  rw [MuLaw_roundtrip_getD dst1 dst2 pcm i hi]
  have hm : pcm.getD i 0 ∈ pcm := by
    rw [List.getD_eq_getElem?_getD, List.getElem?_eq_getElem hi]
    exact List.getElem_mem _
  exact muLaw_error _ (hp _ hm).1 (hp _ hm).2

/-- C16 at the smallest sample and on a list holding the largest one. -/
theorem muLaw_roundtrip_error_witness :
    |(-32768 : Int) - muLawToLinear (linearToMuLaw (-32768))| ≤ 700 ∧
      (MuLawDecode [] (MuLawEncode [] [32767, -1, 0, 1000])).length =
        [(32767 : Int), -1, 0, 1000].length ∧
      ∀ i, i < [(32767 : Int), -1, 0, 1000].length →
        |[(32767 : Int), -1, 0, 1000].getD i 0 -
          (MuLawDecode [] (MuLawEncode [] [32767, -1, 0, 1000])).getD i 0| ≤ 700 :=
  muLaw_roundtrip_error (-32768) (by decide) (by decide) [] [] [32767, -1, 0, 1000]
    (by decide)


/-! ## Session: audio frames from the browser -/

theorem processAudioFrame_large (ioText : List Nat) (s : Session σ ν ρ) (msg : List Nat)
    (maxSize : Nat) (name : List Nat) (decode : List Nat → AudioResult σ ν ρ)
    (h : maxSize < msg.length) :
    processAudioFrame ioText s msg maxSize name decode =
      ⟨none, s, [name ++ str " frame too large: " ++ decimal msg.length], [], none⟩ := by
  unfold processAudioFrame
  rw [if_pos h]

theorem processAudioFrame_error (ioText : List Nat) (s : Session σ ν ρ) (msg : List Nat)
    (maxSize : Nat) (name : List Nat) (decode : List Nat → AudioResult σ ν ρ)
    (h : msg.length ≤ maxSize) (e : AudioError) (he : (decode msg).err = some e) :
    processAudioFrame ioText s msg maxSize name decode =
      { decode msg with
        err := none
        errors := (decode msg).errors ++
          [str "Error handling " ++ name ++ str " frame: " ++ e.Error ioText] } := by
  unfold processAudioFrame
  rw [if_neg (by omega)]
  simp only [he]

theorem processAudioFrame_forwarded (ioText : List Nat) (s : Session σ ν ρ) (msg : List Nat)
    (maxSize : Nat) (name : List Nat) (decode : List Nat → AudioResult σ ν ρ)
    (h : msg.length ≤ maxSize) :
    (processAudioFrame ioText s msg maxSize name decode).forwarded = (decode msg).forwarded := by
  unfold processAudioFrame
  rw [if_neg (by omega)]
  dsimp only
  cases (decode msg).err <;> rfl

theorem too_large_text (name tail : List Nat) :
    name ++ str " frame too large" <:+: name ++ str " frame too large: " ++ tail :=
  ⟨[], str ": " ++ tail, by
    show [] ++ (name ++ str " frame too large") ++ (str ": " ++ tail) = _
    have : str " frame too large: " = str " frame too large" ++ str ": " := by decide
    rw [this]
    simp⟩

theorem error_handling_text (name needle tail : List Nat) :
    needle <:+: str "Error handling " ++ name ++ str " frame: " ++ (needle ++ tail) :=
  ⟨str "Error handling " ++ name ++ str " frame: ", tail, by simp⟩

theorem decodePCM_length (b : List Nat) : (decodePCM b).length = b.length / 2 := by
  simp [decodePCM]

theorem decodePCM_getD (b : List Nat) (i : Nat) (h : i < b.length / 2) :
    (decodePCM b).getD i 0 = leInt16 (b.getD (i * 2) 0) (b.getD (i * 2 + 1) 0) := by
  unfold decodePCM
  rw [List.getD_eq_getElem?_getD, List.getElem?_map, List.getElem?_range h]
  rfl

/-- The value `leInt16` gives: the 16-bit two's complement number whose low byte is `lo`
and whose high byte is `hi`. -/
theorem leInt16_spec (lo hi : Nat) (h1 : lo < 256) (h2 : hi < 256) :
    -32768 ≤ leInt16 lo hi ∧ leInt16 lo hi ≤ 32767 ∧
      leInt16 lo hi % 65536 = (lo + 256 * hi : Nat) := by
  unfold leInt16
  dsimp only
  rw [Nat.mod_eq_of_lt (by omega)]
  split_ifs <;> omega

/-- The three ways `handlePCM` drops a frame, and the one way it forwards it. -/
theorem handlePCM_cases (env : Env σ ν) (ioText : List Nat) (s : Session σ ν ρ)
    (msg : List Nat) :
    (640 < msg.length →
      handlePCM env ioText s msg =
        ⟨none, s, [str "PCM" ++ str " frame too large: " ++ decimal msg.length], [], none⟩) ∧
    (msg.length ≤ 640 → msg.length % 2 ≠ 0 →
      handlePCM env ioText s msg =
        ⟨none, s, [str "Error handling " ++ str "PCM" ++ str " frame: " ++
          (str "Invalid PCM frame length: " ++ decimal msg.length)], [], none⟩) ∧
    (msg.length ≤ 640 → msg.length % 2 = 0 → s.Stream = none →
      handlePCM env ioText s msg =
        ⟨none, s, [str "Error handling " ++ str "PCM" ++ str " frame: " ++
          str "no active stream handler"], [], none⟩) ∧
    (msg.length ≤ 640 → msg.length % 2 = 0 → s.Stream.isSome →
      (handlePCM env ioText s msg).forwarded = some (decodePCM msg, false)) := by
  refine ⟨fun h => processAudioFrame_large _ _ _ _ _ _ h, fun h1 h2 => ?_, fun h1 h2 h3 => ?_,
    fun h1 h2 h3 => ?_⟩
  · unfold handlePCM
    rw [processAudioFrame_error ioText s msg maxPCMFrameSize _ _ h1
      (.invalidPCMLength msg.length) (by rw [if_pos h2])]
    dsimp only
    rw [if_pos h2]
    rfl
  · unfold handlePCM
    rw [processAudioFrame_error ioText s msg maxPCMFrameSize _ _ h1 .noStream
      (by rw [if_neg (by omega)]; unfold HandlePCMFrame; rw [h3])]
    dsimp only
    rw [if_neg (by omega)]
    unfold HandlePCMFrame
    rw [h3]
    rfl
  · unfold handlePCM
    rw [processAudioFrame_forwarded ioText s msg maxPCMFrameSize _ _ h1]
    rw [if_neg (by omega)]
    unfold HandlePCMFrame
    obtain ⟨sh, hs⟩ := Option.isSome_iff_exists.1 h3
    rw [hs]

/-- The two ways `handleG711` drops a frame, and the one way it forwards it. -/
theorem handleG711_cases (env : Env σ ν) (ioText : List Nat) (s : Session σ ν ρ)
    (msg : List Nat) :
    (320 < msg.length →
      handleG711 env ioText s msg =
        ⟨none, s, [str "G711" ++ str " frame too large: " ++ decimal msg.length], [], none⟩) ∧
    (msg.length ≤ 320 → s.Stream = none →
      handleG711 env ioText s msg =
        ⟨none, s, [str "Error handling " ++ str "G711" ++ str " frame: " ++
          str "no active stream handler"], [], none⟩) ∧
    (msg.length ≤ 320 → s.Stream.isSome →
      (handleG711 env ioText s msg).forwarded = some (MuLawDecode s.pcmBuf msg, false)) := by
  refine ⟨fun h => processAudioFrame_large _ _ _ _ _ _ h, fun h1 h3 => ?_, fun h1 h3 => ?_⟩
  · unfold handleG711
    rw [processAudioFrame_error ioText s msg maxG711FrameSize _ _ h1 .noStream
      (by unfold HandleG711Frame; rw [h3])]
    dsimp only
    unfold HandleG711Frame
    rw [h3]
    rfl
  · unfold handleG711
    rw [processAudioFrame_forwarded ioText s msg maxG711FrameSize _ _ h1]
    unfold HandleG711Frame
    obtain ⟨sh, hs⟩ := Option.isSome_iff_exists.1 h3
    rw [hs]

/-- What `handlePCM` does with a frame, by the first check that fails. -/
theorem handlePCM_spec (env : Env σ ν) (ioText : List Nat) (s : Session σ ν ρ)
    (msg : List Nat) :
    ((handlePCM env ioText s msg).forwarded.isSome ↔
      (msg.length ≤ 640 ∧ msg.length % 2 = 0 ∧ s.Stream.isSome)) ∧
    ((handlePCM env ioText s msg).forwarded.isSome →
      (handlePCM env ioText s msg).forwarded = some (decodePCM msg, false)) ∧
    ((handlePCM env ioText s msg).forwarded = none →
      (handlePCM env ioText s msg).s = s ∧ (handlePCM env ioText s msg).sent = [] ∧
      ∃ m, (handlePCM env ioText s msg).errors = [m] ∧
        (640 < msg.length → str "PCM frame too large" <:+: m) ∧
        (msg.length ≤ 640 → msg.length % 2 ≠ 0 → str "Invalid PCM frame length" <:+: m) ∧
        (msg.length ≤ 640 → msg.length % 2 = 0 → str "no active stream handler" <:+: m)) := by
  obtain ⟨c1, c2, c3, c4⟩ := handlePCM_cases env ioText s msg
  by_cases h1 : 640 < msg.length
  · rw [c1 h1]
    refine ⟨by simp; omega, by simp, fun _ => ⟨rfl, rfl, _, rfl,
      fun _ => too_large_text (str "PCM") _, fun h => by omega, fun h => by omega⟩⟩
  have h1b : msg.length ≤ 640 := by omega
  by_cases h2 : msg.length % 2 ≠ 0
  · rw [c2 h1b h2]
    refine ⟨by simp; omega, by simp, fun _ => ⟨rfl, rfl, _, rfl,
      fun h => by omega, fun _ _ => ?_, fun _ h => absurd h h2⟩⟩
    exact error_handling_text (str "PCM") (str "Invalid PCM frame length")
      (str ": " ++ decimal msg.length)
  have h2b : msg.length % 2 = 0 := by omega
  cases h3 : s.Stream with
  | none =>
    rw [c3 h1b h2b h3]
    refine ⟨by simp, by simp, fun _ => ⟨rfl, rfl, _, rfl,
      fun h => by omega, fun _ h => absurd h2b h, fun _ _ => ?_⟩⟩
    have := error_handling_text (str "PCM") (str "no active stream handler") []
    rwa [List.append_nil] at this
  | some sh =>
    have h4 := c4 h1b h2b (by rw [h3]; rfl)
    rw [h4]
    exact ⟨by simp [h1b, h2b], fun _ => rfl, fun h => by simp at h⟩

/-- What `handleG711` does with a frame, by the first check that fails. -/
theorem handleG711_spec (env : Env σ ν) (ioText : List Nat) (s : Session σ ν ρ)
    (msg : List Nat) :
    ((handleG711 env ioText s msg).forwarded.isSome ↔
      (msg.length ≤ 320 ∧ s.Stream.isSome)) ∧
    ((handleG711 env ioText s msg).forwarded.isSome →
      (handleG711 env ioText s msg).forwarded = some (MuLawDecode s.pcmBuf msg, false)) ∧
    ((handleG711 env ioText s msg).forwarded = none →
      (handleG711 env ioText s msg).s = s ∧ (handleG711 env ioText s msg).sent = [] ∧
      ∃ m, (handleG711 env ioText s msg).errors = [m] ∧
        (320 < msg.length → str "G711 frame too large" <:+: m) ∧
        (msg.length ≤ 320 → str "no active stream handler" <:+: m)) := by
  obtain ⟨c1, c3, c4⟩ := handleG711_cases env ioText s msg
  by_cases h1 : 320 < msg.length
  · rw [c1 h1]
    refine ⟨by simp; omega, by simp, fun _ => ⟨rfl, rfl, _, rfl,
      fun _ => too_large_text (str "G711") _, fun h => by omega⟩⟩
  have h1b : msg.length ≤ 320 := by omega
  cases h3 : s.Stream with
  | none =>
    rw [c3 h1b h3]
    refine ⟨by simp, by simp, fun _ => ⟨rfl, rfl, _, rfl, fun h => by omega, fun _ => ?_⟩⟩
    have := error_handling_text (str "G711") (str "no active stream handler") []
    rwa [List.append_nil] at this
  | some sh =>
    have h4 := c4 h1b (by rw [h3]; rfl)
    rw [h4]
    exact ⟨by simp [h1b], fun _ => rfl, fun h => by simp at h⟩

/-- The dispatch of `handleAudio`: with a stream handler attached the frame goes to
`handlePCM` or `handleG711` by the format of the session; with none attached the frame is
dropped with one error message. -/
theorem handleAudio_cases (env : Env σ ν) (ioText : List Nat) (s : Session σ ν ρ)
    (msg : List Nat) :
    (s.Stream.isSome →
      handleAudio env ioText s msg =
        if s.UsePCM then handlePCM env ioText s msg else handleG711 env ioText s msg) ∧
    (s.Stream = none →
      (handleAudio env ioText s msg).forwarded = none ∧ (handleAudio env ioText s msg).s = s ∧
      (handleAudio env ioText s msg).sent = [] ∧
      ∃ m, (handleAudio env ioText s msg).errors = [m] ∧
        str "no active stream handler" <:+: m) := by
  constructor
  · intro h
    obtain ⟨sh, hs⟩ := Option.isSome_iff_exists.1 h
    unfold handleAudio
    rw [hs]
  · intro h
    unfold handleAudio
    rw [h]
    exact ⟨rfl, rfl, rfl, _, rfl, str "Received audio but ", str " (session " ++ s.ID ++ str ")",
      by
        have : str "Received audio but no active stream handler (session " =
            str "Received audio but " ++ str "no active stream handler" ++ str " (session " := by
          decide
        rw [this]
        simp⟩

/-- A frame that `handlePCM` forwards: the session holds the handler as `SendPCMFrame`
left it, the packets written are those of `SendPCMFrame`, and an error of `SendPCMFrame`
is reported in one message. -/
theorem handlePCM_forward (env : Env σ ν) (ioText : List Nat) (s : Session σ ν ρ)
    (msg : List Nat) (sh : StreamHandler σ ν) (h1 : msg.length ≤ 640)
    (h2 : msg.length % 2 = 0) (h3 : s.Stream = some sh) :
    handlePCM env ioText s msg =
      ⟨none, { s with Stream := some (SendPCMFrame env sh (decodePCM msg) false).sh },
        match (SendPCMFrame env sh (decodePCM msg) false).err with
        | none => []
        | some e => [str "Error handling " ++ str "PCM" ++ str " frame: " ++ e.Error ioText],
        (SendPCMFrame env sh (decodePCM msg) false).sent, some (decodePCM msg, false)⟩ := by
  unfold handlePCM processAudioFrame
  rw [if_neg (by unfold maxPCMFrameSize; omega)]
  simp only [if_neg (show ¬ msg.length % 2 ≠ 0 by omega)]
  unfold HandlePCMFrame
  rw [h3]
  simp only
  generalize SendPCMFrame env sh (decodePCM msg) false = R
  obtain ⟨err, sh1, sent⟩ := R
  cases err <;> rfl

/-- A frame that `handleG711` forwards: the session holds the decoded samples and the
handler as `SendPCMFrame` left it, the packets written are those of `SendPCMFrame`, and an
error of `SendPCMFrame` is reported in one message. -/
theorem handleG711_forward (env : Env σ ν) (ioText : List Nat) (s : Session σ ν ρ)
    (msg : List Nat) (sh : StreamHandler σ ν) (h1 : msg.length ≤ 320)
    (h3 : s.Stream = some sh) :
    handleG711 env ioText s msg =
      ⟨none,
        { s with
          pcmBuf := MuLawDecode s.pcmBuf msg
          Stream := some (SendPCMFrame env sh (MuLawDecode s.pcmBuf msg) false).sh },
        match (SendPCMFrame env sh (MuLawDecode s.pcmBuf msg) false).err with
        | none => []
        | some e => [str "Error handling " ++ str "G711" ++ str " frame: " ++ e.Error ioText],
        (SendPCMFrame env sh (MuLawDecode s.pcmBuf msg) false).sent,
        some (MuLawDecode s.pcmBuf msg, false)⟩ := by
  unfold handleG711 processAudioFrame
  rw [if_neg (by unfold maxG711FrameSize; omega)]
  unfold HandleG711Frame
  rw [h3]
  simp only
  generalize SendPCMFrame env sh (MuLawDecode s.pcmBuf msg) false = R
  obtain ⟨err, sh1, sent⟩ := R
  cases err <;> rfl

theorem handleAudio_none (env : Env σ ν) (ioText : List Nat) (s : Session σ ν ρ)
    (msg : List Nat) (h : s.Stream = none) :
    handleAudio env ioText s msg =
      ⟨none, s,
        [str "Received audio but no active stream handler (session " ++ s.ID ++ str ")"], [],
        none⟩ := by
  unfold handleAudio
  rw [h]

theorem handleAudio_some (env : Env σ ν) (ioText : List Nat) (s : Session σ ν ρ)
    (msg : List Nat) (sh : StreamHandler σ ν) (h : s.Stream = some sh) :
    handleAudio env ioText s msg =
      if s.UsePCM then handlePCM env ioText s msg else handleG711 env ioText s msg := by
  unfold handleAudio
  rw [h]

theorem no_handler_text (id : List Nat) :
    str "no active stream handler" <:+:
      str "Received audio but no active stream handler (session " ++ id ++ str ")" :=
  ⟨str "Received audio but ", str " (session " ++ id ++ str ")", by
    have : str "Received audio but no active stream handler (session " =
        str "Received audio but " ++ str "no active stream handler" ++ str " (session " := by
      decide
    rw [this]
    simp⟩

/-- What `handleAudio` does with a frame of a session in PCM format. -/
theorem handleAudio_pcm (env : Env σ ν) (ioText : List Nat) (s : Session σ ν ρ)
    (msg : List Nat) (hp : s.UsePCM = true) :
    ((handleAudio env ioText s msg).forwarded.isSome ↔
      (s.Stream.isSome ∧ msg.length ≤ 640 ∧ msg.length % 2 = 0)) ∧
    (∀ sh, s.Stream = some sh → msg.length ≤ 640 → msg.length % 2 = 0 →
      handleAudio env ioText s msg =
        ⟨none, { s with Stream := some (SendPCMFrame env sh (decodePCM msg) false).sh },
          match (SendPCMFrame env sh (decodePCM msg) false).err with
          | none => []
          | some e => [str "Error handling " ++ str "PCM" ++ str " frame: " ++ e.Error ioText],
          (SendPCMFrame env sh (decodePCM msg) false).sent, some (decodePCM msg, false)⟩) ∧
    ((handleAudio env ioText s msg).forwarded = none →
      (handleAudio env ioText s msg).s = s ∧ (handleAudio env ioText s msg).sent = [] ∧
      ∃ m, (handleAudio env ioText s msg).errors = [m] ∧
        (s.Stream = none → str "no active stream handler" <:+: m) ∧
        (s.Stream.isSome → 640 < msg.length → str "PCM frame too large" <:+: m) ∧
        (s.Stream.isSome → msg.length ≤ 640 → msg.length % 2 ≠ 0 →
          str "Invalid PCM frame length" <:+: m)) := by
  cases h3 : s.Stream with
  | none =>
    rw [handleAudio_none env ioText s msg h3]
    exact ⟨by simp, fun sh h => (by cases h), fun _ => ⟨rfl, rfl, _, rfl,
      fun _ => no_handler_text s.ID, fun h => by simp at h, fun h => by simp at h⟩⟩
  | some sh =>
    rw [handleAudio_some env ioText s msg sh h3, if_pos hp]
    obtain ⟨c1, c2, _, _⟩ := handlePCM_cases env ioText s msg
    by_cases h1 : 640 < msg.length
    · rw [c1 h1]
      exact ⟨by simp; omega, fun _ _ h _ => (by omega), fun _ => ⟨rfl, rfl, _, rfl,
        fun h => (by cases h), fun _ _ => too_large_text (str "PCM") _, fun _ h => (by omega)⟩⟩
    have h1b : msg.length ≤ 640 := by omega
    by_cases h2 : msg.length % 2 ≠ 0
    · rw [c2 h1b h2]
      exact ⟨by simp; omega, fun _ _ _ h => absurd h h2, fun _ => ⟨rfl, rfl, _, rfl,
        fun h => (by cases h), fun _ h => (by omega),
        fun _ _ _ => error_handling_text (str "PCM") (str "Invalid PCM frame length")
          (str ": " ++ decimal msg.length)⟩⟩
    have h2b : msg.length % 2 = 0 := by omega
    rw [handlePCM_forward env ioText s msg sh h1b h2b h3]
    refine ⟨by simp [h1b, h2b], fun sh1 h _ _ => ?_, fun h => by simp at h⟩
    cases h
    rfl

/-- What `handleAudio` does with a frame of a session in µ-law format. -/
theorem handleAudio_g711 (env : Env σ ν) (ioText : List Nat) (s : Session σ ν ρ)
    (msg : List Nat) (hp : s.UsePCM = false) :
    ((handleAudio env ioText s msg).forwarded.isSome ↔
      (s.Stream.isSome ∧ msg.length ≤ 320)) ∧
    (∀ sh, s.Stream = some sh → msg.length ≤ 320 →
      handleAudio env ioText s msg =
        ⟨none,
          { s with
            pcmBuf := MuLawDecode s.pcmBuf msg
            Stream := some (SendPCMFrame env sh (MuLawDecode s.pcmBuf msg) false).sh },
          match (SendPCMFrame env sh (MuLawDecode s.pcmBuf msg) false).err with
          | none => []
          | some e => [str "Error handling " ++ str "G711" ++ str " frame: " ++ e.Error ioText],
          (SendPCMFrame env sh (MuLawDecode s.pcmBuf msg) false).sent,
          some (MuLawDecode s.pcmBuf msg, false)⟩) ∧
    ((handleAudio env ioText s msg).forwarded = none →
      (handleAudio env ioText s msg).s = s ∧ (handleAudio env ioText s msg).sent = [] ∧
      ∃ m, (handleAudio env ioText s msg).errors = [m] ∧
        (s.Stream = none → str "no active stream handler" <:+: m) ∧
        (s.Stream.isSome → 320 < msg.length → str "G711 frame too large" <:+: m)) := by
  cases h3 : s.Stream with
  | none =>
    rw [handleAudio_none env ioText s msg h3]
    exact ⟨by simp, fun sh h => (by cases h), fun _ => ⟨rfl, rfl, _, rfl,
      fun _ => no_handler_text s.ID, fun h => by simp at h⟩⟩
  | some sh =>
    rw [handleAudio_some env ioText s msg sh h3, if_neg (by rw [hp]; simp)]
    obtain ⟨c1, _, _⟩ := handleG711_cases env ioText s msg
    by_cases h1 : 320 < msg.length
    · rw [c1 h1]
      exact ⟨by simp; omega, fun _ _ h => (by omega), fun _ => ⟨rfl, rfl, _, rfl,
        fun h => (by cases h), fun _ _ => too_large_text (str "G711") _⟩⟩
    have h1b : msg.length ≤ 320 := by omega
    rw [handleG711_forward env ioText s msg sh h1b h3]
    refine ⟨by simp [h1b], fun sh1 h _ => ?_, fun h => by simp at h⟩
    cases h
    rfl

/-- The sample at `i` of a decoded PCM frame: the 16-bit two's complement number with low
byte `msg[2i]` and high byte `msg[2i+1]`. -/
theorem decodePCM_layout (msg : List Nat) :
    (decodePCM msg).length = msg.length / 2 ∧
      ∀ i, i < msg.length / 2 → msg.getD (i * 2) 0 < 256 → msg.getD (i * 2 + 1) 0 < 256 →
        -32768 ≤ (decodePCM msg).getD i 0 ∧ (decodePCM msg).getD i 0 ≤ 32767 ∧
        (decodePCM msg).getD i 0 % 65536 =
          (msg.getD (i * 2) 0 + 256 * msg.getD (i * 2 + 1) 0 : Nat) :=
  ⟨decodePCM_length msg, fun i hi h1 h2 => by
    rw [decodePCM_getD msg i hi]
    exact leInt16_spec _ _ h1 h2⟩

theorem not_infix_of_not_mem (c : Nat) (a b : List Nat) (ha : c ∈ a) (hb : c ∉ b) :
    ¬ a <:+: b := fun h => hb (h.subset ha)

set_option maxRecDepth 100000 in
/-- C19, the claim as stated fails: an oversized PCM frame from the browser of a session
with no stream handler attached gets the one message "Received audio but no active stream
handler (session test)", which does not contain "PCM frame too large"; and the same frame
given to `handlePCM` gets "PCM frame too large: 641", which does not contain
"no active stream handler". -/
theorem oversize_frame_without_handler :
    (handleAudio recordingEnv [] { freshSession with UsePCM := true }
        (List.replicate 641 0)).errors =
      [str "Received audio but no active stream handler (session test)"] ∧
    ¬ (str "PCM frame too large" <:+:
      str "Received audio but no active stream handler (session test)") ∧
    (handlePCM recordingEnv [] { freshSession with UsePCM := true }
        (List.replicate 641 0)).errors = [str "PCM frame too large: 641"] ∧
    ¬ (str "no active stream handler" <:+: str "PCM frame too large: 641") :=
  ⟨by decide, not_infix_of_not_mem 80 _ _ (by decide) (by decide), by decide,
    not_infix_of_not_mem 118 _ _ (by decide) (by decide)⟩

/-- C19, amended: a binary frame from the browser goes through `handleAudio`, which looks
for the stream handler first. In PCM format the frame is forwarded exactly when a stream
handler is attached and the frame has at most 640 bytes and an even number of them; the
session then holds the handler as `SendPCMFrame` left it after the call with the `len / 2`
samples of the frame and `isLast = false`, the packets written are those of that call, and
an error of that call is reported in one message. The sample at `i` is the 16-bit two's
complement number with low byte `msg[2i]` and high byte `msg[2i+1]`. In every other case
nothing is forwarded, the session is unchanged, no packet is written and exactly one error
message is sent: it contains "no active stream handler" when none is attached, else
"PCM frame too large" when the frame is longer than 640 bytes, else
"Invalid PCM frame length" when its length is odd. In µ-law format the same holds with
the limit 320, no parity rule, the text "G711 frame too large", and the µ-law decoding of
the frame as the samples, which the session also keeps in `pcmBuf`. -/
theorem handleAudio_forwarding (env : Env σ ν) (ioText : List Nat) (s : Session σ ν ρ)
    (msg : List Nat) :
    (s.UsePCM = true →
      ((handleAudio env ioText s msg).forwarded.isSome ↔
        (s.Stream.isSome ∧ msg.length ≤ 640 ∧ msg.length % 2 = 0)) ∧
      (∀ sh, s.Stream = some sh → msg.length ≤ 640 → msg.length % 2 = 0 →
        handleAudio env ioText s msg =
          ⟨none, { s with Stream := some (SendPCMFrame env sh (decodePCM msg) false).sh },
            match (SendPCMFrame env sh (decodePCM msg) false).err with
            | none => []
            | some e => [str "Error handling " ++ str "PCM" ++ str " frame: " ++ e.Error ioText],
            (SendPCMFrame env sh (decodePCM msg) false).sent, some (decodePCM msg, false)⟩) ∧
      ((handleAudio env ioText s msg).forwarded = none →
        (handleAudio env ioText s msg).s = s ∧ (handleAudio env ioText s msg).sent = [] ∧
        ∃ m, (handleAudio env ioText s msg).errors = [m] ∧
          (s.Stream = none → str "no active stream handler" <:+: m) ∧
          (s.Stream.isSome → 640 < msg.length → str "PCM frame too large" <:+: m) ∧
          (s.Stream.isSome → msg.length ≤ 640 → msg.length % 2 ≠ 0 →
            str "Invalid PCM frame length" <:+: m))) ∧
    ((decodePCM msg).length = msg.length / 2 ∧
      ∀ i, i < msg.length / 2 → msg.getD (i * 2) 0 < 256 → msg.getD (i * 2 + 1) 0 < 256 →
        -32768 ≤ (decodePCM msg).getD i 0 ∧ (decodePCM msg).getD i 0 ≤ 32767 ∧
        (decodePCM msg).getD i 0 % 65536 =
          (msg.getD (i * 2) 0 + 256 * msg.getD (i * 2 + 1) 0 : Nat)) ∧
    (s.UsePCM = false →
      ((handleAudio env ioText s msg).forwarded.isSome ↔
        (s.Stream.isSome ∧ msg.length ≤ 320)) ∧
      (∀ sh, s.Stream = some sh → msg.length ≤ 320 →
        handleAudio env ioText s msg =
          ⟨none,
            { s with
              pcmBuf := MuLawDecode s.pcmBuf msg
              Stream := some (SendPCMFrame env sh (MuLawDecode s.pcmBuf msg) false).sh },
            match (SendPCMFrame env sh (MuLawDecode s.pcmBuf msg) false).err with
            | none => []
            | some e =>
              [str "Error handling " ++ str "G711" ++ str " frame: " ++ e.Error ioText],
            (SendPCMFrame env sh (MuLawDecode s.pcmBuf msg) false).sent,
            some (MuLawDecode s.pcmBuf msg, false)⟩) ∧
      ((handleAudio env ioText s msg).forwarded = none →
        (handleAudio env ioText s msg).s = s ∧ (handleAudio env ioText s msg).sent = [] ∧
        ∃ m, (handleAudio env ioText s msg).errors = [m] ∧
          (s.Stream = none → str "no active stream handler" <:+: m) ∧
          (s.Stream.isSome → 320 < msg.length → str "G711 frame too large" <:+: m))) :=
  ⟨handleAudio_pcm env ioText s msg, decodePCM_layout msg, handleAudio_g711 env ioText s msg⟩

set_option maxRecDepth 100000 in
/-- C19 on a PCM frame of 640 bytes and on a µ-law frame of one byte, given to a session
with a stream handler attached over the recording socket: the PCM frame is forwarded as 320
samples, one packet is written and the handler's frame counter goes to 1; the µ-law frame
is forwarded as one sample, which the handler stages. -/
theorem handleAudio_forwarding_witness :
    (handleAudio recordingEnv [] { attachedSession with UsePCM := true }
        (List.replicate 640 1) =
      ⟨none,
        { ({ attachedSession with UsePCM := true } :
            Session Unit (List (List Nat)) (List Nat × Nat)) with
          Stream := some (SendPCMFrame recordingEnv (freshHandler 7 (List.replicate 28 0))
            (decodePCM (List.replicate 640 1)) false).sh },
        match (SendPCMFrame recordingEnv (freshHandler 7 (List.replicate 28 0))
            (decodePCM (List.replicate 640 1)) false).err with
        | none => []
        | some e => [str "Error handling " ++ str "PCM" ++ str " frame: " ++ e.Error []],
        (SendPCMFrame recordingEnv (freshHandler 7 (List.replicate 28 0))
          (decodePCM (List.replicate 640 1)) false).sent,
        some (decodePCM (List.replicate 640 1), false)⟩) ∧
    (handleAudio recordingEnv [] attachedSession [255] =
      ⟨none,
        { attachedSession with
          pcmBuf := MuLawDecode attachedSession.pcmBuf [255]
          Stream := some (SendPCMFrame recordingEnv (freshHandler 7 (List.replicate 28 0))
            (MuLawDecode attachedSession.pcmBuf [255]) false).sh },
        match (SendPCMFrame recordingEnv (freshHandler 7 (List.replicate 28 0))
            (MuLawDecode attachedSession.pcmBuf [255]) false).err with
        | none => []
        | some e => [str "Error handling " ++ str "G711" ++ str " frame: " ++ e.Error []],
        (SendPCMFrame recordingEnv (freshHandler 7 (List.replicate 28 0))
          (MuLawDecode attachedSession.pcmBuf [255]) false).sent,
        some (MuLawDecode attachedSession.pcmBuf [255], false)⟩) ∧
    decodePCM (List.replicate 640 1) = List.replicate 320 257 ∧
    (handleAudio recordingEnv [] { attachedSession with UsePCM := true }
      (List.replicate 640 1)).errors = [] ∧
    ((handleAudio recordingEnv [] { attachedSession with UsePCM := true }
      (List.replicate 640 1)).sent.map (fun p => p.block)) = [List.replicate 320 257] ∧
    ((handleAudio recordingEnv [] { attachedSession with UsePCM := true }
      (List.replicate 640 1)).s.Stream.map (fun sh => (sh.frameNum, sh.pcmBuffer))) =
        some (1, []) ∧
    ((handleAudio recordingEnv [] attachedSession [255]).s.Stream.map
      (fun sh => (sh.frameNum, sh.pcmBuffer))) = some (0, [0]) :=
  ⟨((handleAudio_forwarding recordingEnv [] { attachedSession with UsePCM := true }
      (List.replicate 640 1)).1 rfl).2.1 (freshHandler 7 (List.replicate 28 0)) rfl
      (by decide) (by decide),
    ((handleAudio_forwarding recordingEnv [] attachedSession [255]).2.2 rfl).2.1
      (freshHandler 7 (List.replicate 28 0)) rfl (by decide),
    by decide, by decide, by decide, by decide, by decide⟩

/-! ## Session: the module of a join -/

/-- The module check of `handleJoin` passes exactly on the strings of at most one byte
whose bytes are in `A..Z`: the empty string and the strings of one byte in `A..Z`. -/
theorem module_check_iff (m : List Nat) :
    ¬ (m.length > 1 ∨ (if m.length > 0 then m.getD 0 0 else 65) < 65 ∨
        (if m.length > 0 then m.getD 0 0 else 65) > 90) ↔
      (m.length ≤ 1 ∧ ∀ c ∈ m, 65 ≤ c ∧ c ≤ 90) := by
  match m with
  | [] => simp
  | [c] => simp
  | _ :: _ :: _ => simp

/-- A join with a valid callsign whose module fails the check. -/
theorem handleJoin_bad_module (jenv : JoinEnv σ ν ρ) (s : Session σ ν ρ) (payload : JoinPayload)
    (callsign : List Nat) (hcs : ValidateCallsign jenv.mapUpper payload.Callsign = .ok callsign)
    (hm : ¬ (payload.Module.length ≤ 1 ∧ ∀ c ∈ payload.Module, 65 ≤ c ∧ c ≤ 90)) :
    handleJoin jenv s (.ok payload) =
      ⟨{ s with Callsign := callsign }, [.error (str "Invalid module: " ++ payload.Module)],
        []⟩ := by
  unfold handleJoin
  simp only [hcs]
  rw [if_pos (by
    by_contra h
    exact hm ((module_check_iff _).1 h))]

/-- A join with a valid callsign whose module passes the check. -/
theorem handleJoin_good_module (jenv : JoinEnv σ ν ρ) (s : Session σ ν ρ)
    (payload : JoinPayload) (callsign : List Nat)
    (hcs : ValidateCallsign jenv.mapUpper payload.Callsign = .ok callsign)
    (hm : payload.Module.length ≤ 1 ∧ ∀ c ∈ payload.Module, 65 ≤ c ∧ c ≤ 90) :
    (handleJoin jenv s (.ok payload)).factoryCalls =
      [(payload.Reflector, callsign,
        payload.Module.headD 65)] := by
  have hmb : (if payload.Module.length > 0 then payload.Module.getD 0 0 else 65) =
      payload.Module.headD 65 := by
    cases payload.Module <;> simp
  unfold handleJoin
  simp only [hcs]
  rw [if_neg ((module_check_iff _).2 hm), hmb]
  cases jenv.newReflectorClient payload.Reflector callsign (payload.Module.headD 65) with
  | error e => rfl
  | ok rc =>
    dsimp only
    split <;> rfl

/-- C20 fails on the empty module string: a join with the callsign `N0CALL` and no module
is not answered with an error; the factory is called with the module `A` and the reply is
`joined` with the module `A`. -/
theorem handleJoin_empty_module_joins :
    (handleJoin recordingJoinEnv freshSession
        (.ok ⟨str "N0CALL", str "127.0.0.1:17000", []⟩)).factoryCalls =
      [(str "127.0.0.1:17000", str "N0CALL", 65)] ∧
    (handleJoin recordingJoinEnv freshSession
        (.ok ⟨str "N0CALL", str "127.0.0.1:17000", []⟩)).replies =
      [.joined (str "127.0.0.1:17000") (str "A") (str "N0CALL")] := by
  constructor <;> decide

/-- C20, amended: for a join whose callsign is valid, the factory of reflector clients is
called exactly when the module string has at most one byte and its bytes are in `A..Z`,
that is when it is empty or is one byte in `A..Z`; it is then called once, with the
validated callsign and with the module byte, `A` standing in for the empty string. For
every other module string the only reply is the error "Invalid module: <module>", no
reflector client is constructed, and the session has only taken the callsign. -/
theorem handleJoin_module (jenv : JoinEnv σ ν ρ) (s : Session σ ν ρ) (payload : JoinPayload)
    (callsign : List Nat)
    (hcs : ValidateCallsign jenv.mapUpper payload.Callsign = .ok callsign) :
    ((handleJoin jenv s (.ok payload)).factoryCalls ≠ [] ↔
      (payload.Module.length ≤ 1 ∧ ∀ c ∈ payload.Module, 65 ≤ c ∧ c ≤ 90)) ∧
    ((payload.Module.length ≤ 1 ∧ ∀ c ∈ payload.Module, 65 ≤ c ∧ c ≤ 90) →
      (handleJoin jenv s (.ok payload)).factoryCalls =
        [(payload.Reflector, callsign, payload.Module.headD 65)]) ∧
    (¬ (payload.Module.length ≤ 1 ∧ ∀ c ∈ payload.Module, 65 ≤ c ∧ c ≤ 90) →
      (handleJoin jenv s (.ok payload)).replies =
        [.error (str "Invalid module: " ++ payload.Module)] ∧
      (handleJoin jenv s (.ok payload)).factoryCalls = [] ∧
      (handleJoin jenv s (.ok payload)).s = { s with Callsign := callsign }) := by
  refine ⟨⟨fun h => ?_, fun h => ?_⟩, handleJoin_good_module jenv s payload callsign hcs,
    fun h => ?_⟩
  · by_contra hm
    rw [handleJoin_bad_module jenv s payload callsign hcs hm] at h
    exact h rfl
  · rw [handleJoin_good_module jenv s payload callsign hcs h]
    simp
  · rw [handleJoin_bad_module jenv s payload callsign hcs h]
    exact ⟨rfl, rfl, rfl⟩

/-- C20, amended, on the joins of the spec with the modules `b`, `AB` and `A`. -/
theorem handleJoin_module_witness :
    (handleJoin recordingJoinEnv freshSession
        (.ok ⟨str "N0CALL", str "127.0.0.1:17000", str "b"⟩)).replies =
      [.error (str "Invalid module: b")] ∧
    (handleJoin recordingJoinEnv freshSession
        (.ok ⟨str "N0CALL", str "127.0.0.1:17000", str "AB"⟩)).replies =
      [.error (str "Invalid module: AB")] ∧
    (handleJoin recordingJoinEnv freshSession
        (.ok ⟨str "N0CALL", str "127.0.0.1:17000", str "A"⟩)).factoryCalls =
      [(str "127.0.0.1:17000", str "N0CALL", 65)] :=
  ⟨((handleJoin_module recordingJoinEnv freshSession
      ⟨str "N0CALL", str "127.0.0.1:17000", str "b"⟩ (str "N0CALL") rfl).2.2
      (by decide)).1,
    ((handleJoin_module recordingJoinEnv freshSession
      ⟨str "N0CALL", str "127.0.0.1:17000", str "AB"⟩ (str "N0CALL") rfl).2.2
      (by decide)).1,
    (handleJoin_module recordingJoinEnv freshSession
      ⟨str "N0CALL", str "127.0.0.1:17000", str "A"⟩ (str "N0CALL") rfl).2.1
      (by decide)⟩

/-! ## CRC-16: residue and single-bit errors -/

theorem crcShift_small (x : Nat) (h : x < 32768) : crcShift x = 2 * x := by
  unfold crcShift
  have hb : x.testBit 15 = false := by
    rw [testBit_15_eq x (by omega)]
    exact decide_eq_false (by omega)
  have h0 : ¬ (x &&& 0x8000 ≠ 0) := by
    have := and_0x8000 x
    rw [hb] at this
    simpa using this
  rw [if_neg h0, Nat.shiftLeft_eq]
  omega

theorem crcShift_iter_shift (k : Nat) : ∀ x, x * 2 ^ k < 65536 →
    crcShift^[k] x = x * 2 ^ k := by
  induction k with
  | zero => intro x _; simp
  | succ k ih =>
    intro x hx
    have hx2 : x * 2 ^ k * 2 < 65536 := by rw [Nat.mul_assoc, ← pow_succ]; exact hx
    have hk : 0 < 2 ^ k := Nat.pow_pos (by norm_num)
    have hlt : x < 32768 := by nlinarith
    rw [Function.iterate_succ_apply, crcShift_small x hlt, ih (2 * x) (by nlinarith), pow_succ]
    ring

theorem crcShift_iter_small (lo : Nat) (h : lo < 256) : crcShift^[8] lo = lo * 256 := by
  rw [crcShift_iter_shift 8 lo (by norm_num; omega)]
  norm_num

theorem xor_high_byte (c : Nat) (h : c < 65536) :
    c ^^^ ((c / 256 % 256) <<< 8 % 65536) = c % 256 := by
  have e1 : (c / 256 % 256) <<< 8 % 65536 = (c >>> 8) <<< 8 := by
    rw [Nat.shiftLeft_eq, Nat.shiftLeft_eq, Nat.shiftRight_eq_div_pow]
    omega
  rw [e1]
  apply Nat.eq_of_testBit_eq
  intro i
  rw [Nat.testBit_xor, Nat.testBit_shiftLeft, Nat.testBit_shiftRight,
    show (256 : Nat) = 2 ^ 8 by norm_num, Nat.testBit_mod_two_pow]
  by_cases hi : i < 8
  · have h1 : ¬ i ≥ 8 := by omega
    simp [hi, h1]
  · have : 8 + (i - 8) = i := by omega
    have h1 : i ≥ 8 := by omega
    simp [hi, this, h1]

/-- The register after the two bytes of its own value, high byte first, is zero. -/
theorem crcByte_residue (c : Nat) (h : c < 65536) :
    crcByte (crcByte c (c / 256 % 256)) (c % 256) = 0 := by
  have h1 : crcByte c (c / 256 % 256) = c % 256 * 256 := by
    unfold crcByte
    rw [xor_high_byte c h, crcShift_iter_small _ (by omega)]
  rw [h1]
  unfold crcByte
  have h2 : c % 256 * 256 ^^^ (c % 256) <<< 8 % 65536 = 0 := by
    rw [Nat.shiftLeft_eq]
    have : c % 256 * 2 ^ 8 % 65536 = c % 256 * 256 := by omega
    rw [this, Nat.xor_self]
  rw [h2]
  decide

theorem CRC16_residue (d : List Nat) :
    CRC16 (d ++ [CRC16 d / 256 % 256, CRC16 d % 256]) = 0 := by
  have h := crcByte_residue (CRC16 d) (CRC16_lt d)
  unfold CRC16 at h ⊢
  rw [List.foldl_append]
  exact h

/-- The packets `BuildStreamPacket` makes have CRC zero over all their 54 bytes. -/
theorem BuildStreamPacket_crc_zero (streamID : Nat) (lsd : List Nat) (frameNum : Nat)
    (isLast : Bool) (payload : List Nat) (hl : lsd.length = 28) (hp : payload.length = 16) :
    ∃ pkt, BuildStreamPacket streamID lsd frameNum isLast payload = .ok pkt ∧
      CRC16 pkt = 0 :=
  ⟨_, BuildStreamPacket_eq streamID lsd frameNum isLast payload hl hp, CRC16_residue _⟩

/-- C28: for every byte sequence `d`, the CRC of `d` followed by the two bytes of
`CRC16(d)`, high byte first as `PutUint16` writes them, is zero. So the 54 bytes of a
packet made by `BuildStreamPacket` and the 30 bytes of a frame made by `BuildLSF`, which
end in the CRC of what precedes, have CRC zero. -/
theorem CRC16_residue_zero (d : List Nat) :
    CRC16 (d ++ [CRC16 d / 256 % 256, CRC16 d % 256]) = 0 ∧
      putUint16 [0, 0] 0 (CRC16 d) = [CRC16 d / 256 % 256, CRC16 d % 256] ∧
      (∀ streamID lsd frameNum isLast payload, lsd.length = 28 → payload.length = 16 →
        ∃ pkt, BuildStreamPacket streamID lsd frameNum isLast payload = .ok pkt ∧
          CRC16 pkt = 0) ∧
      (∀ mapUpper dst src meta dstEnc srcEnc, EncodeCallsign mapUpper dst = .ok dstEnc →
        EncodeCallsign mapUpper src = .ok srcEnc → meta.length = 14 →
        ∃ lsf, BuildLSF mapUpper dst src meta = .ok lsf ∧ CRC16 lsf = 0) :=
  ⟨CRC16_residue d, rfl,
    fun streamID lsd frameNum isLast payload hl hp =>
      BuildStreamPacket_crc_zero streamID lsd frameNum isLast payload hl hp,
    fun mapUpper dst src meta dstEnc srcEnc hd hs hm =>
      ⟨_, BuildLSF_eq mapUpper dst src meta dstEnc srcEnc hd hs hm, CRC16_residue _⟩⟩

theorem crcShift_linear (a b : Nat) : crcShift (a ^^^ b) = crcShift a ^^^ crcShift b := by
  have htop : ∀ x : Nat, (x &&& 0x8000 ≠ 0) ↔ x.testBit 15 = true := by
    intro x
    rw [← and_0x8000]
    simp
  have hs : ∀ x : Nat, x <<< 1 % 65536 = x * 2 % 65536 := by
    intro x
    rw [Nat.shiftLeft_eq]
  have hc : ∀ x y p : Nat, (x ^^^ p) ^^^ (y ^^^ p) = x ^^^ y := by
    intro x y p
    rw [Nat.xor_assoc, Nat.xor_comm y p, ← Nat.xor_assoc p, Nat.xor_self, Nat.zero_xor]
  unfold crcShift
  simp only [htop, shift_xor, Nat.testBit_xor]
  simp only [hs]
  cases a.testBit 15 <;> cases b.testBit 15 <;> simp [hc]
  all_goals ac_rfl

theorem crcShift_iter_linear (k : Nat) : ∀ a b : Nat,
    crcShift^[k] (a ^^^ b) = crcShift^[k] a ^^^ crcShift^[k] b := by
  induction k with
  | zero => intro a b; rfl
  | succ k ih =>
    intro a b
    rw [Function.iterate_succ_apply, Function.iterate_succ_apply, Function.iterate_succ_apply,
      crcShift_linear, ih]

theorem crcShift_ne_zero (x : Nat) (hx : x < 65536) (h0 : x ≠ 0) : crcShift x ≠ 0 := by
  have htop := and_0x8000 x
  rw [testBit_15_eq x hx] at htop
  unfold crcShift
  rw [Nat.shiftLeft_eq]
  split_ifs with h
  · intro h1
    rw [Nat.xor_eq_zero] at h1
    omega
  · have : ¬ (0x8000 ≤ x) := by
      intro hle
      rw [decide_eq_true hle] at htop
      simp at htop
      exact h htop
    omega

theorem crcShift_iter_ne_zero (k : Nat) : ∀ x, x < 65536 → x ≠ 0 → crcShift^[k] x ≠ 0 := by
  induction k with
  | zero => intro x _ h; exact h
  | succ k ih =>
    intro x hx h0
    rw [Function.iterate_succ_apply]
    exact ih _ (crcShift_lt x) (crcShift_ne_zero x hx h0)

theorem crcShift_iter_lt (k : Nat) (x : Nat) (hx : x < 65536) : crcShift^[k] x < 65536 := by
  cases k with
  | zero => exact hx
  | succ k =>
    rw [Function.iterate_succ_apply']
    exact crcShift_lt _

/-- A difference in the register goes through a byte as a difference. -/
theorem crcByte_xor_reg (c δ b : Nat) :
    crcByte (c ^^^ δ) b = crcByte c b ^^^ crcShift^[8] δ := by
  unfold crcByte
  rw [Nat.xor_assoc, Nat.xor_comm δ, ← Nat.xor_assoc, crcShift_iter_linear]

/-- A difference in a byte goes into the register as a difference. -/
theorem crcByte_xor_byte (c b e : Nat) :
    crcByte c (b ^^^ e) = crcByte c b ^^^ crcShift^[8] (e <<< 8 % 65536) := by
  have h : (b ^^^ e) <<< 8 % 65536 = (b <<< 8 % 65536) ^^^ (e <<< 8 % 65536) := by
    apply Nat.eq_of_testBit_eq
    intro i
    rw [show (65536 : Nat) = 2 ^ 16 from rfl]
    simp only [Nat.testBit_mod_two_pow, Nat.testBit_xor, Nat.testBit_shiftLeft]
    cases decide (i < 16) <;> cases decide (i ≥ 8) <;> simp
  unfold crcByte
  rw [h, ← Nat.xor_assoc, crcShift_iter_linear]

theorem foldl_crcByte_xor (post : List Nat) : ∀ c δ : Nat, δ < 65536 → δ ≠ 0 →
    ∃ δ1, δ1 < 65536 ∧ δ1 ≠ 0 ∧
      post.foldl crcByte (c ^^^ δ) = post.foldl crcByte c ^^^ δ1 := by
  induction post with
  | nil => intro c δ h1 h2; exact ⟨δ, h1, h2, rfl⟩
  | cons b rest ih =>
    intro c δ h1 h2
    rw [List.foldl_cons, List.foldl_cons, crcByte_xor_reg]
    exact ih _ _ (crcShift_iter_lt 8 δ h1) (crcShift_iter_ne_zero 8 δ h1 h2)

/-- One bit flipped in one byte changes the CRC. -/
theorem CRC16_flip_ne (pre post : List Nat) (b j : Nat) (hj : j < 8) :
    CRC16 (pre ++ (b ^^^ 2 ^ j) :: post) ≠ CRC16 (pre ++ b :: post) := by
  unfold CRC16
  rw [List.foldl_append, List.foldl_append, List.foldl_cons, List.foldl_cons, crcByte_xor_byte]
  have hlt : 2 ^ j <<< 8 % 65536 < 65536 := Nat.mod_lt _ (by norm_num)
  have hne : 2 ^ j <<< 8 % 65536 ≠ 0 := by
    rw [Nat.shiftLeft_eq, ← pow_add]
    have : 2 ^ (j + 8) < 65536 := by
      rw [show (65536 : Nat) = 2 ^ 16 from rfl]
      exact Nat.pow_lt_pow_right (by norm_num) (by omega)
    rw [Nat.mod_eq_of_lt this]
    exact (Nat.pow_pos (by norm_num)).ne'
  obtain ⟨δ1, _, h0, heq⟩ := foldl_crcByte_xor post (crcByte (pre.foldl crcByte 0xFFFF) b) _
    (crcShift_iter_lt 8 _ hlt) (crcShift_iter_ne_zero 8 _ hlt hne)
  rw [heq]
  intro h
  have : post.foldl crcByte (crcByte (pre.foldl crcByte 0xFFFF) b) ^^^ δ1 =
      post.foldl crcByte (crcByte (pre.foldl crcByte 0xFFFF) b) ^^^ 0 := by
    rw [h, Nat.xor_zero]
  exact h0 (Nat.xor_right_injective this)

theorem flipBit_split (d : List Nat) (i j : Nat) (hi : i < d.length) :
    flipBit d i j = d.take i ++ (d.getD i 0 ^^^ 2 ^ j) :: d.drop (i + 1) ∧
      d = d.take i ++ d.getD i 0 :: d.drop (i + 1) := by
  constructor
  · unfold flipBit
    rw [List.set_eq_take_append_cons_drop, if_pos hi]
  · rw [List.getD_eq_getElem?_getD, List.getElem?_eq_getElem hi, Option.getD_some,
      ← List.drop_eq_getElem_cons hi, List.take_append_drop]

theorem flipBit_length (d : List Nat) (i j : Nat) : (flipBit d i j).length = d.length := by
  unfold flipBit
  rw [List.length_set]

theorem xor_bit_byte (v j : Nat) (hv : v < 256) (hj : j < 8) :
    v ^^^ 2 ^ j < 256 ∧ v ^^^ 2 ^ j ≠ v := by
  constructor
  · exact Nat.xor_lt_two_pow (n := 8) hv (Nat.pow_lt_pow_right (by norm_num) hj)
  · intro h
    have h1 : v ^^^ 2 ^ j = v ^^^ 0 := by rw [h, Nat.xor_zero]
    exact (Nat.pow_pos (by norm_num : 0 < 2)).ne' (Nat.xor_right_injective h1)

/-- A packet of 54 bytes whose CRC field differs from the CRC of its first 52 bytes is
rejected. -/
theorem ParseStreamPacket_crc_error (d : List Nat)
    (h : CRC16 (d.take 52) ≠ (d.getD 52 0 * 256 + d.getD 53 0) % 65536) :
    ∃ e, ParseStreamPacket d = .error e := by
  rw [ParseStreamPacket_eq]
  split_ifs
  · exact ⟨_, rfl⟩
  · exact ⟨_, rfl⟩
  · exact ⟨_, rfl⟩

/-- One bit flipped in 52 bytes followed by their CRC. -/
theorem flipped_packet_rejected (X : List Nat) (hX : X.length = 52) (i j : Nat) (hi : i < 54)
    (hj : j < 8) :
    ∃ e, ParseStreamPacket (flipBit (X ++ [CRC16 X / 256 % 256, CRC16 X % 256]) i j) =
      .error e := by
  have hc := CRC16_lt X
  apply ParseStreamPacket_crc_error
  by_cases h52 : i < 52
  · have hs : flipBit (X ++ [CRC16 X / 256 % 256, CRC16 X % 256]) i j =
        flipBit X i j ++ [CRC16 X / 256 % 256, CRC16 X % 256] := by
      unfold flipBit
      rw [List.set_append_left _ _ (by omega), List.getD_append _ _ _ _ (by omega)]
    rw [hs, List.take_left' (by rw [flipBit_length, hX]),
      List.getD_append_right _ _ _ _ (by rw [flipBit_length]; omega),
      List.getD_append_right _ _ _ _ (by rw [flipBit_length]; omega), flipBit_length, hX]
    obtain ⟨h1, h2⟩ := flipBit_split X i j (by omega)
    have hne := CRC16_flip_ne (X.take i) (X.drop (i + 1)) (X.getD i 0) j hj
    rw [← h1, ← h2] at hne
    have : (([CRC16 X / 256 % 256, CRC16 X % 256] : List Nat).getD (52 - 52) 0 * 256 +
        ([CRC16 X / 256 % 256, CRC16 X % 256] : List Nat).getD (53 - 52) 0) % 65536 =
        CRC16 X := by
      simp only [List.getD_cons_zero, Nat.sub_self, show 53 - 52 = 1 from rfl,
        List.getD_cons_succ]
      omega
    rw [this]
    exact hne
  · have hs : flipBit (X ++ [CRC16 X / 256 % 256, CRC16 X % 256]) i j =
        X ++ flipBit [CRC16 X / 256 % 256, CRC16 X % 256] (i - 52) j := by
      unfold flipBit
      rw [List.set_append_right _ _ (by omega), List.getD_append_right _ _ _ _ (by omega), hX]
    rw [hs, List.take_left' hX, List.getD_append_right _ _ _ _ (by omega),
      List.getD_append_right _ _ _ _ (by omega), hX]
    have hi2 : i = 52 ∨ i = 53 := by omega
    obtain ⟨a1, a2⟩ := xor_bit_byte (CRC16 X / 256 % 256) j (Nat.mod_lt _ (by norm_num)) hj
    obtain ⟨b1, b2⟩ := xor_bit_byte (CRC16 X % 256) j (Nat.mod_lt _ (by norm_num)) hj
    rcases hi2 with rfl | rfl
    · simp only [flipBit, Nat.sub_self, List.getD_cons_zero, List.set_cons_zero,
        show 53 - 52 = 1 from rfl, List.getD_cons_succ]
      omega
    · simp only [flipBit, Nat.sub_self, List.getD_cons_zero, List.set_cons_zero,
        show 53 - 52 = 1 from rfl, List.getD_cons_succ, List.set_cons_succ]
      omega

/-- C29: for every packet that `BuildStreamPacket` makes from a 28-byte LSD and a 16-byte
payload, and for every bit `j` of every byte `i` of its 54 bytes, the packet with this one
bit flipped is rejected by `ParseStreamPacket`. -/
theorem single_bit_flip_rejected (streamID : Nat) (lsd : List Nat) (frameNum : Nat)
    (isLast : Bool) (payload : List Nat) (hl : lsd.length = 28) (hp : payload.length = 16)
    (i j : Nat) (hi : i < 54) (hj : j < 8) :
    ∃ pkt, BuildStreamPacket streamID lsd frameNum isLast payload = .ok pkt ∧
      pkt.length = 54 ∧ (flipBit pkt i j).length = 54 ∧
      ∃ e, ParseStreamPacket (flipBit pkt i j) = .error e := by
  have hX : (streamMagic ++ [streamID / 256 % 256, streamID % 256] ++ lsd ++
      [(if isLast then frameNum ||| 0x8000 else frameNum) / 256 % 256,
        (if isLast then frameNum ||| 0x8000 else frameNum) % 256] ++ payload).length = 52 := by
    simp [hl, hp, streamMagic]
  refine ⟨_, BuildStreamPacket_eq streamID lsd frameNum isLast payload hl hp, ?_, ?_,
    flipped_packet_rejected _ hX i j hi hj⟩
  · rw [List.length_append, hX]
    rfl
  · rw [flipBit_length, List.length_append, hX]
    rfl

/-- C29 on the packet of the unit test, with the lowest bit of the first payload byte
flipped. -/
theorem single_bit_flip_rejected_witness :
    ∃ pkt, BuildStreamPacket 0x1234 (List.replicate 28 0) 0 false (List.replicate 16 0) =
        .ok pkt ∧
      pkt.length = 54 ∧ (flipBit pkt 36 0).length = 54 ∧
      ∃ e, ParseStreamPacket (flipBit pkt 36 0) = .error e :=
  single_bit_flip_rejected 0x1234 (List.replicate 28 0) 0 false (List.replicate 16 0)
    (by decide) (by decide) 36 0 (by decide) (by decide)

/-! ## Decoding any six bytes -/

set_option maxRecDepth 100000 in
/-- C30 fails on the code at the broadcast address: `DecodeCallsign` of
`FF FF FF FF FF FF` is the ten characters `OFD4BS.-BA`, all of the alphabet but one more
than nine, and both `ValidateCallsign` and `EncodeCallsign` reject it as too long. -/
theorem DecodeCallsign_broadcast :
    DecodeCallsign [255, 255, 255, 255, 255, 255] = str "OFD4BS.-BA" ∧
      (DecodeCallsign [255, 255, 255, 255, 255, 255]).length = 10 ∧
      (∀ x ∈ DecodeCallsign [255, 255, 255, 255, 255, 255], InAlphabet x) ∧
      ValidateCallsign id (DecodeCallsign [255, 255, 255, 255, 255, 255]) = .error .tooLong ∧
      EncodeCallsign id (DecodeCallsign [255, 255, 255, 255, 255, 255]) = .error .tooLong := by
  have h : DecodeCallsign [255, 255, 255, 255, 255, 255] = str "OFD4BS.-BA" := by decide
  rw [h]
  exact ⟨rfl, by decide, by decide, rfl, rfl⟩

/-! ## Session manager: the cap -/

theorem mapGet_mapSet (m : List (List Nat × α)) (k : List Nat) (v : α) :
    mapGet (mapSet m k v) k = some v := by
  unfold mapGet mapSet
  rw [List.find?_append]
  have h : (m.filter (fun e => e.1 != k)).find? (fun e => e.1 == k) = none := by
    rw [List.find?_eq_none]
    intro e he
    have := (List.mem_filter.1 he).2
    simpa using this
  rw [h]
  simp

theorem mapSet_length_fresh (m : List (List Nat × α)) (k : List Nat) (v : α)
    (h : mapGet m k = none) : (mapSet m k v).length = m.length + 1 := by
  unfold mapGet at h
  unfold mapSet
  have hf : m.filter (fun e => e.1 != k) = m := by
    rw [List.filter_eq_self]
    intro e he
    rw [Option.map_eq_none', List.find?_eq_none] at h
    have := h e he
    simpa using this
  rw [hf]
  simp

theorem mapSet_length_le (m : List (List Nat × α)) (k : List Nat) (v : α) :
    (mapSet m k v).length ≤ m.length + 1 := by
  unfold mapSet
  rw [List.length_append]
  exact Nat.add_le_add_right (List.length_filter_le _ _) _

theorem AddSession_error_iff (sm : SessionManager σ ν ρ) (id : List Nat) :
    ((AddSession sm id).1 = .error .maxSessions ↔
      (sm.MaxSessions > 0 ∧ (Count sm : Int) ≥ sm.MaxSessions)) ∧
    ((∃ s, (AddSession sm id).1 = .ok s) ↔
      ¬ (sm.MaxSessions > 0 ∧ (Count sm : Int) ≥ sm.MaxSessions)) := by
  unfold AddSession Count
  by_cases h : sm.MaxSessions > 0 ∧ (sm.sessions.length : Int) ≥ sm.MaxSessions
  · rw [if_pos h]
    simp [h]
  · rw [if_neg h]
    simp [h]

theorem AddSession_fail (sm : SessionManager σ ν ρ) (id : List Nat)
    (h : (AddSession sm id).1 = .error .maxSessions) : (AddSession sm id).2 = sm := by
  have := ((AddSession_error_iff sm id).1).1 h
  unfold AddSession
  unfold Count at this
  rw [if_pos this]

theorem AddSession_ok (sm : SessionManager σ ν ρ) (id : List Nat) (s : Session σ ν ρ)
    (h : (AddSession sm id).1 = .ok s) :
    s.ID = id ∧ GetSession (AddSession sm id).2 id = some s ∧
      (AddSession sm id).2.MaxSessions = sm.MaxSessions ∧
      Count (AddSession sm id).2 ≤ Count sm + 1 ∧
      (GetSession sm id = none → Count (AddSession sm id).2 = Count sm + 1) := by
  unfold AddSession at h ⊢
  split_ifs at h ⊢ with hc
  simp only [Except.ok.injEq] at h
  subst h
  exact ⟨rfl, mapGet_mapSet _ _ _, rfl, mapSet_length_le _ _ _,
    fun hf => mapSet_length_fresh _ _ _ hf⟩

theorem RemoveSession_count (sm : SessionManager σ ν ρ) (id : List Nat) :
    Count (RemoveSession sm id).1 ≤ Count sm ∧
      (RemoveSession sm id).1.MaxSessions = sm.MaxSessions := by
  unfold RemoveSession Count
  cases mapGet sm.sessions id with
  | none => exact ⟨Nat.le_refl _, rfl⟩
  | some s => exact ⟨List.length_filter_le _ _, rfl⟩

/-- With a positive cap in force, no sequence of calls takes the count above the cap. -/
theorem runManager_count (calls : List ManagerCall) :
    ∀ (sm : SessionManager σ ν ρ), sm.MaxSessions > 0 → (Count sm : Int) ≤ sm.MaxSessions →
      (Count (runManager sm calls) : Int) ≤ sm.MaxSessions ∧
        (runManager sm calls).MaxSessions = sm.MaxSessions := by
  induction calls with
  | nil => intro sm _ h; exact ⟨h, rfl⟩
  | cons c rest ih =>
    intro sm hm hc
    cases c with
    | add id =>
      rw [runManager]
      cases hres : (AddSession sm id).1 with
      | error e =>
        cases e
        rw [AddSession_fail sm id hres]
        exact ih sm hm hc
      | ok s =>
        obtain ⟨_, _, hmax, hle, _⟩ := AddSession_ok sm id s hres
        have hno := ((AddSession_error_iff sm id).2).1 ⟨s, hres⟩
        have hlt : (Count sm : Int) < sm.MaxSessions := by
          by_contra hge
          exact hno ⟨hm, by omega⟩
        have := ih (AddSession sm id).2 (by rw [hmax]; exact hm) (by rw [hmax]; omega)
        rw [hmax] at this
        exact this
    | remove id =>
      rw [runManager]
      obtain ⟨hle, hmax⟩ := RemoveSession_count sm id
      have := ih (RemoveSession sm id).1 (by rw [hmax]; exact hm) (by rw [hmax]; omega)
      rw [hmax] at this
      exact this

/-- C24: `AddSession` fails, with the text "maximum sessions reached", iff
`MaxSessions > 0` and the registry already holds at least `MaxSessions` sessions; a failed
`AddSession` leaves the manager unchanged; a successful one returns a session that carries
the identifier drawn and is retrievable by it, and it adds exactly one entry when the
identifier is fresh, as a UUID is; with a cap `m > 0` set on the empty manager, `Count` is
at most `m` after every sequence of `AddSession` and `RemoveSession` calls; and
`MaxSessions = 0` never rejects. -/
theorem AddSession_cap (sm : SessionManager σ ν ρ) (id : List Nat) :
    ((AddSession sm id).1 = .error .maxSessions ↔
      (sm.MaxSessions > 0 ∧ (Count sm : Int) ≥ sm.MaxSessions)) ∧
    ((∃ s, (AddSession sm id).1 = .ok s) ↔
      ¬ (sm.MaxSessions > 0 ∧ (Count sm : Int) ≥ sm.MaxSessions)) ∧
    ManagerError.Error .maxSessions = str "maximum sessions reached" ∧
    ((AddSession sm id).1 = .error .maxSessions → (AddSession sm id).2 = sm) ∧
    (∀ s, (AddSession sm id).1 = .ok s →
      s.ID = id ∧ GetSession (AddSession sm id).2 id = some s ∧
      (GetSession sm id = none → Count (AddSession sm id).2 = Count sm + 1)) ∧
    (∀ (m : Int) (calls : List ManagerCall), m > 0 →
      (Count (runManager
        ({ (NewSessionManager : SessionManager σ ν ρ) with MaxSessions := m }) calls) : Int) ≤
        m) ∧
    (sm.MaxSessions = 0 → ∃ s, (AddSession sm id).1 = .ok s) := by
  refine ⟨(AddSession_error_iff sm id).1, (AddSession_error_iff sm id).2, rfl,
    AddSession_fail sm id, fun s hs => ?_, fun m calls hm => ?_, fun h0 => ?_⟩
  · obtain ⟨h1, h2, _, _, h5⟩ := AddSession_ok sm id s hs
    exact ⟨h1, h2, h5⟩
  · exact (runManager_count calls
      ({ (NewSessionManager : SessionManager σ ν ρ) with MaxSessions := m }) hm
      (by simp [Count, NewSessionManager]; omega)).1
  · exact ((AddSession_error_iff sm id).2).2 (fun h => by omega)

/-! ## Origin rules: what the validator accepts -/

theorem splitByte_ne_nil (sep : Nat) (s : List Nat) : splitByte sep s ≠ [] := by
  cases s with
  | nil => simp [splitByte]
  | cons c rest =>
    rw [splitByte]
    split_ifs
    · simp
    · split <;> simp

/-- The pieces `splitByte` gives hold no separator, and joined by the separator they are
the string again. -/
theorem splitByte_spec (sep : Nat) (s : List Nat) :
    (∀ p ∈ splitByte sep s, sep ∉ p) ∧ List.intercalate [sep] (splitByte sep s) = s := by
  induction s with
  | nil => simp [splitByte, List.intercalate]
  | cons c rest ih =>
    rw [splitByte]
    have hne := splitByte_ne_nil sep rest
    cases hr : splitByte sep rest with
    | nil => exact absurd hr hne
    | cons p ps =>
      rw [hr] at ih
      obtain ⟨ih1, ih2⟩ := ih
      by_cases hc : c = sep
      · rw [if_pos hc]
        refine ⟨?_, ?_⟩
        · intro q hq
          rcases List.mem_cons.1 hq with rfl | hq
          · simp
          · exact ih1 q hq
        · rw [List.intercalate, List.intersperse_cons_cons, List.flatten_cons,
            List.flatten_cons, ← List.intercalate, ih2, hc]
          rfl
      · rw [if_neg hc]
        refine ⟨?_, ?_⟩
        · intro q hq
          rcases List.mem_cons.1 hq with rfl | hq
          · intro hm
            rcases List.mem_cons.1 hm with h | h
            · exact hc h.symm
            · exact ih1 p (List.mem_cons_self _ _) h
          · exact ih1 q (List.mem_cons_of_mem _ hq)
        · rw [← ih2]
          cases ps with
          | nil => simp [List.intercalate]
          | cons p2 ps2 =>
            simp [List.intercalate, List.intersperse_cons_cons]

theorem star_split (e : List Nat) (h : 42 ∈ e) : e = beforeStar e ++ 42 :: afterStar e := by
  unfold beforeStar afterStar
  induction e with
  | nil => simp at h
  | cons c rest ih =>
    by_cases hc : c = 42
    · subst hc
      simp
    · have hr : 42 ∈ rest := by
        rcases List.mem_cons.1 h with h | h
        · exact absurd h.symm hc
        · exact h
      have hb : (c != 42) = true := by simpa using hc
      rw [List.takeWhile_cons, List.dropWhile_cons, if_pos hb, if_pos hb, List.cons_append,
        ← ih hr]

theorem NewOriginValidator_cons (rule : OriginRule) (rest : List OriginRule) (o : List Nat) :
    NewOriginValidator (rule :: rest) o =
      if rule.AllowAll then true
      else if rule.Exact ≠ [] ∧ o = rule.Exact then true
      else if (rule.Prefix ≠ [] ∨ rule.Suffix ≠ []) ∧ rule.Prefix.isPrefixOf o ∧
          rule.Suffix.isSuffixOf o then true
      else NewOriginValidator rest o := rfl

/-- What one rule accepts. -/
theorem originRule_accepts (e o : List Nat) (he : e ≠ []) (rest : List OriginRule) :
    NewOriginValidator (originRule e :: rest) o = true ↔
      ((e = [42] ∨ (42 ∉ e ∧ o = e) ∨
        (42 ∈ e ∧ beforeStar e <+: o ∧ afterStar e <:+ o)) ∨
        NewOriginValidator rest o = true) := by
  rw [NewOriginValidator_cons]
  unfold originRule
  by_cases h1 : e = [42]
  · simp [h1]
  by_cases h2 : 42 ∈ e
  · have hne : beforeStar e ≠ [] ∨ afterStar e ≠ [] := by
      by_contra hcon
      push_neg at hcon
      have := star_split e h2
      rw [hcon.1, hcon.2] at this
      exact h1 this
    rw [if_neg h1, if_pos h2]
    simp only [beforeStar, afterStar] at hne ⊢
    simp only [h1, h2, hne, Bool.false_eq_true, if_false, ne_eq, not_true_eq_false, false_and,
      true_and, List.isPrefixOf_iff_prefix, List.isSuffixOf_iff_suffix, false_or, not_true,
      and_true, true_or]
    split_ifs with hc
    · simp only [List.drop_one] at hc
      simp [hc]
    · simp only [List.drop_one] at hc
      simp only [List.drop_one, true_and]
      constructor
      · intro h
        exact Or.inr h
      · rintro (h | h)
        · exact absurd h hc
        · exact h
  · rw [if_neg h1, if_neg h2]
    simp [h1, h2, he]

theorem parseOriginLoop_accepts (trimU : List Nat → List Nat) (o : List Nat)
    (pieces : List (List Nat)) :
    NewOriginValidator (parseOriginLoop trimU pieces) o = true ↔
      ∃ e ∈ (pieces.map (trimSpace trimU)).filter (fun e => e != []),
        e = [42] ∨ (42 ∉ e ∧ o = e) ∨ (42 ∈ e ∧ beforeStar e <+: o ∧ afterStar e <:+ o) := by
  induction pieces with
  | nil => simp [parseOriginLoop, NewOriginValidator]
  | cons p rest ih =>
    rw [parseOriginLoop]
    by_cases hp : trimSpace trimU p ≠ []
    · simp only [hp, ne_eq, not_false_eq_true, if_true]
      rw [originRule_accepts _ _ hp, ih, List.map_cons, List.filter_cons_of_pos (by simpa using hp)]
      simp
    · simp only [hp, if_false]
      rw [ih, List.map_cons, List.filter_cons_of_neg (by simpa using hp)]

theorem splitByte_nil_entries (trimU : List Nat → List Nat) : originEntries trimU [] = [] := by
  simp [originEntries, splitByte, trimSpace, TrimSpace]

theorem validator_accepts_iff (trimU : List Nat → List Nat) (env o : List Nat) :
    NewOriginValidator (ParseOriginRules trimU env) o = true ↔
      ∃ e ∈ originEntries trimU env,
        e = [42] ∨ (42 ∉ e ∧ o = e) ∨ (42 ∈ e ∧ beforeStar e <+: o ∧ afterStar e <:+ o) := by
  unfold ParseOriginRules
  by_cases h : env = []
  · rw [if_pos h, h, splitByte_nil_entries]
    simp [NewOriginValidator]
  · rw [if_neg h]
    exact parseOriginLoop_accepts trimU o _

/-- A string that starts with `P` and ends with `S` is `P ++ w ++ S` exactly when it is
long enough for the two not to overlap. -/
theorem between_iff (P S o : List Nat) :
    (∃ w, o = P ++ w ++ S) ↔ (P <+: o ∧ S <:+ o ∧ P.length + S.length ≤ o.length) := by
  constructor
  · rintro ⟨w, rfl⟩
    exact ⟨⟨w ++ S, by simp⟩, ⟨P ++ w, rfl⟩, by simp⟩
  · rintro ⟨⟨t, rfl⟩, hs, hlen⟩
    have ht : t <:+ P ++ t := ⟨P, rfl⟩
    have hst : S <:+ t := List.suffix_of_suffix_length_le hs ht (by
      rw [List.length_append] at hlen
      omega)
    obtain ⟨w, rfl⟩ := hst
    exact ⟨w, by simp⟩

/-- C25 fails where the two sides of a wildcard entry overlap in the origin: with
`ALLOWED_ORIGINS = "a*a"` the validator accepts the origin `a`, which starts with `a` and
ends with `a` but is not `"a" ++ w ++ "a"` for any `w`. -/
theorem origin_overlap_accepted :
    NewOriginValidator (ParseOriginRules id (str "a*a")) (str "a") = true ∧
      originEntries id (str "a*a") = [str "a*a"] ∧
      beforeStar (str "a*a") = str "a" ∧ afterStar (str "a*a") = str "a" ∧
      ¬ ∃ w, str "a" = str "a" ++ w ++ str "a" := by
  refine ⟨by decide, by decide, by decide, by decide, ?_⟩
  rintro ⟨w, hw⟩
  have := congrArg List.length hw
  simp [str] at this

/-- C25, amended: the validator of `ParseOriginRules(env)` accepts `o` iff some
comma-separated, white-space-trimmed, non-empty entry `e` of `env` satisfies one of: `e` is
`*`; `e` contains no `*` and `o = e`; `e` contains a `*`, with `P` the text before its first
`*` and `S` the text after it, and `o` starts with `P` and ends with `S`. Starting with `P`
and ending with `S` is being `P ++ w ++ S` for some `w` only when `o` has at least as many
characters as `P` and `S` together. The entries are the pieces between the commas of `env`,
trimmed by `strings.TrimSpace`, the empty ones left out. -/
theorem origin_validator_spec (trimU : List Nat → List Nat) (env o : List Nat) :
    (NewOriginValidator (ParseOriginRules trimU env) o = true ↔
      ∃ e ∈ originEntries trimU env,
        e = [42] ∨ (42 ∉ e ∧ o = e) ∨
          (42 ∈ e ∧ beforeStar e <+: o ∧ afterStar e <:+ o)) ∧
    ((∀ p ∈ splitByte 44 env, 44 ∉ p) ∧ List.intercalate [44] (splitByte 44 env) = env ∧
      originEntries trimU env =
        ((splitByte 44 env).map (trimSpace trimU)).filter (fun e => e != [])) ∧
    (∀ e, 42 ∈ e → e = beforeStar e ++ 42 :: afterStar e ∧ 42 ∉ beforeStar e) ∧
    (∀ P S : List Nat, (∃ w, o = P ++ w ++ S) ↔
      (P <+: o ∧ S <:+ o ∧ P.length + S.length ≤ o.length)) :=
  ⟨validator_accepts_iff trimU env o,
    ⟨(splitByte_spec 44 env).1, (splitByte_spec 44 env).2, rfl⟩,
    fun e he => ⟨star_split e he, fun hm => by
      have := List.mem_takeWhile_imp hm
      simp at this⟩,
    fun P S => between_iff P S o⟩

/-! ## Session: ptt, join and disconnect -/

theorem emitBlock_streamID (env : Env σ ν) (sh : StreamHandler σ ν) (block : List Int)
    (markLast : Bool) : (emitBlock env sh block markLast).2.streamID = sh.streamID := by
  unfold emitBlock
  split
  · rfl
  · dsimp only
    split
    · rfl
    · split <;> rfl

theorem sendLoop_streamID (env : Env σ ν) (isLast : Bool) (fuel : Nat) :
    ∀ (sh : StreamHandler σ ν) (sent0 : List Sent),
      (sendLoop env isLast fuel sh sent0).sh.streamID = sh.streamID := by
  induction fuel with
  | zero => intro sh sent0; rfl
  | succ fuel ih =>
    intro sh sent0
    rw [sendLoop]
    by_cases hL : sh.pcmBuffer.length ≥ 320
    · rw [if_pos hL]
      dsimp only
      have e1 := emitBlock_streamID env sh (slice sh.pcmBuffer 0 320)
        (isLast && sh.pcmBuffer.length == 320)
      generalize emitBlock env sh (slice sh.pcmBuffer 0 320)
        (isLast && sh.pcmBuffer.length == 320) = r at e1
      obtain ⟨res, sh1⟩ := r
      cases res with
      | error e => exact e1
      | ok s =>
        simp only
        rw [ih]
        exact e1
    · rw [if_neg hL]

/-- The Stream-ID of the handler survives `SendPCMFrame`. -/
theorem SendPCMFrame_streamID (env : Env σ ν) (sh : StreamHandler σ ν) (pcm : List Int)
    (isLast : Bool) : (SendPCMFrame env sh pcm isLast).sh.streamID = sh.streamID := by
  have l1 := sendLoop_streamID env isLast (sh.pcmBuffer ++ pcm).length
    { sh with pcmBuffer := sh.pcmBuffer ++ pcm } []
  unfold SendPCMFrame
  simp only
  generalize sendLoop env isLast (sh.pcmBuffer ++ pcm).length
    { sh with pcmBuffer := sh.pcmBuffer ++ pcm } [] = r at l1
  obtain ⟨err, sh1, sent⟩ := r
  simp only at l1
  cases err with
  | some e => exact l1
  | none =>
    simp only
    split_ifs with hcond
    · have e1 := emitBlock_streamID env sh1
        (copyAt (List.replicate 320 0) 0 320 sh1.pcmBuffer) true
      generalize emitBlock env sh1 (copyAt (List.replicate 320 0) 0 320 sh1.pcmBuffer) true = q
        at e1
      obtain ⟨res, sh2⟩ := q
      cases res with
      | error e => exact e1.trans l1
      | ok s => exact e1.trans l1
    · exact l1

/-- What `handlePTT` does with a well-formed message, by the stream handler attached. -/
theorem handlePTT_cases (env : Env σ ν) (rnd : Option Nat) (s : Session σ ν ρ) :
    (∀ sh, s.Stream = some sh →
      handlePTT env rnd s (.ok true) =
        ⟨{ s with Stream := some (StartNewStream sh rnd).2 }, [.ptt true], []⟩) ∧
    (∀ sh, s.Stream = some sh →
      handlePTT env rnd s (.ok false) =
        ⟨{ s with Stream := some (Finalize env sh).sh }, [.ptt false],
          (Finalize env sh).sent⟩) ∧
    (∀ active, s.Stream = none →
      handlePTT env rnd s (.ok active) = ⟨s, [.ptt active], []⟩) := by
  refine ⟨fun sh h => ?_, fun sh h => ?_, fun active h => ?_⟩
  · unfold handlePTT
    simp [h]
  · unfold handlePTT
    simp [h]
  · unfold handlePTT
    simp [h]

theorem processAudioFrame_session (ioText : List Nat) (s : Session σ ν ρ) (msg : List Nat)
    (maxSize : Nat) (name : List Nat) (decode : List Nat → AudioResult σ ν ρ) :
    (processAudioFrame ioText s msg maxSize name decode).s =
      if msg.length > maxSize then s else (decode msg).s := by
  unfold processAudioFrame
  split_ifs
  · rfl
  · dsimp only
    cases (decode msg).err <;> rfl

/-- An audio frame leaves the stream handler attached and its Stream-ID as it was. -/
theorem handleAudio_streamID (env : Env σ ν) (ioText : List Nat) (s : Session σ ν ρ)
    (msg : List Nat) (sh : StreamHandler σ ν) (h : s.Stream = some sh) :
    ∃ sh1, (handleAudio env ioText s msg).s.Stream = some sh1 ∧
      sh1.streamID = sh.streamID := by
  unfold handleAudio
  rw [h]
  dsimp only
  split_ifs
  · unfold handlePCM
    rw [processAudioFrame_session]
    split_ifs
    · exact ⟨sh, h, rfl⟩
    · exact ⟨sh, h, rfl⟩
    · unfold HandlePCMFrame
      rw [h]
      exact ⟨_, rfl, SendPCMFrame_streamID _ _ _ _⟩
  · unfold handleG711
    rw [processAudioFrame_session]
    split_ifs
    · exact ⟨sh, h, rfl⟩
    · unfold HandleG711Frame
      rw [h]
      exact ⟨_, rfl, SendPCMFrame_streamID _ _ _ _⟩

set_option maxRecDepth 1000000 in
set_option maxHeartbeats 4000000 in
/-- C21 fails on the code: after a join, a `ptt` active with Stream-ID 5, a µ-law frame of
320 bytes and one of 10 bytes, the handler has Stream-ID 5, frame counter 1 and 10 samples
staged; a second `ptt` active, the key still down, leaves it with the new Stream-ID 9,
frame counter 0 and nothing staged. -/
theorem ptt_repeated_restarts_stream :
    ((serveClient recordingServeEnv (newConn freshSession)
        [.join (.ok ⟨str "N0CALL", str "127.0.0.1:17000", str "A"⟩), .ptt (.ok true) (some 5),
          .binary (List.replicate 320 255), .binary (List.replicate 10 255)]).s.Stream.map
        (fun sh => (sh.streamID, sh.frameNum, sh.pcmBuffer.length))) = some (5, 1, 10) ∧
    ((serveClient recordingServeEnv (newConn freshSession)
        [.join (.ok ⟨str "N0CALL", str "127.0.0.1:17000", str "A"⟩), .ptt (.ok true) (some 5),
          .binary (List.replicate 320 255), .binary (List.replicate 10 255),
          .ptt (.ok true) (some 9)]).s.Stream.map
        (fun sh => (sh.streamID, sh.frameNum, sh.pcmBuffer.length))) = some (9, 0, 0) := by
  constructor <;> decide

/-- C21, amended: a `ptt` active starts a new stream whenever a stream handler is
attached, whatever came before, the session keeping no record of the previous `ptt`: the
handler becomes what `StartNewStream` makes of it, with the Stream-ID drawn, frame counter
0 and an empty staging buffer, the reply is `ptt` active and nothing is written. A `ptt`
inactive and an audio frame leave the handler attached with its Stream-ID, so the Stream-ID
stays constant from one `ptt` active to the next. -/
theorem ptt_active_starts_stream (env : Env σ ν) (rnd : Option Nat) (s : Session σ ν ρ)
    (sh : StreamHandler σ ν) (h : s.Stream = some sh) :
    (handlePTT env rnd s (.ok true)).s.Stream = some (StartNewStream sh rnd).2 ∧
    (handlePTT env rnd s (.ok true)).replies = [.ptt true] ∧
    (handlePTT env rnd s (.ok true)).sent = [] ∧
    (∀ v, rnd = some v →
      (StartNewStream sh rnd).2.streamID = v % 65536 ∧ (StartNewStream sh rnd).2.frameNum = 0 ∧
      (StartNewStream sh rnd).2.pcmBuffer = [] ∧ (StartNewStream sh rnd).2.lsd = sh.lsd) ∧
    (∃ sh1, (handlePTT env rnd s (.ok false)).s.Stream = some sh1 ∧
      sh1.streamID = sh.streamID) ∧
    (∀ ioText msg, ∃ sh1, (handleAudio env ioText s msg).s.Stream = some sh1 ∧
      sh1.streamID = sh.streamID) := by
  obtain ⟨c1, c2, _⟩ := handlePTT_cases env rnd s
  rw [c1 sh h, c2 sh h]
  refine ⟨rfl, rfl, rfl, fun v hv => ?_, ⟨_, rfl, SendPCMFrame_streamID _ _ _ _⟩,
    fun ioText msg => handleAudio_streamID env ioText s msg sh h⟩
  subst hv
  exact ⟨rfl, rfl, rfl, rfl⟩

/-- C21, amended, on a session with a handler attached and the Stream-ID 9 drawn. -/
theorem ptt_active_starts_stream_witness :
    (handlePTT recordingEnv (some 9) attachedSession (.ok true)).s.Stream =
      some (StartNewStream (freshHandler 7 (List.replicate 28 0)) (some 9)).2 ∧
    (handlePTT recordingEnv (some 9) attachedSession (.ok true)).replies = [.ptt true] ∧
    (handlePTT recordingEnv (some 9) attachedSession (.ok true)).sent = [] ∧
    (∀ v, (some 9) = some v →
      (StartNewStream (freshHandler 7 (List.replicate 28 0)) (some 9)).2.streamID = v % 65536 ∧
      (StartNewStream (freshHandler 7 (List.replicate 28 0)) (some 9)).2.frameNum = 0 ∧
      (StartNewStream (freshHandler 7 (List.replicate 28 0)) (some 9)).2.pcmBuffer = [] ∧
      (StartNewStream (freshHandler 7 (List.replicate 28 0)) (some 9)).2.lsd =
        (freshHandler 7 (List.replicate 28 0)).lsd) ∧
    (∃ sh1, (handlePTT recordingEnv (some 9) attachedSession (.ok false)).s.Stream = some sh1 ∧
      sh1.streamID = (freshHandler 7 (List.replicate 28 0)).streamID) ∧
    (∀ ioText msg, ∃ sh1,
      (handleAudio recordingEnv ioText attachedSession msg).s.Stream = some sh1 ∧
      sh1.streamID = (freshHandler 7 (List.replicate 28 0)).streamID) :=
  ptt_active_starts_stream recordingEnv (some 9) attachedSession
    (freshHandler 7 (List.replicate 28 0)) rfl

/-- The teardown stops the stream handler before it disconnects: after `cleanupSession`
no stream handler is attached, and `Disconnect` is called on the reflector client of the
session, if it has one. -/
theorem cleanupSession_stops_stream (s : Session σ ν ρ) :
    (cleanupSession s).1.Stream = none ∧
      (cleanupSession s).2 = (match s.Reflector with | some rc => [rc] | none => []) := by
  unfold cleanupSession StopStreamHandler
  cases hs : s.Stream <;> cases hr : s.Reflector <;> simp [hs, hr]

set_option maxRecDepth 1000000 in
set_option maxHeartbeats 4000000 in
/-- C26 fails on the code: after a join to module `A` and a second join to module `B`,
both answered with `joined`, the factory has given two reflector clients, `Disconnect` has
been called on neither, and the session holds the second: two clients are open. -/
theorem second_join_leaves_two_clients :
    liveClients (serveClient recordingServeEnv (newConn freshSession)
        [.join (.ok ⟨str "N0CALL", str "127.0.0.1:17000", str "A"⟩),
          .join (.ok ⟨str "N0CALL", str "127.0.0.1:17000", str "B"⟩)]) =
      [(str "N0CALL", 65), (str "N0CALL", 66)] ∧
    (serveClient recordingServeEnv (newConn freshSession)
        [.join (.ok ⟨str "N0CALL", str "127.0.0.1:17000", str "A"⟩),
          .join (.ok ⟨str "N0CALL", str "127.0.0.1:17000", str "B"⟩)]).disconnected = [] ∧
    (serveClient recordingServeEnv (newConn freshSession)
        [.join (.ok ⟨str "N0CALL", str "127.0.0.1:17000", str "A"⟩),
          .join (.ok ⟨str "N0CALL", str "127.0.0.1:17000", str "B"⟩)]).s.Reflector =
      some (str "N0CALL", 66) ∧
    (serveClient recordingServeEnv (newConn freshSession)
        [.join (.ok ⟨str "N0CALL", str "127.0.0.1:17000", str "A"⟩),
          .join (.ok ⟨str "N0CALL", str "127.0.0.1:17000", str "B"⟩)]).replies =
      [.joined (str "127.0.0.1:17000") (str "A") (str "N0CALL"),
        .joined (str "127.0.0.1:17000") (str "B") (str "N0CALL")] := by
  exact ⟨by decide, by decide, by decide, by decide⟩

set_option maxRecDepth 1000000 in
set_option maxHeartbeats 4000000 in
/-- C27 fails on the code for the `disconnect` message: after a join and a `disconnect`,
`Disconnect` has been called on the reflector client and the session no longer holds it,
but the stream handler is still attached; a µ-law frame of 320 bytes that follows is
forwarded to it and a packet is handed to the socket of the closed client. The teardown,
`cleanupSession`, does leave no stream handler attached. -/
theorem disconnect_leaves_stream_attached :
    (serveClient recordingServeEnv (newConn freshSession)
        [.join (.ok ⟨str "N0CALL", str "127.0.0.1:17000", str "A"⟩),
          .disconnect]).disconnected = [(str "N0CALL", 65)] ∧
    (serveClient recordingServeEnv (newConn freshSession)
        [.join (.ok ⟨str "N0CALL", str "127.0.0.1:17000", str "A"⟩),
          .disconnect]).s.Reflector = none ∧
    (serveClient recordingServeEnv (newConn freshSession)
        [.join (.ok ⟨str "N0CALL", str "127.0.0.1:17000", str "A"⟩),
          .disconnect]).s.Stream.isSome = true ∧
    ((serveClient recordingServeEnv (newConn freshSession)
        [.join (.ok ⟨str "N0CALL", str "127.0.0.1:17000", str "A"⟩), .disconnect,
          .binary (List.replicate 320 255)]).sent.map (fun p => p.pkt.length)) = [54] ∧
    (cleanupSession (serveClient recordingServeEnv (newConn freshSession)
        [.join (.ok ⟨str "N0CALL", str "127.0.0.1:17000", str "A"⟩)]).s).1.Stream = none := by
  exact ⟨by decide, by decide, by decide, by decide, (cleanupSession_stops_stream _).1⟩

/-! ## Receiving and the reflector client: the step functions -/

theorem ParseStreamPacket_ok_inv (d : List Nat) (spkt : StreamPacket)
    (h : ParseStreamPacket d = .ok spkt) :
    54 ≤ d.length ∧ d.take 4 = streamMagic ∧ spkt.LSD.length = 28 ∧
      spkt.Payload.length = 16 := by
  rw [ParseStreamPacket_eq] at h
  split_ifs at h with h1 h2 h3
  simp only [Except.ok.injEq] at h
  subst h
  refine ⟨by omega, by simpa using h2, ?_, ?_⟩
  · simp only [List.length_take, List.length_drop]
    omega
  · simp only [List.length_take, List.length_drop]
    omega

theorem ParseLSF_lsd (lsd : List Nat) (h : lsd.length = 28) :
    ParseLSF lsd = .ok (parseLSFFields lsd) := by
  unfold ParseLSF
  rw [if_neg (by omega), if_neg (by omega)]

theorem ParseStreamPacketWithLSF_ok (d : List Nat) (spkt : StreamPacket)
    (h : ParseStreamPacket d = .ok spkt) :
    ParseStreamPacketWithLSF d = .ok (spkt, .ok (parseLSFFields spkt.LSD)) := by
  unfold ParseStreamPacketWithLSF
  rw [h]
  dsimp only
  rw [ParseLSF_lsd _ (ParseStreamPacket_ok_inv d spkt h).2.2.1]

theorem Codec2Decode_ok (lib : Codec2Lib σ) (dec : Codec2Dec σ)
    (hbits : ∀ c, lib.bits_per_frame c = 64) (c : σ) (bits : List Nat) (h : bits.length = 8) :
    ∃ pcm c1, Codec2Decode lib dec c bits = (.ok pcm, c1) := by
  unfold Codec2Decode
  dsimp only
  rw [if_neg (by rw [hbits, h]; decide)]
  exact ⟨_, _, rfl⟩

/-- A packet that parses is decoded by a codec with 64 bits per frame. -/
theorem HandleIncomingPacket_ok (env : Env σ ν) (dec : Codec2Dec σ)
    (hbits : ∀ c, env.codec.bits_per_frame c = 64) (sh : StreamHandler σ ν) (d : List Nat)
    (wantPCM : Bool) (spkt : StreamPacket) (h : ParseStreamPacket d = .ok spkt) :
    ∃ frame sh1, HandleIncomingPacket env dec sh d wantPCM = (.ok frame, sh1) := by
  have hp := (ParseStreamPacket_ok_inv d spkt h).2.2.2
  unfold HandleIncomingPacket
  rw [ParseStreamPacketWithLSF_ok d spkt h]
  dsimp only
  obtain ⟨p1, c1, e1⟩ := Codec2Decode_ok env.codec dec hbits sh.codec2Inst
    (slice spkt.Payload 0 8) (by rw [slice_length _ _ _ (by omega)])
  rw [e1]
  dsimp only
  obtain ⟨p2, c2, e2⟩ := Codec2Decode_ok env.codec dec hbits c1
    (slice spkt.Payload 8 16) (by rw [slice_length _ _ _ (by omega)])
  rw [e2]
  dsimp only
  split_ifs
  · exact ⟨_, _, rfl⟩
  · exact ⟨_, _, rfl⟩

theorem processPacket_error (env : Env σ ν) (dec : Codec2Dec σ) (usePCM : Bool)
    (st : RxState σ ν) (pkt : List Nat) (e : StreamError)
    (h : ParseStreamPacket pkt = .error e) : processPacket env dec usePCM st pkt = st := by
  unfold processPacket
  by_cases hc : pkt.length < 4 ∨ slice pkt 0 4 ≠ streamMagic
  · rw [if_pos hc]
  · rw [if_neg hc]
    unfold ParseStreamPacketWithLSF
    rw [h]

theorem processPacket_ok (env : Env σ ν) (dec : Codec2Dec σ)
    (hbits : ∀ c, env.codec.bits_per_frame c = 64) (usePCM : Bool) (st : RxState σ ν)
    (pkt : List Nat) (spkt : StreamPacket) (h : ParseStreamPacket pkt = .ok spkt) :
    (processPacket env dec usePCM st pkt).rxActive = !spkt.IsLast ∧
      (processPacket env dec usePCM st pkt).OutgoingMessages =
        (if spkt.IsLast then
          (if st.rxActive then st.OutgoingMessages
            else st.OutgoingMessages.trySend (.rx true (parseLSFFields spkt.LSD).Source)).trySend
            (.rx false [])
        else
          (if st.rxActive then st.OutgoingMessages
            else st.OutgoingMessages.trySend (.rx true (parseLSFFields spkt.LSD).Source))) := by
  obtain ⟨hlen, hmagic, _, _⟩ := ParseStreamPacket_ok_inv pkt spkt h
  unfold processPacket
  rw [if_neg (by
    rw [slice_zero, hmagic]
    simp
    omega), ParseStreamPacketWithLSF_ok pkt spkt h]
  dsimp only
  cases hrx : st.rxActive
  · obtain ⟨frame, sh1, e1⟩ := HandleIncomingPacket_ok env dec hbits st.sh pkt usePCM spkt h
    simp only [Bool.not_false, if_true, Bool.false_eq_true, if_false, e1]
    cases hl : spkt.IsLast <;> by_cases hf : frame.length = 0 <;> simp [hf]
  · obtain ⟨frame, sh1, e1⟩ := HandleIncomingPacket_ok env dec hbits st.sh pkt usePCM spkt h
    simp only [Bool.not_true, Bool.false_eq_true, if_false, if_true, e1]
    cases hl : spkt.IsLast <;> by_cases hf : frame.length = 0 <;> simp [hf, hrx]

theorem Chan.trySend_room (ch : Chan α) (v : α) (h : ch.buf.length < ch.cap) :
    ch.trySend v = { ch with buf := ch.buf ++ [v] } := by
  unfold Chan.trySend
  rw [if_pos h]

/-- C22: `processPacket` as the step of the receive loop, for a codec with 64 bits per
frame as mode 3200 has. For a packet that `ParseStreamPacket` accepts, whose LSD always
parses: `rx` active with the decoded source callsign of the LSD is offered to
`OutgoingMessages` iff `rxActive` was false before, `rxActive` afterwards is the negation
of the last bit of the packet, and `rx` inactive is offered iff the last bit is set; the
offers are the non-blocking sends of the code, which place the message when the channel
has room. For a packet that `ParseStreamPacket` rejects the state is unchanged: `rxActive`,
the two channels and the handler. -/
theorem processPacket_step (env : Env σ ν) (dec : Codec2Dec σ)
    (hbits : ∀ c, env.codec.bits_per_frame c = 64) (usePCM : Bool) (st : RxState σ ν)
    (pkt : List Nat) :
    (∀ spkt, ParseStreamPacket pkt = .ok spkt →
      ParseStreamPacketWithLSF pkt = .ok (spkt, .ok (parseLSFFields spkt.LSD)) ∧
      (processPacket env dec usePCM st pkt).rxActive = !spkt.IsLast ∧
      (processPacket env dec usePCM st pkt).OutgoingMessages =
        (if spkt.IsLast then
          (if st.rxActive then st.OutgoingMessages
            else st.OutgoingMessages.trySend (.rx true (parseLSFFields spkt.LSD).Source)).trySend
            (.rx false [])
        else
          (if st.rxActive then st.OutgoingMessages
            else st.OutgoingMessages.trySend (.rx true (parseLSFFields spkt.LSD).Source))) ∧
      (st.OutgoingMessages.buf.length + 2 ≤ st.OutgoingMessages.cap →
        (processPacket env dec usePCM st pkt).OutgoingMessages.buf =
          st.OutgoingMessages.buf ++
            (if st.rxActive then [] else [.rx true (parseLSFFields spkt.LSD).Source]) ++
            (if spkt.IsLast then [.rx false []] else []))) ∧
    (∀ e, ParseStreamPacket pkt = .error e → processPacket env dec usePCM st pkt = st) := by
  refine ⟨fun spkt h => ?_, fun e h => processPacket_error env dec usePCM st pkt e h⟩
  obtain ⟨h1, h2⟩ := processPacket_ok env dec hbits usePCM st pkt spkt h
  refine ⟨ParseStreamPacketWithLSF_ok pkt spkt h, h1, h2, fun hroom => ?_⟩
  rw [h2]
  cases hl : spkt.IsLast <;> cases hr : st.rxActive
  · simp [Chan.trySend_room _ _ (show st.OutgoingMessages.buf.length < _ by omega)]
  · simp
  · have hr1 := Chan.trySend_room st.OutgoingMessages
      (.rx true (parseLSFFields spkt.LSD).Source) (by omega)
    simp only [Bool.false_eq_true, if_false, if_true]
    rw [hr1, Chan.trySend_room _ _ (by simp; omega)]
  · simp [Chan.trySend_room _ _ (show st.OutgoingMessages.buf.length < _ by omega)]

/-- C22 on the first packet of the unit test `TestProcessPacket`. -/
theorem processPacket_step_witness :
    (∀ spkt, ParseStreamPacket (testPacket 0 false) = .ok spkt →
      ParseStreamPacketWithLSF (testPacket 0 false) =
        .ok (spkt, .ok (parseLSFFields spkt.LSD)) ∧
      (processPacket recordingEnv zeroDec false testRxState (testPacket 0 false)).rxActive =
        !spkt.IsLast ∧
      (processPacket recordingEnv zeroDec false testRxState (testPacket 0 false)).OutgoingMessages =
        (if spkt.IsLast then
          (if testRxState.rxActive then testRxState.OutgoingMessages
            else testRxState.OutgoingMessages.trySend
              (.rx true (parseLSFFields spkt.LSD).Source)).trySend
            (.rx false [])
        else
          (if testRxState.rxActive then testRxState.OutgoingMessages
            else testRxState.OutgoingMessages.trySend
              (.rx true (parseLSFFields spkt.LSD).Source))) ∧
      (testRxState.OutgoingMessages.buf.length + 2 ≤ testRxState.OutgoingMessages.cap →
        (processPacket recordingEnv zeroDec false testRxState (testPacket 0 false)).OutgoingMessages.buf =
          testRxState.OutgoingMessages.buf ++
            (if testRxState.rxActive then [] else [.rx true (parseLSFFields spkt.LSD).Source]) ++
            (if spkt.IsLast then [.rx false []] else []))) ∧
    (∀ e, ParseStreamPacket (testPacket 0 false) = .error e →
      processPacket recordingEnv zeroDec false testRxState (testPacket 0 false) =
        testRxState) :=
  processPacket_step recordingEnv zeroDec (fun _ => rfl) false testRxState (testPacket 0 false)

theorem Close_closed (mapUpper : List Nat → List Nat) (sock : UDPSocket ν)
    (c : ReflectorClient ν) :
    (ReflectorClient.Close mapUpper sock c).closed = true ∧
      (ReflectorClient.Close mapUpper sock c).connected = c.connected ∧
      (ReflectorClient.Close mapUpper sock c).lastPing = c.lastPing ∧
      (ReflectorClient.Close mapUpper sock c).Events = c.Events ∧
      (c.closed = true → ReflectorClient.Close mapUpper sock c = c) := by
  unfold ReflectorClient.Close
  by_cases h : c.closed = true
  · rw [if_pos h]
    exact ⟨h, rfl, rfl, rfl, fun _ => rfl⟩
  · rw [if_neg h]
    unfold sendControl
    dsimp only
    refine ⟨?_, ?_, ?_, ?_, fun h1 => absurd h1 h⟩ <;>
      (cases BuildDISC mapUpper c.Callsign with
        | error e => rfl
        | ok pkt =>
          dsimp only
          cases sock.WriteToUDP c.UDPConn pkt <;> rfl)

theorem sendControl_fields (sock : UDPSocket ν) (c : ReflectorClient ν)
    (build : Except CallsignError (List Nat)) :
    (sendControl sock c build).connected = c.connected ∧
      (sendControl sock c build).lastPing = c.lastPing ∧
      (sendControl sock c build).closed = c.closed ∧
      (sendControl sock c build).Events = c.Events ∧
      (sendControl sock c build).written =
        c.written ++ (match build with | .ok pkt => [pkt] | .error _ => []) := by
  unfold sendControl
  cases build with
  | error e => simp
  | ok pkt =>
    dsimp only
    cases sock.WriteToUDP c.UDPConn pkt <;> simp

/-- C23: `handleControlPacket` as a step on the client state. `ACKN` sets `connected` and
sets last-heard to the time of the call; `PING` sets last-heard to the time of the call
and hands one packet to the socket, the `PONG` built from the client's own callsign, which
is `"PONG"` followed by its encoding, leaving `connected`, the closed latch and `Events`
as they were; `NACK`, on a client that is not closed, offers one `NACK` event to `Events`,
placed if there is room, and closes the client; `DISC` closes the client; every other
control type and every packet `ParseControlPacket` rejects leaves the client as it is, so
`connected`, last-heard and the closed latch are unchanged and nothing is sent. -/
theorem handleControlPacket_step (mapUpper : List Nat → List Nat) (sock : UDPSocket ν)
    (now : Nat) (c : ReflectorClient ν) (data : List Nat) :
    (∀ e, ParseControlPacket data = .error e →
      handleControlPacket mapUpper sock now c data = some c) ∧
    (∀ p, ParseControlPacket data = .ok p →
      (p.ctrlType = .CtrlACKN →
        handleControlPacket mapUpper sock now c data =
          some { c with connected := true, lastPing := now }) ∧
      (p.ctrlType = .CtrlPING →
        ∃ c1, handleControlPacket mapUpper sock now c data = some c1 ∧
          c1.lastPing = now ∧ c1.connected = c.connected ∧ c1.closed = c.closed ∧
          c1.Events = c.Events ∧
          ∀ enc, EncodeCallsign mapUpper c.Callsign = .ok enc →
            BuildPONG mapUpper c.Callsign = .ok (str "PONG" ++ enc) ∧
            c1.written = c.written ++ [str "PONG" ++ enc]) ∧
      (p.ctrlType = .CtrlNACK → c.closed = false →
        ∃ c1, handleControlPacket mapUpper sock now c data = some c1 ∧
          c1.closed = true ∧ c1.Events = c.Events.trySend .EventNACK ∧
          (c.Events.buf.length < c.Events.cap →
            c1.Events.buf = c.Events.buf ++ [.EventNACK])) ∧
      (p.ctrlType = .CtrlDISC →
        ∃ c1, handleControlPacket mapUpper sock now c data = some c1 ∧ c1.closed = true ∧
          c1.connected = c.connected ∧ c1.lastPing = c.lastPing) ∧
      (p.ctrlType ≠ .CtrlACKN → p.ctrlType ≠ .CtrlPING → p.ctrlType ≠ .CtrlNACK →
        p.ctrlType ≠ .CtrlDISC → handleControlPacket mapUpper sock now c data = some c)) := by
  refine ⟨fun e h => ?_, fun p h => ⟨fun ht => ?_, fun ht => ?_, fun ht hc => ?_, fun ht => ?_,
    fun h1 h2 h3 h4 => ?_⟩⟩
  · unfold handleControlPacket
    rw [h]
  · unfold handleControlPacket
    rw [h]
    simp only [ht]
  · unfold handleControlPacket
    rw [h]
    simp only [ht]
    obtain ⟨a, b, d, e, f⟩ := sendControl_fields sock { c with lastPing := now }
      (BuildPONG mapUpper c.Callsign)
    refine ⟨_, rfl, b, a, d, e, fun enc henc => ?_⟩
    have hb : BuildPONG mapUpper c.Callsign = .ok (str "PONG" ++ enc) := by
      unfold BuildPONG buildControlPacket
      rw [henc]
      rfl
    refine ⟨hb, ?_⟩
    rw [f, hb]
  · unfold handleControlPacket
    rw [h]
    simp only [ht]
    rw [if_neg (by rw [hc]; simp)]
    obtain ⟨a, _, _, d, _⟩ := Close_closed mapUpper sock
      { c with Events := c.Events.trySend .EventNACK }
    refine ⟨_, rfl, a, d, fun hroom => ?_⟩
    rw [d]
    dsimp only
    rw [Chan.trySend_room _ _ hroom]
  · unfold handleControlPacket
    rw [h]
    simp only [ht]
    obtain ⟨a, b, d, _, _⟩ := Close_closed mapUpper sock c
    exact ⟨_, rfl, a, b, d⟩
  · unfold handleControlPacket
    rw [h]
    dsimp only
    cases ht : p.ctrlType <;> simp_all

end M17
